import Mathlib

/-!
Verification development for the comfy-pilot workflow core: a shallow
embedding of `src/workflow/manipulator.py` (class `WorkflowManipulator`),
`src/validation/node_registry.py` (class `NodeRegistry`) and
`src/validation/validator.py` (class `WorkflowValidator`), together with
theorems settling the behavioural claims about them.

Modelling conventions:
- JSON-like Python values (what `json.loads` produces, and what flows through
  workflow dicts and the `/object_info` payload) are modelled by `JValue`.
  Numbers are modelled as mathematical integers (`Int`); floating point
  values are outside the model (none of the verified properties depend on
  them, and the JSON parser model rejects float literals).
- Python dicts are association lists (`List (String × key)`) in insertion
  order, with assignment (`dictSet`) updating in place and `del` filtering;
  Python guarantees unique keys, which reachable states preserve.
- A function that can raise an uncaught Python exception is modelled with an
  `Option` result: `none` is "raised".  `NodeRegistry.fetch` additionally
  returns the (possibly corrupted) state at the moment of the raise, because
  the mutation of `self._nodes` precedes the raising statement.
-/

set_option maxRecDepth 10000

/-- JSON-like Python value (the result of `json.loads`, Python dict/list/str/
int/bool/None).  Floats are not modelled. -/
inductive JValue where
  | null : JValue
  | bool : Bool → JValue
  | int : Int → JValue
  | str : String → JValue
  | arr : List JValue → JValue
  | obj : List (String × JValue) → JValue
deriving Inhabited

mutual
/-- Decidable equality on `JValue` (hand-rolled: the automatic derivation does
not handle the nested lists). -/
def jdecEq : (a b : JValue) → Decidable (a = b)
  | .null, .null => isTrue rfl
  | .bool x, .bool y =>
    match decEq x y with
    | isTrue h => isTrue (by rw [h])
    | isFalse h => isFalse (fun e => h (JValue.bool.inj e))
  | .int x, .int y =>
    match decEq x y with
    | isTrue h => isTrue (by rw [h])
    | isFalse h => isFalse (fun e => h (JValue.int.inj e))
  | .str x, .str y =>
    match decEq x y with
    | isTrue h => isTrue (by rw [h])
    | isFalse h => isFalse (fun e => h (JValue.str.inj e))
  | .arr xs, .arr ys =>
    match jdecEqList xs ys with
    | isTrue h => isTrue (by rw [h])
    | isFalse h => isFalse (fun e => h (JValue.arr.inj e))
  | .obj xs, .obj ys =>
    match jdecEqPairs xs ys with
    | isTrue h => isTrue (by rw [h])
    | isFalse h => isFalse (fun e => h (JValue.obj.inj e))
  | .null, .bool _ => isFalse (fun h => JValue.noConfusion h)
  | .null, .int _ => isFalse (fun h => JValue.noConfusion h)
  | .null, .str _ => isFalse (fun h => JValue.noConfusion h)
  | .null, .arr _ => isFalse (fun h => JValue.noConfusion h)
  | .null, .obj _ => isFalse (fun h => JValue.noConfusion h)
  | .bool _, .null => isFalse (fun h => JValue.noConfusion h)
  | .bool _, .int _ => isFalse (fun h => JValue.noConfusion h)
  | .bool _, .str _ => isFalse (fun h => JValue.noConfusion h)
  | .bool _, .arr _ => isFalse (fun h => JValue.noConfusion h)
  | .bool _, .obj _ => isFalse (fun h => JValue.noConfusion h)
  | .int _, .null => isFalse (fun h => JValue.noConfusion h)
  | .int _, .bool _ => isFalse (fun h => JValue.noConfusion h)
  | .int _, .str _ => isFalse (fun h => JValue.noConfusion h)
  | .int _, .arr _ => isFalse (fun h => JValue.noConfusion h)
  | .int _, .obj _ => isFalse (fun h => JValue.noConfusion h)
  | .str _, .null => isFalse (fun h => JValue.noConfusion h)
  | .str _, .bool _ => isFalse (fun h => JValue.noConfusion h)
  | .str _, .int _ => isFalse (fun h => JValue.noConfusion h)
  | .str _, .arr _ => isFalse (fun h => JValue.noConfusion h)
  | .str _, .obj _ => isFalse (fun h => JValue.noConfusion h)
  | .arr _, .null => isFalse (fun h => JValue.noConfusion h)
  | .arr _, .bool _ => isFalse (fun h => JValue.noConfusion h)
  | .arr _, .int _ => isFalse (fun h => JValue.noConfusion h)
  | .arr _, .str _ => isFalse (fun h => JValue.noConfusion h)
  | .arr _, .obj _ => isFalse (fun h => JValue.noConfusion h)
  | .obj _, .null => isFalse (fun h => JValue.noConfusion h)
  | .obj _, .bool _ => isFalse (fun h => JValue.noConfusion h)
  | .obj _, .int _ => isFalse (fun h => JValue.noConfusion h)
  | .obj _, .str _ => isFalse (fun h => JValue.noConfusion h)
  | .obj _, .arr _ => isFalse (fun h => JValue.noConfusion h)

/-- Decidable equality on lists of `JValue`. -/
def jdecEqList : (a b : List JValue) → Decidable (a = b)
  | [], [] => isTrue rfl
  | [], _ :: _ => isFalse (fun h => List.noConfusion h)
  | _ :: _, [] => isFalse (fun h => List.noConfusion h)
  | x :: xs, y :: ys =>
    match jdecEq x y with
    | isFalse h => isFalse (fun e => h (List.cons.inj e).1)
    | isTrue h1 =>
      match jdecEqList xs ys with
      | isTrue h2 => isTrue (by rw [h1, h2])
      | isFalse h2 => isFalse (fun e => h2 (List.cons.inj e).2)

/-- Decidable equality on dict entry lists. -/
def jdecEqPairs : (a b : List (String × JValue)) → Decidable (a = b)
  | [], [] => isTrue rfl
  | [], _ :: _ => isFalse (fun h => List.noConfusion h)
  | _ :: _, [] => isFalse (fun h => List.noConfusion h)
  | (k1, v1) :: xs, (k2, v2) :: ys =>
    match decEq k1 k2 with
    | isFalse h => isFalse (fun e => h (congrArg Prod.fst (List.cons.inj e).1))
    | isTrue hk =>
      match jdecEq v1 v2 with
      | isFalse h => isFalse (fun e => h (congrArg Prod.snd (List.cons.inj e).1))
      | isTrue hv =>
        match jdecEqPairs xs ys with
        | isTrue ht => isTrue (by rw [hk, hv, ht])
        | isFalse h => isFalse (fun e => h (List.cons.inj e).2)
end

instance : DecidableEq JValue := jdecEq

/-- Association-list lookup, modelling Python `d.get(k)` / `d[k]` on a dict
with unique keys (first match). -/
def dget {α : Type} (l : List (String × α)) (k : String) : Option α :=
  (l.find? (fun p => p.1 = k)).map (·.2)

/-- Dict key membership, modelling Python `k in d`. -/
def dmem {α : Type} (l : List (String × α)) (k : String) : Bool :=
  l.any (fun p => p.1 = k)

/-- Dict assignment `d[k] = v`: updates in place (keeping insertion order) if
the key exists, otherwise appends. -/
def dictSet {α : Type} (l : List (String × α)) (k : String) (v : α) :
    List (String × α) :=
  if l.any (fun p => p.1 = k) then
    l.map (fun p => if p.1 = k then (k, v) else p)
  else l ++ [(k, v)]

/-- Dict deletion `del d[k]` (unique keys, so filtering is the deletion). -/
def dictDel {α : Type} (l : List (String × α)) (k : String) :
    List (String × α) :=
  l.filter (fun p => ¬ p.1 = k)

/-- The keys of a dict, in insertion order. -/
def dkeys {α : Type} (l : List (String × α)) : List String := l.map (·.1)

/-- Python truthiness (`bool(x)`) on modelled values: `None`, `False`, `0`,
`""`, `[]` and `\x7b\x7d` are falsy, everything else truthy. -/
def pyFalsy : JValue → Bool
  | .null => true
  | .bool b => !b
  | .int n => n = 0
  | .str s => s = ""
  | .arr xs => xs.isEmpty
  | .obj kvs => kvs.isEmpty

/-- Decimal digits with explicit fuel (structural recursion so that concrete
evaluation reduces; `natDigs` supplies ample fuel). -/
def natDigsAux : Nat → Nat → List Char
  | 0, _ => []
  | fuel + 1, n =>
    if n < 10 then [Char.ofNat (48 + n)]
    else natDigsAux fuel (n / 10) ++ [Char.ofNat (48 + n % 10)]

/-- Decimal digits of a natural number, most significant first (the digits
Python's `str(int)` prints). -/
def natDigs (n : Nat) : List Char := natDigsAux (n + 1) n

/-- Decimal rendering of a natural number. -/
def natStr (n : Nat) : String := String.mk (natDigs n)

/-- Python `str(int)`: decimal, with a leading minus sign when negative. -/
def intStr (n : Int) : String :=
  if n < 0 then String.mk ('-' :: natDigs n.natAbs) else String.mk (natDigs n.natAbs)

/-- Is this character one Python's `repr` of a string escapes specially?  The
model escapes the backslash, the quote character and the common control
characters; other characters are kept verbatim (Python additionally escapes
the remaining non-printable characters, which no verified property touches). -/
def reprEscChar (q : Char) (c : Char) : List Char :=
  if c = '\\' then ['\\', '\\']
  else if c = q then ['\\', q]
  else if c = '\n' then ['\\', 'n']
  else if c = '\r' then ['\\', 'r']
  else if c = '\t' then ['\\', 't']
  else [c]

/-- Python `repr` of a string: single quotes, unless the string contains a
single quote and no double quote, in which case double quotes. -/
def pyReprStr (s : String) : String :=
  let q : Char := if s.data.contains '\x27' ∧ ¬ s.data.contains '"' then '"' else '\x27'
  String.mk (q :: (s.data.map (reprEscChar q)).flatten ++ [q])

mutual
/-- Python `str()` of a modelled value (used by the source in f-strings and in
`str(value[0])`). -/
def pyStr : JValue → String
  | .null => "None"
  | .bool b => if b then "True" else "False"
  | .int n => intStr n
  | .str s => s
  | .arr xs => pyRepr (.arr xs)
  | .obj kvs => pyRepr (.obj kvs)

/-- Python `repr()` of a modelled value. -/
def pyRepr : JValue → String
  | .null => "None"
  | .bool b => if b then "True" else "False"
  | .int n => intStr n
  | .str s => pyReprStr s
  | .arr xs => "[" ++ String.intercalate ", " (pyReprList xs) ++ "]"
  | .obj kvs => "\x7b" ++ String.intercalate ", " (pyReprPairs kvs) ++ "\x7d"

/-- `repr` of each element of a list. -/
def pyReprList : List JValue → List String
  | [] => []
  | x :: t => pyRepr x :: pyReprList t

/-- `repr` of each `key: value` pair of a dict. -/
def pyReprPairs : List (String × JValue) → List String
  | [] => []
  | (k, v) :: t => (pyReprStr k ++ ": " ++ pyRepr v) :: pyReprPairs t
end

/-- Is `c` an ASCII decimal digit? -/
def isDig (c : Char) : Bool := 48 ≤ c.toNat ∧ c.toNat ≤ 57

/-- Numeric value of a run of decimal digits (most significant first). -/
def digsVal (l : List Char) : Nat :=
  l.foldl (fun a c => 10 * a + (c.toNat - 48)) 0

/-- Whitespace for Python `str.strip()` (the ASCII part, which covers every
string this development evaluates). -/
def isPyWs (c : Char) : Bool := c = ' ' ∨ c = '\t' ∨ c = '\n' ∨ c = '\r'

/-- Python `int(s)` on a string: strip whitespace, optional sign, then decimal
digits; raises `ValueError` (modelled `none`) otherwise.  (Python also accepts
underscores between digits, which no node id in scope contains.) -/
def pyIntCore : List Char → Option Int
  | [] => none
  | c :: ds =>
    if c = '-' then
      if ds ≠ [] ∧ ds.all isDig then some (-(digsVal ds : Int)) else none
    else if c = '+' then
      if ds ≠ [] ∧ ds.all isDig then some ((digsVal ds : Int)) else none
    else
      if (c :: ds).all isDig then some ((digsVal (c :: ds) : Int)) else none

/-- Python `int(s)` after stripping surrounding whitespace. -/
def pyInt (s : String) : Option Int :=
  pyIntCore (((s.data.dropWhile isPyWs).reverse.dropWhile isPyWs).reverse)

/-- Python `isinstance(x, int)` with the value as an `Int` (`bool` is a
subclass of `int` in Python, `True` counting as 1 and `False` as 0). -/
def pyAsInt : JValue → Option Int
  | .int n => some n
  | .bool b => some (if b then 1 else 0)
  | _ => none

/-- Is `needle` a prefix of `hay`? -/
def listStartsWith : List Char → List Char → Bool
  | [], _ => true
  | _ :: _, [] => false
  | a :: t, b :: u => a = b && listStartsWith t u

/-- Is `needle` a contiguous sublist of `hay` (Python substring containment)? -/
def listContainsSub (needle hay : List Char) : Bool :=
  match hay with
  | [] => needle.isEmpty
  | _ :: u => listStartsWith needle hay || listContainsSub needle u

/-- Python `name in container` for a string `name`: key membership for dicts,
element equality for lists, substring test for strings; raises `TypeError`
(modelled `none`) for the other modelled values. -/
def pyInStr (name : String) (container : JValue) : Option Bool :=
  match container with
  | .obj kvs => some (dmem kvs name)
  | .arr xs => some (xs.any (fun x => match x with | .str t => name = t | _ => false))
  | .str s => some (listContainsSub name.data s.data)
  | _ => none

/-- Python `s == x` where `s` is a string: true only against an equal string. -/
def pyEqStr (x : JValue) (s : String) : Bool :=
  match x with
  | .str t => t = s
  | _ => false

/-- Python `a < m` where `a` is a number and `m` a modelled value: defined
against numbers (with `bool` as 0/1), raising `TypeError` otherwise. -/
def pyLtNum (a : Int) (m : JValue) : Option Bool :=
  match m with
  | .int n => some (a < n)
  | .bool b => some (a < (if b then 1 else 0))
  | _ => none

/-- Python `a > m` where `a` is a number, as `pyLtNum`. -/
def pyGtNum (a : Int) (m : JValue) : Option Bool :=
  match m with
  | .int n => some (a > n)
  | .bool b => some (a > (if b then 1 else 0))
  | _ => none

/-! ## `src/validation/node_registry.py` -/

/-- `InputDefinition` dataclass: definition of a node input.  `default`,
`min_val`, `max_val` hold whatever the raw constraints dict supplied (`none`
models Python `None`, i.e. absent or JSON `null`). -/
structure InputDefinition where
  name : String
  type : String
  required : Bool := true
  default : Option JValue := none
  min_val : Option JValue := none
  max_val : Option JValue := none
  options : Option (List JValue) := none
deriving DecidableEq, Inhabited

/-- `NodeDefinition` dataclass: definition of a ComfyUI node type.  The
`category`/`display_name`/`description` fields keep the raw payload values
(the dataclass annotations say `str` but nothing enforces them); `output_types`
and `output_names` keep the raw list elements likewise. -/
structure NodeDefinition where
  class_type : String
  category : JValue := .str ""
  display_name : JValue := .str ""
  description : JValue := .str ""
  inputs_required : List (String × InputDefinition) := []
  inputs_optional : List (String × InputDefinition) := []
  output_types : List JValue := []
  output_names : List JValue := []
deriving DecidableEq, Inhabited

/-- `NodeRegistry` state: the cached node definitions, the timestamp of the
last successful fetch, and whether a fetch has succeeded.  (`comfyui_url` only
feeds the abstracted network call and is omitted.) -/
structure NodeRegistry where
  nodes : List (String × NodeDefinition) := []
  last_fetch : Int := 0
  fetched : Bool := false
deriving DecidableEq, Inhabited

/-- `NodeRegistry.CACHE_TTL`. -/
def NodeRegistry.CACHE_TTL : Int := 300

/-- Dict lookup where a stored JSON `null` behaves like Python `None`
(constraint dicts store `json.loads` output, which maps `null` to `None`, and
the registry only tests these fields with `is not None`). -/
def cgetOpt (kvs : List (String × JValue)) (k : String) : Option JValue :=
  match dget kvs k with
  | some .null => none
  | x => x

/-- `NodeRegistry._parse_input_spec`: parse one raw input specification
`[typeInfo, constraints?]`. -/
def NodeRegistry._parse_input_spec (name : String) (spec : JValue)
    (required : Bool) : InputDefinition :=
  let d0 : InputDefinition := { name := name, type := "UNKNOWN", required := required }
  match spec with
  | .arr [] => d0
  | .arr (type_info :: restSpec) =>
    let constraints : List (String × JValue) :=
      match restSpec with
      | c :: _ => match c with | .obj kvs => kvs | _ => []
      | [] => []
    let base :=
      match type_info with
      | .str s => { d0 with type := s }
      | .arr opts => { d0 with type := "COMBO", options := some opts }
      | _ => d0
    { base with
      default := cgetOpt constraints "default"
      min_val := cgetOpt constraints "min"
      max_val := cgetOpt constraints "max" }
  | _ => d0

/-- Parse one section (`required` or `optional`) of the raw input record into
input definitions, in payload order. -/
def parseInputSection (section_data : List (String × JValue)) (required : Bool) :
    List (String × InputDefinition) :=
  section_data.map (fun p => (p.1, NodeRegistry._parse_input_spec p.1 p.2 required))

/-- `NodeRegistry._parse_node_info`: parse the `/object_info` entry for one
node type.  Returns `none` when the Python code would raise: `info` not a dict
(`info.get` on a non-dict) or `info["input"]` present but not a dict
(`input_info.get` on a non-dict). -/
def NodeRegistry._parse_node_info (class_type : String) (info : JValue) :
    Option NodeDefinition :=
  match info with
  | .obj kvs =>
    let node0 : NodeDefinition :=
      { class_type := class_type
        category := (dget kvs "category").getD (.str "")
        display_name := (dget kvs "display_name").getD (.str class_type)
        description := (dget kvs "description").getD (.str "") }
    let node1 :=
      match (dget kvs "output").getD (.arr []) with
      | .arr xs => { node0 with output_types := xs }
      | _ => node0
    let node2 :=
      match (dget kvs "output_name").getD (.arr []) with
      | .arr xs => { node1 with output_names := xs }
      | _ => node1
    match (dget kvs "input").getD (.obj []) with
    | .obj ikvs =>
      let node3 :=
        match (dget ikvs "required").getD (.obj []) with
        | .obj sd => { node2 with inputs_required := parseInputSection sd true }
        | _ => node2
      let node4 :=
        match (dget ikvs "optional").getD (.obj []) with
        | .obj sd => { node3 with inputs_optional := parseInputSection sd false }
        | _ => node3
      some node4
    | _ => none
  | _ => none

/-- One network-call outcome for `NodeRegistry.fetch`.  `failure` covers every
path the `try` block turns into `return False`: network error, timeout,
non-200 status, and a body that fails JSON decoding.  `payload` is a 200
response whose body decoded to `data`. -/
inductive FetchOutcome where
  | failure : FetchOutcome
  | payload : JValue → FetchOutcome

/-- The parsing loop of `fetch`: `self._nodes` was already reset to empty, and
each parsed definition is inserted in turn; a raise inside
`_parse_node_info` (modelled `none`) aborts the loop leaving the partial
nodes dict in place. -/
def fetchParseLoop : List (String × JValue) → List (String × NodeDefinition) →
    Option Unit × List (String × NodeDefinition)
  | [], acc => (some (), acc)
  | (class_type, info) :: rest, acc =>
    match NodeRegistry._parse_node_info class_type info with
    | some node_def => fetchParseLoop rest (dictSet acc class_type node_def)
    | none => (none, acc)

/-- `NodeRegistry.fetch`, as a function of the current state, the current
time (`time.time()`) and the network outcome.  The first component is the
returned value (`none` = the call raised); the second is the registry state
afterwards — on a raise inside the parsing loop this is the corrupted state,
because `self._nodes = \x7b\x7d` and the partial inserts have already
happened. -/
def NodeRegistry.fetch (reg : NodeRegistry) (now : Int)
    (outcome : FetchOutcome) : Option Bool × NodeRegistry :=
  if reg.fetched ∧ now - reg.last_fetch < NodeRegistry.CACHE_TTL then
    (some true, reg)
  else
    match outcome with
    | .failure => (some false, reg)
    | .payload data =>
      match data with
      | .obj entries =>
        match fetchParseLoop entries [] with
        | (some (), nodes) =>
          (some true, { nodes := nodes, last_fetch := now, fetched := true })
        | (none, nodes) => (none, { reg with nodes := nodes })
      | _ => (none, { reg with nodes := [] })

/-- `NodeRegistry.is_loaded`. -/
def NodeRegistry.is_loaded (reg : NodeRegistry) : Bool :=
  reg.fetched && !reg.nodes.isEmpty

/-- `NodeRegistry.node_exists` on a string class type. -/
def NodeRegistry.node_exists (reg : NodeRegistry) (class_type : String) : Bool :=
  dmem reg.nodes class_type

/-- `NodeRegistry.get_node` as invoked with an arbitrary value
(`self._nodes.get(class_type)`: a non-string key is simply absent). -/
def regGetNode (reg : NodeRegistry) (class_type : JValue) : Option NodeDefinition :=
  match class_type with
  | .str s => dget reg.nodes s
  | _ => none

/-- `NodeRegistry.get_output_type` as invoked with a raw slot value.  Result
`none` models the raise (`0 <= slot_index` on a non-number when the node was
found); `some none` models `return None`; `some (some t)` is the output type
tag at the slot. -/
def regGetOutputType (reg : NodeRegistry) (class_type : JValue) (slot : JValue) :
    Option (Option JValue) :=
  match regGetNode reg class_type with
  | none => some none
  | some node =>
    match pyAsInt slot with
    | none => none
    | some n =>
      if 0 ≤ n ∧ n < (node.output_types.length : Int) then
        some (node.output_types.get? n.toNat)
      else some none

/-- `NodeRegistry.get_input_type`: the declared type of a node input, checking
required inputs first, then optional. -/
def regGetInputType (reg : NodeRegistry) (class_type : JValue) (input_name : String) :
    Option (String × Bool) :=
  match regGetNode reg class_type with
  | none => none
  | some node =>
    match dget node.inputs_required input_name with
    | some d => some (d.type, true)
    | none =>
      match dget node.inputs_optional input_name with
      | some d => some (d.type, false)
      | none => none

/-! ## `src/workflow/manipulator.py` -/

/-- The workflow mapping: node id → node value (API-format workflow dict). -/
abbrev Workflow := List (String × JValue)

/-- `WorkflowManipulator` state: the workflow dict and the cached
`_next_node_id` counter. -/
structure WorkflowManipulator where
  workflow : Workflow
  _next_node_id : Int
deriving DecidableEq, Inhabited

/-- `WorkflowManipulator._calculate_next_id`: 1 on an empty workflow,
otherwise `max(int(k) for k in keys) + 1`, falling back to 1 when any key
fails `int()` (the `ValueError` is caught). -/
def WorkflowManipulator._calculate_next_id (wf : Workflow) : Int :=
  if wf.isEmpty then 1
  else
    match (wf.map (·.1)).mapM pyInt with
    | some [] => 1
    | some (n :: ns) => ns.foldl max n + 1
    | none => 1

/-- `WorkflowManipulator.__init__`: start from a given workflow dict (or the
empty one) and compute the id counter. -/
def WorkflowManipulator.mk' (wf : Workflow) : WorkflowManipulator :=
  { workflow := wf, _next_node_id := WorkflowManipulator._calculate_next_id wf }

/-- `WorkflowManipulator()` with no argument. -/
def WorkflowManipulator.new : WorkflowManipulator := WorkflowManipulator.mk' []

/-- `WorkflowManipulator.add_node`: insert a node under the stringified
counter, bump the counter, return the new id.  `title or class_type` makes an
empty title fall back to the class type. -/
def WorkflowManipulator.add_node (m : WorkflowManipulator) (class_type : String)
    (inputs : List (String × JValue)) (title : Option String) :
    String × WorkflowManipulator :=
  let node_id := intStr m._next_node_id
  let t := match title with
    | some s => if s = "" then class_type else s
    | none => class_type
  let node : JValue := .obj
    [("class_type", .str class_type), ("inputs", .obj inputs),
     ("_meta", .obj [("title", .str t)])]
  (node_id,
   { workflow := dictSet m.workflow node_id node
     _next_node_id := m._next_node_id + 1 })

/-- The per-entry keep test of the `remove_node` cleanup loop: an entry is
deleted exactly when its value is a 2-element list whose first element
stringifies to the removed id. -/
def removeKeepEntry (node_id : String) (p : String × JValue) : Bool :=
  match p.2 with
  | .arr [a, _] => ¬ pyStr a = node_id
  | _ => true

/-- The cleanup step of `remove_node` on one remaining node: strip the input
entries whose value is a 2-element list whose first element stringifies to the
removed id.  `none` models the raise on a non-dict node (`node.get`) or a
non-dict `inputs` value (`inputs.items()`). -/
def removeNodeCleanup (node_id : String) (node : JValue) : Option JValue :=
  match node with
  | .obj kvs =>
    match dget kvs "inputs" with
    | none => some (.obj kvs)
    | some (.obj ikvs) =>
      some (.obj (dictSet kvs "inputs" (.obj (ikvs.filter (removeKeepEntry node_id)))))
    | some _ => none
  | _ => none

/-- `WorkflowManipulator.remove_node`: `False` when the id is absent;
otherwise delete the node, strip dangling references from every remaining
node, and return `True`.  `none` models a raise during the cleanup loop. -/
def WorkflowManipulator.remove_node (m : WorkflowManipulator) (node_id : String) :
    Option (Bool × WorkflowManipulator) :=
  if ¬ dmem m.workflow node_id then some (false, m)
  else
    let rest := dictDel m.workflow node_id
    match rest.mapM (fun p => (removeNodeCleanup node_id p.2).map (p.1, ·)) with
    | some wf' => some (true, { m with workflow := wf' })
    | none => none

/-- `WorkflowManipulator.connect_nodes`: `False` when the target id is absent;
otherwise `self.workflow[target]["inputs"][name] = [source_id, slot]` — which
raises (modelled `none`) when the target node is not a dict, has no
`"inputs"` key (`KeyError`), or its `"inputs"` value does not support item
assignment. -/
def WorkflowManipulator.connect_nodes (m : WorkflowManipulator)
    (source_node_id : String) (source_output_slot : Int)
    (target_node_id : String) (target_input_name : String) :
    Option (Bool × WorkflowManipulator) :=
  if ¬ dmem m.workflow target_node_id then some (false, m)
  else
    match dget m.workflow target_node_id with
    | some (.obj kvs) =>
      match dget kvs "inputs" with
      | some (.obj ikvs) =>
        let link : JValue := .arr [.str source_node_id, .int source_output_slot]
        let node' : JValue := .obj (dictSet kvs "inputs" (.obj (dictSet ikvs target_input_name link)))
        some (true, { m with workflow := dictSet m.workflow target_node_id node' })
      | _ => none
    | _ => none

/-- `WorkflowManipulator.modify_input`: `False` when the id is absent;
otherwise `self.workflow[node_id]["inputs"][input_name] = value`, raising as
`connect_nodes` does when the node shape does not support it. -/
def WorkflowManipulator.modify_input (m : WorkflowManipulator) (node_id : String)
    (input_name : String) (value : JValue) : Option (Bool × WorkflowManipulator) :=
  if ¬ dmem m.workflow node_id then some (false, m)
  else
    match dget m.workflow node_id with
    | some (.obj kvs) =>
      match dget kvs "inputs" with
      | some (.obj ikvs) =>
        let node' : JValue := .obj (dictSet kvs "inputs" (.obj (dictSet ikvs input_name value)))
        some (true, { m with workflow := dictSet m.workflow node_id node' })
      | _ => none
    | _ => none

/-- The per-entry link test of `WorkflowManipulator.validate`: an input entry
is flagged exactly when its value is a 2-element list whose first element
stringifies to an id absent from the workflow. -/
def selfCheckLinkEntry (wfAll : Workflow) (node_id : String) (p : String × JValue) :
    List String :=
  match p.2 with
  | .arr [a, _] =>
    let source_id := pyStr a
    if ¬ dmem wfAll source_id then
      ["Node " ++ node_id ++ ": input \x27" ++ p.1 ++
       "\x27 references non-existent node \x27" ++ source_id ++ "\x27"]
    else []
  | _ => []

/-- The structural error messages `WorkflowManipulator.validate` produces for
one node.  `none` models the raise when `"class_type" not in node` hits a
node that supports no membership test, or when `inputs.items()` hits a
non-dict `inputs` value. -/
def selfCheckNode (wfAll : Workflow) (node_id : String) (node : JValue) :
    Option (List String) :=
  match pyInStr "class_type" node with
  | none => none
  | some hasCT =>
    let errs1 := if hasCT then [] else
      ["Node " ++ node_id ++ ": missing \x27class_type\x27"]
    match pyInStr "inputs" node with
    | none => none
    | some hasInputs =>
      if ¬ hasInputs then
        some (errs1 ++ ["Node " ++ node_id ++ ": missing \x27inputs\x27"])
      else
        match node with
        | .obj kvs =>
          match (dget kvs "inputs").getD (.obj []) with
          | .obj ikvs =>
            some (errs1 ++ ikvs.flatMap (selfCheckLinkEntry wfAll node_id))
          | _ => none
        | _ =>
          -- `node.get("inputs", \x7b\x7d)` raises unless the node is a dict;
          -- membership succeeded (string/list node), `.get` still raises.
          none

/-- `WorkflowManipulator.validate` (the local, catalog-independent
`selfCheck`): collect structural error messages over every node; valid iff
none. -/
def WorkflowManipulator.validate (m : WorkflowManipulator) :
    Option (Bool × List String) :=
  match m.workflow.mapM (fun p => selfCheckNode m.workflow p.1 p.2) with
  | some errLists =>
    let errors := errLists.flatten
    some (errors.isEmpty, errors)
  | none => none

/-! ## `src/validation/validator.py` -/

/-- `ValidationIssue` dataclass. -/
structure ValidationIssue where
  check : String
  node_id : String
  message : String
  severity : String := "error"
  suggestion : String := ""
deriving DecidableEq, Inhabited

/-- `ValidationResult` dataclass. -/
structure ValidationResult where
  valid : Bool := true
  issues : List ValidationIssue := []
  node_count : Nat := 0
  validated_against_registry : Bool := false
deriving DecidableEq, Inhabited

/-- `ValidationResult.errors`. -/
def ValidationResult.errors (r : ValidationResult) : List ValidationIssue :=
  r.issues.filter (fun i => i.severity = "error")

/-- `ValidationResult.warnings`. -/
def ValidationResult.warnings (r : ValidationResult) : List ValidationIssue :=
  r.issues.filter (fun i => i.severity = "warning")

/-- `WorkflowValidator._check_structure` on one node (always total: non-dict
nodes get an `invalid_structure` issue and are skipped). -/
def checkStructureNode (node_id : String) (node_data : JValue) :
    List ValidationIssue :=
  match node_data with
  | .obj kvs =>
    (if dmem kvs "class_type" then [] else
      [{ check := "missing_class_type", node_id := node_id
         message := "Node " ++ pyReprStr node_id ++ " missing \x27class_type\x27" }]) ++
    (if dmem kvs "inputs" then [] else
      [{ check := "missing_inputs", node_id := node_id
         message := "Node " ++ pyReprStr node_id ++ " missing \x27inputs\x27" }])
  | _ =>
    [{ check := "invalid_structure", node_id := node_id
       message := "Node " ++ pyReprStr node_id ++ " is not a dict" }]

/-- `WorkflowValidator._check_structure`. -/
def WorkflowValidator._check_structure (wf : Workflow) : List ValidationIssue :=
  wf.flatMap (fun p => checkStructureNode p.1 p.2)

/-- Check 1, `WorkflowValidator._check_node_exists`.  `suggest` abstracts
`NodeRegistry.suggest_similar` (difflib fuzzy matching over the registry keys;
no verified property depends on its output).  A non-string, truthy class type
reaches `suggest_similar` and raises inside difflib whenever the registry has
any key (`len()` of a non-sequence), modelled `none`. -/
def WorkflowValidator._check_node_exists (reg : NodeRegistry)
    (suggest : String → List String) (node_id : String) (class_type : JValue) :
    Option (List ValidationIssue) :=
  if pyFalsy class_type then some []
  else
    match class_type with
    | .str s =>
      if reg.node_exists s then some []
      else
        let similar := suggest s
        let suggestion :=
          match similar with
          | first :: _ => "Did you mean " ++ pyReprStr first ++ "?"
          | [] => ""
        some [{ check := "node_not_found", node_id := node_id
                message := "Node " ++ pyReprStr node_id ++ " uses unknown type " ++ pyReprStr s
                suggestion := suggestion }]
    | other =>
      if reg.nodes.isEmpty then
        some [{ check := "node_not_found", node_id := node_id
                message := "Node " ++ pyReprStr node_id ++ " uses unknown type " ++ pyRepr other }]
      else none

/-- Check 2, `WorkflowValidator._check_required_inputs`: every required input
(per the registry) must be a key of the node's `inputs`.  The membership test
`input_name not in inputs` raises (modelled `none`) when `inputs` supports no
membership test. -/
def WorkflowValidator._check_required_inputs (reg : NodeRegistry)
    (node_id : String) (class_type : JValue) (inputs : JValue) :
    Option (List ValidationIssue) :=
  match regGetNode reg class_type with
  | none => some []
  | some node_def =>
    node_def.inputs_required.foldlM (fun acc p =>
      match pyInStr p.1 inputs with
      | none => none
      | some present =>
        if present then some acc
        else some (acc ++
          [{ check := "required_input_missing", node_id := node_id
             message := "Node " ++ pyReprStr node_id ++ " (" ++ pyStr class_type ++
               ") missing required input " ++ pyReprStr p.1 }])) []

/-- The test check 3 applies to one input entry: a 2-element list whose
stringified head is not a workflow key yields a `link_invalid` issue. -/
def checkLinkEntry (wf : Workflow) (node_id : String) (p : String × JValue) :
    List ValidationIssue :=
  match p.2 with
  | .arr [a, _] =>
    let source_id := pyStr a
    if ¬ dmem wf source_id then
      [{ check := "link_invalid", node_id := node_id
         message := "Node " ++ pyReprStr node_id ++ " input " ++ pyReprStr p.1 ++
           " links to non-existent node " ++ pyReprStr source_id }]
    else []
  | _ => []

/-- Check 3, `WorkflowValidator._check_link_validity` (raises, modelled
`none`, when `inputs` is not a dict: `inputs.items()`). -/
def WorkflowValidator._check_link_validity (node_id : String) (inputs : JValue)
    (wf : Workflow) : Option (List ValidationIssue) :=
  match inputs with
  | .obj ikvs => some (ikvs.flatMap (checkLinkEntry wf node_id))
  | _ => none

/-- Check 4 on one input entry.  A falsy source value is skipped (`if not
source_node`); a truthy non-dict source raises at `source_node.get`
(modelled `none`); the slot test only fires on `isinstance(slot, int)`. -/
def checkSlotEntry (reg : NodeRegistry) (wf : Workflow) (node_id : String)
    (p : String × JValue) : Option (List ValidationIssue) :=
  match p.2 with
  | .arr [a, b] =>
    let source_id := pyStr a
    match dget wf source_id with
    | none => some []
    | some source_node =>
      if pyFalsy source_node then some []
      else
        match source_node with
        | .obj skvs =>
          let source_type := (dget skvs "class_type").getD (.str "")
          match regGetNode reg source_type with
          | none => some []
          | some source_def =>
            match pyAsInt b with
            | some slot =>
              if slot ≥ (source_def.output_types.length : Int) then
                some [{ check := "output_slot_out_of_range", node_id := node_id
                        message := "Node " ++ pyReprStr node_id ++ " input " ++
                          pyReprStr p.1 ++ " uses slot " ++ pyStr b ++
                          " from node " ++ pyReprStr source_id ++ " (" ++ pyStr source_type ++
                          "), but it only has " ++ natStr source_def.output_types.length ++
                          " output(s)" }]
              else some []
            | none => some []
        | _ => none
  | _ => some []

/-- Check 4, `WorkflowValidator._check_output_slot_range`. -/
def WorkflowValidator._check_output_slot_range (reg : NodeRegistry)
    (node_id : String) (inputs : JValue) (wf : Workflow) :
    Option (List ValidationIssue) :=
  match inputs with
  | .obj ikvs =>
    (ikvs.mapM (checkSlotEntry reg wf node_id)).map List.flatten
  | _ => none

/-- Check 5 on one input entry (the body of the loop in
`_check_type_compatibility`; `class_type` is the target node's class type,
already resolved in the registry for the loop to run).  `none` models the
raise inside `get_output_type` on a non-integer slot with a resolvable source
class, or `source_node.get` on a truthy non-dict source. -/
def checkTypeEntry (reg : NodeRegistry) (wf : Workflow) (node_id : String)
    (class_type : JValue) (p : String × JValue) : Option (List ValidationIssue) :=
  match p.2 with
  | .arr [a, b] =>
    let source_id := pyStr a
    match dget wf source_id with
    | none => some []
    | some source_node =>
      if pyFalsy source_node then some []
      else
        match source_node with
        | .obj skvs =>
          let source_type := (dget skvs "class_type").getD (.str "")
          match regGetOutputType reg source_type b with
          | none => none
          | some output_type? =>
            match output_type? with
            | none => some []
            | some output_type =>
              if pyFalsy output_type then some []
              else
                match regGetInputType reg class_type p.1 with
                | none => some []
                | some (expected_type, _) =>
                  if expected_type = "*" ∨ pyEqStr output_type "*" then some []
                  else if ¬ pyEqStr output_type expected_type then
                    some [{ check := "type_mismatch", node_id := node_id
                            message := "Node " ++ pyReprStr node_id ++ " input " ++
                              pyReprStr p.1 ++ " expects " ++ pyReprStr expected_type ++
                              " but receives " ++ pyRepr output_type ++ " from node " ++
                              pyReprStr source_id ++ " slot " ++ pyStr b
                            severity := "warning" }]
                  else some []
        | _ => none
  | _ => some []

/-- Check 5, `WorkflowValidator._check_type_compatibility`: skipped entirely
when the target's class type is not in the registry. -/
def WorkflowValidator._check_type_compatibility (reg : NodeRegistry)
    (node_id : String) (class_type : JValue) (inputs : JValue) (wf : Workflow) :
    Option (List ValidationIssue) :=
  match regGetNode reg class_type with
  | none => some []
  | some _ =>
    match inputs with
    | .obj ikvs =>
      (ikvs.mapM (checkTypeEntry reg wf node_id class_type)).map List.flatten
    | _ => none

/-- `\x7b**required, **optional\x7d`: required entries (optional values
overriding same-name keys) followed by optional-only entries, in order. -/
def dictMerge (r o : List (String × InputDefinition)) :
    List (String × InputDefinition) :=
  r.map (fun p => (p.1, (dget o p.1).getD p.2)) ++
    o.filter (fun p => ¬ dmem r p.1)

/-- One bound test of check 6 (`value < min` and `value > max` share this
shape): nothing when the bound is absent; a raise (`none`) when the
comparison raises; one issue when violated. -/
def checkRangeBound (cmp : Int → JValue → Option Bool)
    (issue : JValue → ValidationIssue) (value : Int) (bound : Option JValue) :
    Option (List ValidationIssue) :=
  match bound with
  | none => some []
  | some mv =>
    match cmp value mv with
    | none => none
    | some viol => if viol then some [issue mv] else some []

/-- Check 6 on one input entry: a non-list value of a declared INT/FLOAT input
that is a number is compared against `min`/`max`; a non-numeric bound raises
(modelled `none`). -/
def checkRangeEntry (node_id : String) (class_type : JValue)
    (all_inputs : List (String × InputDefinition)) (p : String × JValue) :
    Option (List ValidationIssue) :=
  match p.2 with
  | .arr _ => some []
  | v =>
    match dget all_inputs p.1 with
    | none => some []
    | some input_def =>
      if input_def.type = "INT" ∨ input_def.type = "FLOAT" then
        match pyAsInt v with
        | none => some []
        | some value =>
          match checkRangeBound pyLtNum
              (fun mv => { check := "value_out_of_range", node_id := node_id
                           message := "Node " ++ pyReprStr node_id ++ " (" ++
                             pyStr class_type ++ ") " ++ p.1 ++ "=" ++ pyStr v ++
                             ", minimum is " ++ pyStr mv
                           severity := "warning" })
              value input_def.min_val with
          | none => none
          | some mi =>
            match checkRangeBound pyGtNum
                (fun mv => { check := "value_out_of_range", node_id := node_id
                             message := "Node " ++ pyReprStr node_id ++ " (" ++
                               pyStr class_type ++ ") " ++ p.1 ++ "=" ++ pyStr v ++
                               ", maximum is " ++ pyStr mv
                             severity := "warning" })
                value input_def.max_val with
            | none => none
            | some ma => some (mi ++ ma)
      else some []

/-- Check 6, `WorkflowValidator._check_value_ranges`. -/
def WorkflowValidator._check_value_ranges (reg : NodeRegistry) (node_id : String)
    (class_type : JValue) (inputs : JValue) : Option (List ValidationIssue) :=
  match regGetNode reg class_type with
  | none => some []
  | some node_def =>
    let all_inputs := dictMerge node_def.inputs_required node_def.inputs_optional
    match inputs with
    | .obj ikvs =>
      (ikvs.mapM (checkRangeEntry node_id class_type all_inputs)).map List.flatten
    | _ => none

/-- Check 7 on one input entry: a string value of a declared COMBO input with
a non-empty options list must be among the options (warning otherwise). -/
def checkComboEntry (node_id : String) (class_type : JValue)
    (all_inputs : List (String × InputDefinition)) (p : String × JValue) :
    List ValidationIssue :=
  match p.2 with
  | .arr _ => []
  | v =>
    match dget all_inputs p.1 with
    | none => []
    | some input_def =>
      match input_def.options, v with
      | some opts, .str s =>
        if input_def.type = "COMBO" ∧ ¬ opts.isEmpty ∧
            ¬ opts.any (fun o => pyEqStr o s) then
          [{ check := "invalid_combo_value", node_id := node_id
             message := "Node " ++ pyReprStr node_id ++ " (" ++ pyStr class_type ++
               ") " ++ p.1 ++ "=" ++ pyReprStr s ++ " not in allowed values"
             severity := "warning" }]
        else []
      | _, _ => []

/-- Check 7, `WorkflowValidator._check_combo_values`. -/
def WorkflowValidator._check_combo_values (reg : NodeRegistry) (node_id : String)
    (class_type : JValue) (inputs : JValue) : Option (List ValidationIssue) :=
  match regGetNode reg class_type with
  | none => some []
  | some node_def =>
    let all_inputs := dictMerge node_def.inputs_required node_def.inputs_optional
    match inputs with
    | .obj ikvs => some (ikvs.flatMap (checkComboEntry node_id class_type all_inputs))
    | _ => none

/-- The registry-based loop body for one node: skip non-dict nodes, then run
the seven checks in order.  A raise in any check propagates. -/
def validateNodeChecks (reg : NodeRegistry) (suggest : String → List String)
    (wf : Workflow) (node_id : String) (node_data : JValue) :
    Option (List ValidationIssue) :=
  match node_data with
  | .obj kvs =>
    let class_type := (dget kvs "class_type").getD (.str "")
    let inputs := (dget kvs "inputs").getD (.obj [])
    match WorkflowValidator._check_node_exists reg suggest node_id class_type with
    | none => none
    | some c1 =>
      match WorkflowValidator._check_required_inputs reg node_id class_type inputs with
      | none => none
      | some c2 =>
        match WorkflowValidator._check_link_validity node_id inputs wf with
        | none => none
        | some c3 =>
          match WorkflowValidator._check_output_slot_range reg node_id inputs wf with
          | none => none
          | some c4 =>
            match WorkflowValidator._check_type_compatibility reg node_id class_type inputs wf with
            | none => none
            | some c5 =>
              match WorkflowValidator._check_value_ranges reg node_id class_type inputs with
              | none => none
              | some c6 =>
                match WorkflowValidator._check_combo_values reg node_id class_type inputs with
                | none => none
                | some c7 => some (c1 ++ c2 ++ c3 ++ c4 ++ c5 ++ c6 ++ c7)
  | _ => some []

/-- `WorkflowValidator.validate`: empty-workflow short-circuit, structural
pass, then (when the registry is loaded) the seven checks per node; validity
is the absence of error-severity issues. -/
def WorkflowValidator.validate (reg : NodeRegistry)
    (suggest : String → List String) (wf : Workflow) : Option ValidationResult :=
  if wf.isEmpty then
    some { valid := false
           issues := [{ check := "empty_workflow", node_id := "", message := "Workflow is empty" }]
           node_count := 0
           validated_against_registry := reg.is_loaded }
  else
    let structIssues := WorkflowValidator._check_structure wf
    let loop? :=
      if reg.is_loaded then
        (wf.mapM (fun p => validateNodeChecks reg suggest wf p.1 p.2)).map List.flatten
      else some []
    match loop? with
    | none => none
    | some loopIssues =>
      let issues := structIssues ++ loopIssues
      some { valid := (issues.filter (fun i => i.severity = "error")).isEmpty
             issues := issues
             node_count := wf.length
             validated_against_registry := reg.is_loaded }

/-! ## JSON serialization (`json.dumps(..., indent=2)` / `json.loads`) -/

/-- Lowercase hex digit character. -/
def hexDig (d : Nat) : Char := Char.ofNat (if d < 10 then 48 + d else 87 + d)

/-- Four hex digits of a code unit below 0x10000. -/
def hex4 (n : Nat) : List Char :=
  [hexDig (n / 4096 % 16), hexDig (n / 256 % 16), hexDig (n / 16 % 16), hexDig (n % 16)]

/-- How `json.dumps` (default `ensure_ascii=True`) renders one character
inside a string literal: named escapes, `\uXXXX` for other control and all
non-ASCII characters, surrogate pairs above 0xFFFF. -/
def jsonEscChar (c : Char) : List Char :=
  if c = '"' then ['\\', '"']
  else if c = '\\' then ['\\', '\\']
  else if c = '\n' then ['\\', 'n']
  else if c = '\t' then ['\\', 't']
  else if c = '\r' then ['\\', 'r']
  else if c.toNat = 8 then ['\\', 'b']
  else if c.toNat = 12 then ['\\', 'f']
  else if c.toNat < 32 then '\\' :: 'u' :: hex4 c.toNat
  else if c.toNat ≤ 126 then [c]
  else if c.toNat ≤ 65535 then '\\' :: 'u' :: hex4 c.toNat
  else
    let m := c.toNat - 65536
    ('\\' :: 'u' :: hex4 (55296 + m / 1024)) ++ ('\\' :: 'u' :: hex4 (56320 + m % 1024))

/-- A JSON string literal for `s`. -/
def jsonQuote (s : String) : List Char :=
  '"' :: (s.data.map jsonEscChar).flatten ++ ['"']

/-- A JSON integer literal. -/
def jsonInt (n : Int) : List Char :=
  if n < 0 then '-' :: natDigs n.natAbs else natDigs n.natAbs

/-- The indentation `json.dumps(..., indent=2)` emits at nesting depth `d`. -/
def jindent (d : Nat) : List Char := List.replicate (2 * d) ' '

mutual
/-- `json.dumps(v, indent=2)` at nesting depth `d`: empty containers inline,
non-empty ones with one item per line. -/
def jdump : JValue → Nat → List Char
  | .null, _ => ['n', 'u', 'l', 'l']
  | .bool true, _ => ['t', 'r', 'u', 'e']
  | .bool false, _ => ['f', 'a', 'l', 's', 'e']
  | .int n, _ => jsonInt n
  | .str s, _ => jsonQuote s
  | .arr [], _ => ['[', ']']
  | .arr (x :: t), d =>
    '[' :: '\n' :: (jindent (d + 1) ++ jdump x (d + 1) ++ jdumpArrRest t (d + 1) ++
      '\n' :: (jindent d ++ [']']))
  | .obj [], _ => ['\x7b', '\x7d']
  | .obj ((k, v) :: t), d =>
    '\x7b' :: '\n' :: (jindent (d + 1) ++ jsonQuote k ++ ':' :: ' ' :: jdump v (d + 1) ++
      jdumpObjRest t (d + 1) ++ '\n' :: (jindent d ++ ['\x7d']))

/-- The remaining array items, each preceded by `,\n` and indentation. -/
def jdumpArrRest : List JValue → Nat → List Char
  | [], _ => []
  | x :: t, d => ',' :: '\n' :: (jindent d ++ jdump x d ++ jdumpArrRest t d)

/-- The remaining object members, each preceded by `,\n` and indentation. -/
def jdumpObjRest : List (String × JValue) → Nat → List Char
  | [], _ => []
  | (k, v) :: t, d =>
    ',' :: '\n' :: (jindent d ++ jsonQuote k ++ ':' :: ' ' :: jdump v d ++ jdumpObjRest t d)
end

/-- `WorkflowManipulator.to_json` (default `indent=2`). -/
def WorkflowManipulator.to_json (m : WorkflowManipulator) : String :=
  String.mk (jdump (.obj m.workflow) 0)

/-- JSON whitespace. -/
def isJsonWs (c : Char) : Bool := c = ' ' ∨ c = '\t' ∨ c = '\n' ∨ c = '\r'

/-- Skip leading JSON whitespace. -/
def skipWs : List Char → List Char
  | c :: t => if isJsonWs c then skipWs t else c :: t
  | [] => []

/-- Value of one hex digit (either case). -/
def hexVal (c : Char) : Option Nat :=
  if 48 ≤ c.toNat ∧ c.toNat ≤ 57 then some (c.toNat - 48)
  else if 97 ≤ c.toNat ∧ c.toNat ≤ 102 then some (c.toNat - 87)
  else if 65 ≤ c.toNat ∧ c.toNat ≤ 70 then some (c.toNat - 55)
  else none

/-- Parse the body of a JSON string literal (after the opening quote) up to
its closing quote.  Strict mode: raw control characters are rejected.  A
`\uXXXX` escape in the surrogate ranges must form a proper pair — Python's
`json.loads` would build a lone-surrogate string there, which `String` cannot
represent, so the model rejects it (no dumped output contains one). -/
def parseStrBody : Nat → List Char → Option (List Char × List Char)
  | 0, _ => none
  | fuel + 1, s =>
    match s with
    | [] => none
    | c :: t =>
      if c = '"' then some ([], t)
      else if c = '\\' then
        match t with
        | [] => none
        | e :: t2 =>
          if e = '"' then (parseStrBody fuel t2).map (fun r => ('"' :: r.1, r.2))
          else if e = '\\' then (parseStrBody fuel t2).map (fun r => ('\\' :: r.1, r.2))
          else if e = '/' then (parseStrBody fuel t2).map (fun r => ('/' :: r.1, r.2))
          else if e = 'b' then (parseStrBody fuel t2).map (fun r => (Char.ofNat 8 :: r.1, r.2))
          else if e = 'f' then (parseStrBody fuel t2).map (fun r => (Char.ofNat 12 :: r.1, r.2))
          else if e = 'n' then (parseStrBody fuel t2).map (fun r => ('\n' :: r.1, r.2))
          else if e = 'r' then (parseStrBody fuel t2).map (fun r => ('\r' :: r.1, r.2))
          else if e = 't' then (parseStrBody fuel t2).map (fun r => ('\t' :: r.1, r.2))
          else if e = 'u' then
            match t2 with
            | a :: b :: c2 :: d2 :: t6 =>
              match hexVal a, hexVal b, hexVal c2, hexVal d2 with
              | some ha, some hb, some hc, some hd =>
                let n := 4096 * ha + 256 * hb + 16 * hc + hd
                if 55296 ≤ n ∧ n < 56320 then
                  match t6 with
                  | '\\' :: 'u' :: a2 :: b2 :: c3 :: d3 :: t12 =>
                    match hexVal a2, hexVal b2, hexVal c3, hexVal d3 with
                    | some ha2, some hb2, some hc2, some hd2 =>
                      let m := 4096 * ha2 + 256 * hb2 + 16 * hc2 + hd2
                      if 56320 ≤ m ∧ m < 57344 then
                        (parseStrBody fuel t12).map (fun r =>
                          (Char.ofNat (65536 + (n - 55296) * 1024 + (m - 56320)) :: r.1, r.2))
                      else none
                    | _, _, _, _ => none
                  | _ => none
                else if 56320 ≤ n ∧ n < 57344 then none
                else (parseStrBody fuel t6).map (fun r => (Char.ofNat n :: r.1, r.2))
              | _, _, _, _ => none
            | _ => none
          else none
      else if c.toNat < 32 then none
      else (parseStrBody fuel t).map (fun r => (c :: r.1, r.2))

/-- Consume a maximal run of decimal digits, accumulating their value. -/
def digRunGo (acc : Nat) : List Char → Nat × List Char
  | c :: t => if isDig c then digRunGo (10 * acc + (c.toNat - 48)) t else (acc, c :: t)
  | [] => (acc, [])

/-- Parse a JSON natural-number token (no leading zeros). -/
def parseNatTok : List Char → Option (Nat × List Char)
  | c :: t =>
    if c = '0' then
      match t with
      | d :: _ => if isDig d then none else some (0, t)
      | [] => some (0, [])
    else if isDig c then some (digRunGo (c.toNat - 48) t)
    else none
  | [] => none

/-- Parse a JSON integer token.  A following `.`/`e`/`E` would start a float
literal, which the model does not represent: rejected (the dumped output of
the modelled values never contains one). -/
def parseIntTok (s : List Char) : Option (Int × List Char) :=
  let core : List Char → Option (Nat × List Char) := fun u =>
    match parseNatTok u with
    | some (n, rest) =>
      match rest with
      | c :: _ => if c = '.' ∨ c = 'e' ∨ c = 'E' then none else some (n, rest)
      | [] => some (n, [])
    | none => none
  match s with
  | '-' :: t => (core t).map (fun r => (-(r.1 : Int), r.2))
  | t => (core t).map (fun r => ((r.1 : Int), r.2))

mutual
/-- Fuel-indexed JSON value parser (the fuel strictly decreases on every
recursive call; `json_loads` supplies enough for any input). -/
def jparse : Nat → List Char → Option (JValue × List Char)
  | 0, _ => none
  | f + 1, s =>
    match skipWs s with
    | 'n' :: 'u' :: 'l' :: 'l' :: t => some (.null, t)
    | 't' :: 'r' :: 'u' :: 'e' :: t => some (.bool true, t)
    | 'f' :: 'a' :: 'l' :: 's' :: 'e' :: t => some (.bool false, t)
    | '"' :: t => (parseStrBody (t.length + 1) t).map (fun r => (.str (String.mk r.1), r.2))
    | '[' :: t =>
      match skipWs t with
      | ']' :: t2 => some (.arr [], t2)
      | t2 => (jparseElems f t2).map (fun r => (.arr r.1, r.2))
    | '\x7b' :: t =>
      match skipWs t with
      | '\x7d' :: t2 => some (.obj [], t2)
      | t2 =>
        (jparseMembers f t2).map (fun r =>
          (.obj (r.1.foldl (fun acc p => dictSet acc p.1 p.2) []), r.2))
    | t => (parseIntTok t).map (fun r => (.int r.1, r.2))

/-- Parse the non-empty element list of an array, consuming the closing
bracket. -/
def jparseElems : Nat → List Char → Option (List JValue × List Char)
  | 0, _ => none
  | f + 1, s =>
    match jparse f s with
    | none => none
    | some (v, r) =>
      match skipWs r with
      | ',' :: r2 =>
        match jparseElems f r2 with
        | some (vs, r3) => some (v :: vs, r3)
        | none => none
      | ']' :: r2 => some ([v], r2)
      | _ => none

/-- Parse the non-empty member list of an object, consuming the closing
brace.  The members are returned in textual order; the caller folds them into
a dict exactly as Python builds it (later duplicates overwrite in place). -/
def jparseMembers : Nat → List Char → Option (List (String × JValue) × List Char)
  | 0, _ => none
  | f + 1, s =>
    match skipWs s with
    | '"' :: t =>
      match parseStrBody (t.length + 1) t with
      | none => none
      | some (k, r) =>
        match skipWs r with
        | ':' :: r2 =>
          match jparse f r2 with
          | none => none
          | some (v, r3) =>
            match skipWs r3 with
            | ',' :: r4 =>
              match jparseMembers f r4 with
              | some (ms, r5) => some ((String.mk k, v) :: ms, r5)
              | none => none
            | '\x7d' :: r4 => some ([(String.mk k, v)], r4)
            | _ => none
        | _ => none
    | _ => none
end

/-- `json.loads`: parse one JSON document with nothing but whitespace after
it. -/
def json_loads (s : String) : Option JValue :=
  match jparse (s.data.length + 1) s.data with
  | some (v, rest) => if (skipWs rest).isEmpty then some v else none
  | none => none

/-- `WorkflowManipulator.from_json`: replace the workflow with the parsed
dict and recompute the id counter.  `none` models a `json.JSONDecodeError`
propagating, and also covers a document whose top level is not an object —
`self.workflow` then holds a non-dict value outside the graph data model (and
`_calculate_next_id` raises on any truthy one). -/
def WorkflowManipulator.from_json (_m : WorkflowManipulator) (json_str : String) :
    Option WorkflowManipulator :=
  match json_loads json_str with
  | some (.obj kvs) =>
    some { workflow := kvs
           _next_node_id := WorkflowManipulator._calculate_next_id kvs }
  | _ => none

/-! ## Well-formedness predicates and reachability -/

/-- Unique keys (what a Python dict guarantees). -/
def nodupKeysB {α : Type} : List (String × α) → Bool
  | [] => true
  | (k, _) :: t => !(t.any (fun p => p.1 = k)) && nodupKeysB t

mutual
/-- Every object nested in the value has unique keys — true of every value
that exists as a Python object (dicts cannot hold duplicate keys). -/
def wfValueB : JValue → Bool
  | .arr xs => wfListB xs
  | .obj kvs => nodupKeysB kvs && wfPairsB kvs
  | _ => true

/-- `wfValueB` over a list of values. -/
def wfListB : List JValue → Bool
  | [] => true
  | x :: t => wfValueB x && wfListB t

/-- `wfValueB` over dict entries. -/
def wfPairsB : List (String × JValue) → Bool
  | [] => true
  | (_, v) :: t => wfValueB v && wfPairsB t
end

/-- Shape of a node instance per the GraphModel data model: a dict whose
`inputs` value, when present, is a dict. -/
def wfNodeShapeB : String × JValue → Bool
  | (_, .obj kvs) =>
    match dget kvs "inputs" with
    | none => true
    | some (.obj _) => true
    | some _ => false
  | _ => false

/-- Graph whose nodes all conform to the GraphModel node shape. -/
def wfWorkflowShapeB (wf : Workflow) : Bool := wf.all wfNodeShapeB

/-- One input entry is validator-safe when a 2-element-list value carries an
`isinstance(..., int)` slot (Python bools included). -/
def wfInputEntryB : String × JValue → Bool
  | (_, .arr [_, b]) => (pyAsInt b).isSome
  | _ => true

/-- One node is validator-safe: a dict, string `class_type` when present, dict
`inputs` when present, integer link slots. -/
def wfvNodeB : String × JValue → Bool
  | (_, .obj kvs) =>
    (match dget kvs "class_type" with
     | none => true
     | some (.str _) => true
     | some _ => false) &&
    (match dget kvs "inputs" with
     | none => true
     | some (.obj ikvs) => ikvs.all wfInputEntryB
     | some _ => false)
  | _ => false

/-- Workflow on which the wire-format shape assumptions hold for every node. -/
def wfvWorkflowB (wf : Workflow) : Bool := wf.all wfvNodeB

/-- A numeric-or-absent constraint bound (what `value < bound` tolerates). -/
def wfBoundB : Option JValue → Bool
  | none => true
  | some (.int _) => true
  | some (.bool _) => true
  | some _ => false

/-- Input definition with numeric-or-absent bounds. -/
def wfInputDefB (d : InputDefinition) : Bool :=
  wfBoundB d.min_val && wfBoundB d.max_val

/-- Node definition with validator-safe input definitions. -/
def wfNodeDefB (nd : NodeDefinition) : Bool :=
  nd.inputs_required.all (fun p => wfInputDefB p.2) &&
    nd.inputs_optional.all (fun p => wfInputDefB p.2)

/-- Registry whose node definitions are validator-safe. -/
def wfRegistryB (reg : NodeRegistry) : Bool :=
  reg.nodes.all (fun p => wfNodeDefB p.2)

/-- Manipulator states built solely through the GraphMutator operations
starting from the empty workflow.  The side conditions on caller-supplied
values record that Python arguments are built of dicts, which cannot carry
duplicate keys. -/
inductive Reachable : WorkflowManipulator → Prop where
  | new : Reachable WorkflowManipulator.new
  | add (m : WorkflowManipulator) (ct : String) (ins : List (String × JValue))
      (title : Option String) : Reachable m →
      nodupKeysB ins = true → wfPairsB ins = true →
      Reachable (m.add_node ct ins title).2
  | remove (m m' : WorkflowManipulator) (node_id : String) (b : Bool) :
      Reachable m → m.remove_node node_id = some (b, m') → Reachable m'
  | connect (m m' : WorkflowManipulator) (src : String) (slot : Int)
      (tgt name : String) (b : Bool) : Reachable m →
      m.connect_nodes src slot tgt name = some (b, m') → Reachable m'
  | modify (m m' : WorkflowManipulator) (node_id input_name : String) (v : JValue)
      (b : Bool) : Reachable m → wfValueB v = true →
      m.modify_input node_id input_name v = some (b, m') → Reachable m'

/-- A `selfCheck` error string and a `WorkflowValidator` issue describe the
same structural defect: the same missing-class-type node, the same
missing-inputs node, or the same dangling link (node, input name, source id). -/
def sameDefect (e : String) (i : ValidationIssue) : Prop :=
  (∃ n, e = "Node " ++ n ++ ": missing \x27class_type\x27" ∧
    i.check = "missing_class_type" ∧ i.node_id = n)
  ∨ (∃ n, e = "Node " ++ n ++ ": missing \x27inputs\x27" ∧
    i.check = "missing_inputs" ∧ i.node_id = n)
  ∨ (∃ n inm s,
    e = "Node " ++ n ++ ": input \x27" ++ inm ++
      "\x27 references non-existent node \x27" ++ s ++ "\x27" ∧
    i.check = "link_invalid" ∧ i.node_id = n ∧
    i.message = "Node " ++ pyReprStr n ++ " input " ++ pyReprStr inm ++
      " links to non-existent node " ++ pyReprStr s)

mutual
/-- Fuel sufficient for `jparse` to consume a dumped value. -/
def jfuel : JValue → Nat
  | .arr [] => 1
  | .arr (x :: t) => 1 + jfuelElems (x :: t)
  | .obj [] => 1
  | .obj (m :: t) => 1 + jfuelMembers (m :: t)
  | _ => 1

/-- Fuel sufficient for `jparseElems` on this element list. -/
def jfuelElems : List JValue → Nat
  | [] => 0
  | x :: t => 1 + jfuel x + jfuelElems t

/-- Fuel sufficient for `jparseMembers` on this member list. -/
def jfuelMembers : List (String × JValue) → Nat
  | [] => 0
  | (_, v) :: t => 1 + jfuel v + jfuelMembers t
end

/-! ## Helper lemmas: dictionaries -/

theorem dget_cons_self {α : Type} (k : String) (v : α) (t : List (String × α)) :
    dget ((k, v) :: t) k = some v := by
  simp [dget, List.find?_cons]

theorem dget_cons_ne {α : Type} (p : String × α) (t : List (String × α))
    (k : String) (h : ¬ p.1 = k) : dget (p :: t) k = dget t k := by
  simp [dget, List.find?_cons, h]

theorem dget_map_set_self {α : Type} (l : List (String × α)) (k : String) (v : α)
    (h : l.any (fun p => p.1 = k) = true) :
    dget (l.map (fun p => if p.1 = k then (k, v) else p)) k = some v := by
  induction l with
  | nil => simp at h
  | cons p t ih =>
    by_cases hp : p.1 = k
    · simp only [List.map_cons, if_pos hp]
      exact dget_cons_self k v _
    · simp only [List.any_cons, Bool.or_eq_true] at h
      have ht : t.any (fun p => p.1 = k) = true := by
        rcases h with h | h
        · exact absurd (by simpa using h) hp
        · exact h
      simp only [List.map_cons, if_neg hp]
      rw [dget_cons_ne _ _ _ hp]
      exact ih ht

theorem dget_dictSet_self {α : Type} (l : List (String × α)) (k : String) (v : α) :
    dget (dictSet l k v) k = some v := by
  unfold dictSet
  split
  · next h => exact dget_map_set_self l k v h
  · next h =>
    induction l with
    | nil => simp [dget, List.find?_cons]
    | cons p t ih =>
      simp only [List.any_cons, Bool.or_eq_true, not_or] at h
      have hp : ¬ p.1 = k := by
        intro e; exact h.1 (by simpa using e)
      rw [List.cons_append, dget_cons_ne _ _ _ hp]
      exact ih (by simpa using h.2)

theorem dget_map_set_ne {α : Type} (l : List (String × α)) (k k' : String) (v : α)
    (h : ¬ k' = k) :
    dget (l.map (fun p => if p.1 = k then (k, v) else p)) k' = dget l k' := by
  induction l with
  | nil => simp
  | cons p t ih =>
    by_cases hp : p.1 = k
    · simp only [List.map_cons, if_pos hp]
      have hkk' : ¬ (k, v).1 = k' := by
        simp only []
        intro e
        exact h e.symm
      have hpk' : ¬ p.1 = k' := by
        rw [hp]
        intro e
        exact h e.symm
      rw [dget_cons_ne _ _ _ hkk', dget_cons_ne _ _ _ hpk']
      exact ih
    · simp only [List.map_cons, if_neg hp]
      by_cases hk' : p.1 = k'
      · cases p with
        | mk a b => cases hk'; simp [dget, List.find?_cons]
      · rw [dget_cons_ne _ _ _ hk', dget_cons_ne _ _ _ hk']
        exact ih

theorem dget_append_single_ne {α : Type} (l : List (String × α)) (k k' : String)
    (v : α) (h : ¬ k' = k) : dget (l ++ [(k, v)]) k' = dget l k' := by
  induction l with
  | nil =>
    have : ¬ (k, v).1 = k' := by
      simp only []
      intro e
      exact h e.symm
    simp only [List.nil_append]
    rw [dget_cons_ne _ _ _ this]
  | cons p t ih =>
    by_cases hk' : p.1 = k'
    · cases p with
      | mk a b => cases hk'; rw [List.cons_append]; simp [dget, List.find?_cons]
    · rw [List.cons_append, dget_cons_ne _ _ _ hk', dget_cons_ne _ _ _ hk']
      exact ih

theorem dget_dictSet_ne {α : Type} (l : List (String × α)) (k k' : String) (v : α)
    (h : ¬ k' = k) : dget (dictSet l k v) k' = dget l k' := by
  unfold dictSet
  split
  · exact dget_map_set_ne l k k' v h
  · exact dget_append_single_ne l k k' v h

theorem dmem_eq_isSome {α : Type} (l : List (String × α)) (k : String) :
    dmem l k = (dget l k).isSome := by
  induction l with
  | nil => simp [dmem, dget]
  | cons p t ih =>
    by_cases hp : p.1 = k
    · cases p with
      | mk a b => cases hp; simp [dmem, dget, List.find?_cons]
    · simp only [dmem, List.any_cons] at ih ⊢
      rw [dget_cons_ne _ _ _ hp]
      simp only [hp]
      simpa [dmem] using ih

theorem dget_mem {α : Type} {l : List (String × α)} {k : String} {v : α}
    (h : dget l k = some v) : (k, v) ∈ l := by
  induction l with
  | nil => simp [dget] at h
  | cons p t ih =>
    by_cases hp : p.1 = k
    · cases p with
      | mk a b =>
        cases hp
        rw [dget_cons_self] at h
        cases h
        exact List.mem_cons_self _ _
    · rw [dget_cons_ne _ _ _ hp] at h
      exact List.mem_cons_of_mem _ (ih h)

/-! ## Helper lemmas: digits, `str(int)` and `int(str)` -/

theorem toNat_ofNat_valid {k : Nat} (h : Nat.isValidChar k) :
    (Char.ofNat k).toNat = k := by
  simp only [Char.ofNat, Char.toNat]
  rw [dif_pos h]
  have hlt : k < 4294967296 := by
    rcases h with h | h
    · omega
    · omega
  simp [Char.ofNatAux, UInt32.ofNatCore, UInt32.toNat]
  try omega

theorem toNat_ofNat_small {k : Nat} (h : k < 55296) : (Char.ofNat k).toNat = k :=
  toNat_ofNat_valid (Or.inl h)

theorem natDigsAux_fuel_irrel : ∀ f1 : Nat, ∀ f2 n : Nat, n < f1 → n < f2 →
    natDigsAux f1 n = natDigsAux f2 n := by
  intro f1
  induction f1 with
  | zero => intro f2 n h1 _; omega
  | succ f1 ih =>
    intro f2 n h1 h2
    cases f2 with
    | zero => omega
    | succ f2 =>
      simp only [natDigsAux]
      split
      · rfl
      · next h =>
        rw [ih f2 (n / 10) (by omega) (by omega)]

theorem natDigs_rec (n : Nat) : natDigs n =
    if n < 10 then [Char.ofNat (48 + n)]
    else natDigs (n / 10) ++ [Char.ofNat (48 + n % 10)] := by
  show natDigsAux (n + 1) n = _
  simp only [natDigsAux]
  split
  · rfl
  · next h =>
    rw [natDigsAux_fuel_irrel n (n / 10 + 1) (n / 10) (by omega) (by omega)]
    rfl

theorem natDigs_all_isDig (n : Nat) : ∀ c ∈ natDigs n, isDig c = true := by
  induction n using Nat.strong_induction_on with
  | _ n ih =>
    rw [natDigs_rec]
    split
    · next h =>
      intro c hc
      simp only [List.mem_singleton] at hc
      subst hc
      simp [isDig, toNat_ofNat_small (by omega : 48 + n < 55296)]
      omega
    · next h =>
      intro c hc
      rcases List.mem_append.mp hc with hc | hc
      · exact ih (n / 10) (Nat.div_lt_self (by omega) (by omega)) c hc
      · simp only [List.mem_singleton] at hc
        subst hc
        simp [isDig, toNat_ofNat_small (by omega : 48 + n % 10 < 55296)]
        omega

theorem natDigs_ne_nil (n : Nat) : natDigs n ≠ [] := by
  rw [natDigs_rec]
  split
  · simp
  · simp

theorem foldl_digs (n : Nat) : ∀ a : Nat,
    (natDigs n).foldl (fun x c => 10 * x + (c.toNat - 48)) a =
      a * 10 ^ (natDigs n).length + n := by
  induction n using Nat.strong_induction_on with
  | _ n ih =>
    intro a
    rw [natDigs_rec]
    split
    · next h =>
      simp [List.foldl, toNat_ofNat_small (by omega : 48 + n < 55296)]
      omega
    · next h =>
      rw [List.foldl_append, ih (n / 10) (Nat.div_lt_self (by omega) (by omega)) a]
      simp only [List.foldl, List.length_append, List.length_singleton]
      rw [toNat_ofNat_small (by omega : 48 + n % 10 < 55296)]
      have : a * 10 ^ (natDigs (n / 10)).length * 10 =
          a * 10 ^ ((natDigs (n / 10)).length + 1) := by ring
      omega

theorem digsVal_natDigs (n : Nat) : digsVal (natDigs n) = n := by
  unfold digsVal
  rw [foldl_digs n 0]
  simp

theorem isDig_not_ws {c : Char} (h : isDig c = true) : isPyWs c = false := by
  simp only [isPyWs, decide_eq_false_iff_not]
  rintro (e | e | e | e) <;> (subst e; revert h; decide)

theorem dropWhile_eq_self_of_all {l : List Char} (p : Char → Bool)
    (h : ∀ c ∈ l, p c = false) : l.dropWhile p = l := by
  cases l with
  | nil => rfl
  | cons c t =>
    rw [List.dropWhile_cons, if_neg]
    simp [h c (List.mem_cons_self _ _)]

theorem strip_eq_self_of_all {l : List Char} (h : ∀ c ∈ l, isPyWs c = false) :
    ((l.dropWhile isPyWs).reverse.dropWhile isPyWs).reverse = l := by
  rw [dropWhile_eq_self_of_all _ h,
    dropWhile_eq_self_of_all _ (fun c hc => h c (List.mem_reverse.mp hc)),
    List.reverse_reverse]

theorem pyInt_intStr (n : Int) : pyInt (intStr n) = some n := by
  by_cases hn : n < 0
  · have hstrip : ∀ c ∈ '-' :: natDigs n.natAbs, isPyWs c = false := by
      intro c hc
      rcases List.mem_cons.mp hc with hc | hc
      · subst hc; decide
      · exact isDig_not_ws (natDigs_all_isDig _ c hc)
    rw [intStr, if_pos hn, pyInt]
    show pyIntCore (((('-' :: natDigs n.natAbs).dropWhile isPyWs).reverse.dropWhile
      isPyWs).reverse) = some n
    rw [strip_eq_self_of_all hstrip]
    simp only [pyIntCore]
    rw [if_pos trivial,
      if_pos (And.intro (natDigs_ne_nil _) (List.all_eq_true.mpr (natDigs_all_isDig _))),
      digsVal_natDigs]
    congr 1
    omega
  · have hdigs := natDigs_all_isDig n.natAbs
    have hstrip : ∀ c ∈ natDigs n.natAbs, isPyWs c = false :=
      fun c hc => isDig_not_ws (hdigs c hc)
    rw [intStr, if_neg hn, pyInt]
    show pyIntCore ((((natDigs n.natAbs).dropWhile isPyWs).reverse.dropWhile
      isPyWs).reverse) = some n
    rw [strip_eq_self_of_all hstrip]
    rcases hcons : natDigs n.natAbs with _ | ⟨c, ds⟩
    · exact absurd hcons (natDigs_ne_nil _)
    · have hc : isDig c = true := by
        apply hdigs; rw [hcons]; exact List.mem_cons_self _ _
      have hcm : ¬ c = '-' := by
        intro e; subst e; revert hc; decide
      have hcp : ¬ c = '+' := by
        intro e; subst e; revert hc; decide
      simp only [pyIntCore]
      rw [if_neg hcm, if_neg hcp,
        if_pos (show ((c :: ds).all isDig) = true by
          rw [← hcons]; exact List.all_eq_true.mpr hdigs),
        ← hcons, digsVal_natDigs]
      congr 1
      omega

theorem mapM_some_mem {α β : Type} {f : α → Option β} :
    ∀ {l : List α} {l' : List β}, l.mapM f = some l' →
      ∀ {a : α}, a ∈ l → ∃ b ∈ l', f a = some b := by
  intro l
  induction l with
  | nil => intro l' _ a ha; simp at ha
  | cons x t ih =>
    intro l' h a ha
    rw [List.mapM_cons] at h
    cases hfx : f x with
    | none => rw [hfx] at h; simp at h
    | some b =>
      rw [hfx] at h
      cases hmt : t.mapM f with
      | none => rw [hmt] at h; simp at h
      | some bs =>
        rw [hmt] at h
        simp only [Option.bind_eq_bind, Option.some_bind, Option.pure_def,
          Option.some.injEq] at h
        subst h
        rcases List.mem_cons.mp ha with ha | ha
        · subst ha
          rw [hfx]
          exact ⟨b, List.mem_cons_self _ _, rfl⟩
        · obtain ⟨b', hb', hfb'⟩ := ih hmt ha
          exact ⟨b', List.mem_cons_of_mem _ hb', hfb'⟩

theorem init_le_foldl_max : ∀ (l : List Int) (a : Int), a ≤ l.foldl max a := by
  intro l
  induction l with
  | nil => intro a; exact le_refl a
  | cons y t ih =>
    intro a
    rw [List.foldl_cons]
    exact le_trans (le_max_left a y) (ih (max a y))

theorem mem_le_foldl_max : ∀ (l : List Int) (a x : Int), x ∈ l → x ≤ l.foldl max a := by
  intro l
  induction l with
  | nil => intro a x h; simp at h
  | cons y t ih =>
    intro a x h
    rw [List.foldl_cons]
    rcases List.mem_cons.mp h with h | h
    · subst h
      exact le_trans (le_max_right a x) (init_le_foldl_max t (max a x))
    · exact ih (max a y) x h

/-! ## Claim theorems -/

/-- Claim C1 (the code violates it): the claim says every failed fetch returns
`False` and leaves the cached snapshot untouched.  Evaluating
`NodeRegistry.fetch` at a stale registry holding one cached definition and a
200-status payload `\x7b"A": 5\x7d` — valid JSON whose entry value is not an
object — shows the call raising (`_parse_node_info` runs outside the `try`
block, and `self._nodes = \x7b\x7d` has already executed): the result is an
uncaught exception and the snapshot is emptied, not preserved. -/
theorem C1_fetch_corrupts_snapshot_on_malformed_payload :
    NodeRegistry.fetch
        { nodes := [("Old", { class_type := "Old" })], last_fetch := 0, fetched := true }
        1000 (.payload (.obj [("A", .int 5)])) =
      (none, { nodes := [], last_fetch := 0, fetched := true }) ∧
    ([("Old", ({ class_type := "Old" } : NodeDefinition))] : List (String × NodeDefinition)) ≠ [] ∧
    ¬ ((1000 : Int) - 0 < NodeRegistry.CACHE_TTL) := by
  refine ⟨by decide, by simp, by decide⟩

/-- Claim C2 (counterexample): the claim allocates from the ids present "at
the time of the call".  Build the empty manipulator, `add_node` (id "1"),
`remove_node "1"` (workflow now empty), `add_node` again: the call returns
"2" from the cached counter, while the claim's allocation for an empty graph
(and `_calculate_next_id` recomputed on it) is 1, so the id would be "1". -/
theorem C2_counterexample_stale_counter :
    (((WorkflowManipulator.new.add_node "A" [] none).2.remove_node "1").map
        (fun p => (p.2.workflow, (p.2.add_node "A" [] none).1)) = some ([], "2")) ∧
    WorkflowManipulator._calculate_next_id [] = 1 ∧ ("2" : String) ≠ "1" := by
  refine ⟨by decide, by decide, by decide⟩

/-- Claim C2 (amended): `add_node` returns the string form of the cached
`_next_node_id` counter.  At construction (and after `from_json`) that counter
is exactly the claim's allocation: 1 for the empty workflow, `max + 1` of the
integer-valued ids when every id parses (and that id is then unused), and the
fallback 1 when any id is non-numeric.  The claim's "at the time of the call"
holds only at those points: the counter is not recomputed after mutations
(see the counterexample). -/
theorem C2_fresh_id_allocation (wf : Workflow) (ct : String)
    (ins : List (String × JValue)) (title : Option String) :
    (((WorkflowManipulator.mk' wf).add_node ct ins title).1 =
      intStr (WorkflowManipulator._calculate_next_id wf)) ∧
    (wf = [] → WorkflowManipulator._calculate_next_id wf = 1) ∧
    (∀ n ns, (wf.map (fun p => p.1)).mapM pyInt = some (n :: ns) →
      WorkflowManipulator._calculate_next_id wf = ns.foldl max n + 1 ∧
      intStr (ns.foldl max n + 1) ∉ wf.map (fun p => p.1)) ∧
    (wf ≠ [] → (wf.map (fun p => p.1)).mapM pyInt = none →
      WorkflowManipulator._calculate_next_id wf = 1) := by
  refine ⟨rfl, ?_, ?_, ?_⟩
  · intro h
    subst h
    rfl
  · intro n ns h
    have hne : ¬ wf.isEmpty = true := by
      intro he
      rw [List.isEmpty_iff] at he
      subst he
      have h0 : (([] : Workflow).map (fun p => p.1)).mapM pyInt = some [] := rfl
      rw [h0] at h
      simp at h
    constructor
    · unfold WorkflowManipulator._calculate_next_id
      rw [if_neg hne, h]
    · intro hmem
      obtain ⟨b, hb, hfb⟩ := mapM_some_mem h hmem
      rw [pyInt_intStr] at hfb
      have hbe : b = ns.foldl max n + 1 := by
        injection hfb with h'
        exact h'.symm
      subst hbe
      have hn_le : n ≤ ns.foldl max n := init_le_foldl_max ns n
      rcases List.mem_cons.mp hb with h' | h'
      · omega
      · have := mem_le_foldl_max ns n _ h'
        omega
  · intro hne h
    have hne' : ¬ wf.isEmpty = true := by
      intro he
      exact hne (List.isEmpty_iff.mp he)
    unfold WorkflowManipulator._calculate_next_id
    rw [if_neg hne', h]

/-- Claim C2 witness: a freshly constructed manipulator over ids
\x7b"1","2","5"\x7d allocates "6", and "6" is unused. -/
theorem C2_fresh_id_allocation_witness :
    WorkflowManipulator._calculate_next_id
        [("1", JValue.null), ("2", JValue.null), ("5", JValue.null)] = 6 ∧
    (((WorkflowManipulator.mk'
        [("1", JValue.null), ("2", JValue.null), ("5", JValue.null)]).add_node
        "KSampler" [] none).1 = "6") := by
  have h := C2_fresh_id_allocation
    [("1", JValue.null), ("2", JValue.null), ("5", JValue.null)] "KSampler" [] none
  obtain ⟨h1, -, h3, -⟩ := h
  have h35 := h3 1 [2, 5] (by decide)
  have hc : WorkflowManipulator._calculate_next_id
      [("1", JValue.null), ("2", JValue.null), ("5", JValue.null)] = 6 := by
    rw [h35.1]
    decide
  refine ⟨hc, ?_⟩
  rw [h1, hc]
  decide

/-- Claim C3 (counterexample): the claim says the call succeeds "regardless of
the shape of the target node" whenever the target id exists.  On a workflow
whose node "2" is a dict without an `"inputs"` key (a shape `from_json`
accepts), the target exists yet `connect_nodes` raises `KeyError`
(`self.workflow[target]["inputs"]`) instead of succeeding. -/
theorem C3_counterexample_target_without_inputs :
    (WorkflowManipulator.mk' [("2", .obj [])]).connect_nodes "1" 0 "2" "image" = none ∧
    dmem ([("2", JValue.obj [])] : Workflow) "2" = true := by
  refine ⟨by decide, by decide⟩

/-- Claim C3 (amended): `connect_nodes` returns `False` exactly when the
target id is absent (state unchanged); when the target node carries an
`"inputs"` dict — as every node of the GraphModel data model does — it
returns `True` and overwrites the named input with the link
`[source_id, slot]`, last-write-wins, regardless of whether the source exists
or the slot is in range, and leaves every other node untouched.  A present
target without an inputs dict raises instead (see the counterexample). -/
theorem C3_connect_nodes (m : WorkflowManipulator) (src : String) (slot : Int)
    (tgt name : String) :
    (¬ dmem m.workflow tgt = true →
      m.connect_nodes src slot tgt name = some (false, m)) ∧
    (∀ kvs ikvs, dget m.workflow tgt = some (.obj kvs) →
      dget kvs "inputs" = some (.obj ikvs) →
      ∃ m', m.connect_nodes src slot tgt name = some (true, m') ∧
        m'._next_node_id = m._next_node_id ∧
        dget m'.workflow tgt =
          some (.obj (dictSet kvs "inputs"
            (.obj (dictSet ikvs name (.arr [.str src, .int slot]))))) ∧
        dget (dictSet ikvs name (.arr [.str src, .int slot])) name =
          some (.arr [.str src, .int slot]) ∧
        (∀ k, ¬ k = tgt → dget m'.workflow k = dget m.workflow k)) := by
  constructor
  · intro h
    unfold WorkflowManipulator.connect_nodes
    rw [if_pos h]
  · intro kvs ikvs h1 h2
    have hmem : dmem m.workflow tgt = true := by
      rw [dmem_eq_isSome, h1]
      rfl
    have node' : JValue := .obj (dictSet kvs "inputs"
      (.obj (dictSet ikvs name (.arr [.str src, .int slot]))))
    refine ⟨{ m with
      workflow := dictSet m.workflow tgt (JValue.obj (dictSet kvs "inputs"
        (JValue.obj (dictSet ikvs name (JValue.arr [JValue.str src, JValue.int slot]))))) },
      ?_, rfl, ?_, ?_, ?_⟩
    · unfold WorkflowManipulator.connect_nodes
      rw [if_neg (by rw [hmem]; intro h'; exact h' rfl)]
      simp only [h1, h2]
    · exact dget_dictSet_self _ _ _
    · exact dget_dictSet_self _ _ _
    · intro k hk
      exact dget_dictSet_ne _ _ _ _ hk

/-- Claim C3 witness: on a concrete two-field node, connecting to an absent
target fails and connecting to the present target overwrites the existing
`image` input with the (dangling, out-of-range) link `["7", 99]`. -/
theorem C3_connect_nodes_witness :
    ((WorkflowManipulator.mk'
        [("2", JValue.obj [("class_type", .str "B"),
          ("inputs", .obj [("image", .str "old")])])]).connect_nodes "7" 99 "9" "image"
      = some (false, WorkflowManipulator.mk'
        [("2", JValue.obj [("class_type", .str "B"),
          ("inputs", .obj [("image", .str "old")])])])) ∧
    (∃ m', (WorkflowManipulator.mk'
        [("2", JValue.obj [("class_type", .str "B"),
          ("inputs", .obj [("image", .str "old")])])]).connect_nodes "7" 99 "2" "image"
        = some (true, m') ∧
      dget m'.workflow "2" = some (.obj [("class_type", .str "B"),
        ("inputs", .obj [("image", .arr [.str "7", .int 99])])])) := by
  constructor
  · exact (C3_connect_nodes _ "7" 99 "9" "image").1 (by decide)
  · obtain ⟨m', he, -, ht, -, -⟩ :=
      (C3_connect_nodes (WorkflowManipulator.mk'
          [("2", JValue.obj [("class_type", .str "B"),
            ("inputs", .obj [("image", .str "old")])])]) "7" 99 "2" "image").2
        [("class_type", .str "B"), ("inputs", .obj [("image", .str "old")])]
        [("image", .str "old")] (by decide) (by decide)
    refine ⟨m', he, ?_⟩
    rw [ht]
    decide

theorem mapM_total_of_forall {α β : Type} {f : α → Option β} :
    ∀ {l : List α}, (∀ a ∈ l, (f a).isSome = true) → ∃ l', l.mapM f = some l' := by
  intro l
  induction l with
  | nil => intro _; exact ⟨[], rfl⟩
  | cons x t ih =>
    intro h
    obtain ⟨b, hb⟩ := Option.isSome_iff_exists.mp (h x (List.mem_cons_self _ _))
    obtain ⟨l', hl'⟩ := ih (fun a ha => h a (List.mem_cons_of_mem _ ha))
    exact ⟨b :: l', by rw [List.mapM_cons, hb, hl']; rfl⟩

theorem mapM_mem_rev {α β : Type} {f : α → Option β} :
    ∀ {l : List α} {l' : List β}, l.mapM f = some l' →
      ∀ {b : β}, b ∈ l' → ∃ a ∈ l, f a = some b := by
  intro l
  induction l with
  | nil =>
    intro l' h b hb
    have : l' = [] := by
      have h0 : ([] : List α).mapM f = some [] := rfl
      rw [h0] at h
      injection h with h
      exact h.symm
    subst this
    simp at hb
  | cons x t ih =>
    intro l' h b hb
    rw [List.mapM_cons] at h
    cases hfx : f x with
    | none => rw [hfx] at h; simp at h
    | some c =>
      rw [hfx] at h
      cases hmt : t.mapM f with
      | none => rw [hmt] at h; simp at h
      | some bs =>
        rw [hmt] at h
        simp only [Option.bind_eq_bind, Option.some_bind, Option.pure_def,
          Option.some.injEq] at h
        subst h
        rcases List.mem_cons.mp hb with hb | hb
        · subst hb
          exact ⟨x, List.mem_cons_self _ _, hfx⟩
        · obtain ⟨a, ha, hfa⟩ := ih hmt hb
          exact ⟨a, List.mem_cons_of_mem _ ha, hfa⟩

theorem cleanup_strips (x : String) (nid : String) (node : JValue)
    (h : wfNodeShapeB (nid, node) = true) :
    ∃ node', removeNodeCleanup x node = some node' ∧
      ∀ kvs, node' = .obj kvs → ∀ ikvs, dget kvs "inputs" = some (.obj ikvs) →
        ∀ p ∈ ikvs, removeKeepEntry x p = true := by
  cases node with
  | obj kvs =>
    cases hin : dget kvs "inputs" with
    | none =>
      refine ⟨.obj kvs, by rw [removeNodeCleanup, hin], ?_⟩
      intro kvs' he ikvs hi
      injection he with he
      subst he
      rw [hin] at hi
      cases hi
    | some v =>
      cases v with
      | obj ikvs0 =>
        refine ⟨.obj (dictSet kvs "inputs" (.obj (ikvs0.filter (removeKeepEntry x)))),
          by rw [removeNodeCleanup, hin], ?_⟩
        intro kvs' he ikvs hi
        injection he with he
        subst he
        rw [dget_dictSet_self] at hi
        injection hi with hi
        injection hi with hi
        subst hi
        intro p hp
        exact List.of_mem_filter hp
      | null => simp [wfNodeShapeB, hin] at h
      | bool b => simp [wfNodeShapeB, hin] at h
      | int n => simp [wfNodeShapeB, hin] at h
      | str s => simp [wfNodeShapeB, hin] at h
      | arr xs => simp [wfNodeShapeB, hin] at h
  | null => simp [wfNodeShapeB] at h
  | bool b => simp [wfNodeShapeB] at h
  | int n => simp [wfNodeShapeB] at h
  | str s => simp [wfNodeShapeB] at h
  | arr xs => simp [wfNodeShapeB] at h

/-- Claim C6: on a data-model-conforming graph, `remove_node` of a present id
returns `True` and afterwards no remaining node's inputs hold a 2-element
link whose source stringifies to the removed id; an absent id returns `False`
with the state unchanged, so a second removal of the same id returns
`False`. -/
theorem C6_remove_node (m : WorkflowManipulator)
    (hWF : wfWorkflowShapeB m.workflow = true) (x : String) :
    (dmem m.workflow x = true →
      ∃ m', m.remove_node x = some (true, m') ∧
        (∀ nid nd, dget m'.workflow nid = some nd →
          ∀ kvs, nd = .obj kvs → ∀ ikvs, dget kvs "inputs" = some (.obj ikvs) →
            ∀ iname a b, (iname, JValue.arr [a, b]) ∈ ikvs → ¬ pyStr a = x) ∧
        dmem m'.workflow x = false ∧
        m'.remove_node x = some (false, m')) ∧
    (dmem m.workflow x = false → m.remove_node x = some (false, m)) := by
  constructor
  · intro hmem
    have hWF' : ∀ p ∈ dictDel m.workflow x, wfNodeShapeB p = true := by
      intro p hp
      exact (List.all_eq_true.mp hWF) p (List.mem_of_mem_filter hp)
    have htot : ∀ p ∈ dictDel m.workflow x,
        ((removeNodeCleanup x p.2).map (p.1, ·)).isSome = true := by
      intro p hp
      obtain ⟨node', hn, -⟩ := cleanup_strips x p.1 p.2 (by
        have := hWF' p hp
        cases p
        exact this)
      rw [hn]
      rfl
    obtain ⟨wf', hwf'⟩ := mapM_total_of_forall htot
    refine ⟨{ m with workflow := wf' }, ?_, ?_, ?_, ?_⟩
    · unfold WorkflowManipulator.remove_node
      rw [if_neg (by rw [hmem]; intro h'; exact h' rfl)]
      simp only [hwf']
    · intro nid nd hget kvs he ikvs hi iname a b hp
      subst he
      obtain ⟨p, hpmem, hfp⟩ := mapM_mem_rev hwf' (dget_mem hget)
      obtain ⟨node'', hn'', hprop⟩ := cleanup_strips x p.1 p.2 (by
        have := hWF' p hpmem
        cases p
        exact this)
      rw [hn''] at hfp
      simp only [Option.map_some', Option.some.injEq] at hfp
      have he2 : node'' = JValue.obj kvs := congrArg Prod.snd hfp
      have := hprop kvs he2 ikvs hi (iname, JValue.arr [a, b]) hp
      simp only [removeKeepEntry, decide_eq_true_eq] at this
      exact this
    · rw [dmem_eq_isSome]
      cases hd : dget wf' x with
      | none => rfl
      | some nd =>
        obtain ⟨p, hpmem, -⟩ := mapM_mem_rev hwf' (dget_mem hd)
        have : ¬ p.1 = x := by
          have := List.mem_filter.mp hpmem
          simpa using this.2
        obtain ⟨q, hq, hfq⟩ := mapM_mem_rev hwf' (dget_mem hd)
        cases hcl : removeNodeCleanup x q.2 with
        | none => rw [hcl] at hfq; cases hfq
        | some node' =>
          rw [hcl] at hfq
          injection hfq with hfq
          have hq1 : q.1 = x := congrArg Prod.fst hfq
          have hq2 := List.mem_filter.mp hq
          rw [hq1] at hq2
          simp at hq2
    · unfold WorkflowManipulator.remove_node
      rw [if_pos]
      rw [dmem_eq_isSome]
      cases hd : dget wf' x with
      | none => simp
      | some nd =>
        obtain ⟨q, hq, hfq⟩ := mapM_mem_rev hwf' (dget_mem hd)
        cases hcl : removeNodeCleanup x q.2 with
        | none => rw [hcl] at hfq; cases hfq
        | some node' =>
          rw [hcl] at hfq
          injection hfq with hfq
          have hq1 : q.1 = x := congrArg Prod.fst hfq
          have hq2 := List.mem_filter.mp hq
          rw [hq1] at hq2
          simp at hq2
  · intro hmem
    unfold WorkflowManipulator.remove_node
    rw [if_pos (by rw [hmem]; simp)]

/-- Claim C6 witness: removing node "1" from a concrete two-node graph (node
"2" links to it) succeeds, and removing it again returns `False`. -/
theorem C6_remove_node_witness :
    ∃ m', (WorkflowManipulator.mk'
        [("1", JValue.obj [("class_type", .str "A"), ("inputs", .obj [])]),
         ("2", JValue.obj [("class_type", .str "B"),
           ("inputs", .obj [("image", .arr [.str "1", .int 0])])])]).remove_node "1"
      = some (true, m') ∧
    dmem m'.workflow "1" = false ∧
    m'.remove_node "1" = some (false, m') := by
  obtain ⟨m', h1, -, h3, h4⟩ :=
    (C6_remove_node (WorkflowManipulator.mk'
        [("1", JValue.obj [("class_type", .str "A"), ("inputs", .obj [])]),
         ("2", JValue.obj [("class_type", .str "B"),
           ("inputs", .obj [("image", .arr [.str "1", .int 0])])])])
      (by decide) "1").1 (by decide)
  exact ⟨m', h1, h3, h4⟩

/-- Claim C9: every operation treats a 2-element-list input value as a Link,
by shape alone: `remove_node` deletes exactly the entries whose first element
stringifies to the removed id; `selfCheck` and the Validator's link-validity
check flag exactly the entries whose stringified first element is not a
workflow key (and they agree with each other); and an integer source id is
matched against node ids through its decimal string form (`str(value[0])`). -/
theorem C9_links_by_shape (node_id x : String) (wf : Workflow)
    (p : String × JValue) :
    (removeKeepEntry x p = false ↔ ∃ a b, p.2 = JValue.arr [a, b] ∧ pyStr a = x) ∧
    (selfCheckLinkEntry wf node_id p ≠ [] ↔
      ∃ a b, p.2 = JValue.arr [a, b] ∧ dmem wf (pyStr a) = false) ∧
    (checkLinkEntry wf node_id p ≠ [] ↔
      ∃ a b, p.2 = JValue.arr [a, b] ∧ dmem wf (pyStr a) = false) ∧
    (selfCheckLinkEntry wf node_id p ≠ [] ↔ checkLinkEntry wf node_id p ≠ []) ∧
    (∀ k : Int, pyStr (JValue.int k) = intStr k) := by
  rcases p with ⟨iname, v⟩
  have harr : ∀ (a b : JValue) (P : JValue → Prop),
      (∃ a' b', JValue.arr [a, b] = JValue.arr [a', b'] ∧ P a') ↔ P a := by
    intro a b P
    constructor
    · rintro ⟨a', b', he, hp⟩
      injection he with he
      injection he with h1 h2
      subst h1
      exact hp
    · intro hp
      exact ⟨a, b, rfl, hp⟩
  have main : ∀ (a b : JValue),
      (removeKeepEntry x (iname, JValue.arr [a, b]) = false ↔
        ∃ a' b', (JValue.arr [a, b] : JValue) = JValue.arr [a', b'] ∧ pyStr a' = x) ∧
      (selfCheckLinkEntry wf node_id (iname, JValue.arr [a, b]) ≠ [] ↔
        ∃ a' b', (JValue.arr [a, b] : JValue) = JValue.arr [a', b'] ∧
          dmem wf (pyStr a') = false) ∧
      (checkLinkEntry wf node_id (iname, JValue.arr [a, b]) ≠ [] ↔
        ∃ a' b', (JValue.arr [a, b] : JValue) = JValue.arr [a', b'] ∧
          dmem wf (pyStr a') = false) := by
    intro a b
    refine ⟨?_, ?_, ?_⟩
    · rw [harr a b (fun a' => pyStr a' = x)]
      simp [removeKeepEntry]
    · rw [harr a b (fun a' => dmem wf (pyStr a') = false)]
      simp only [selfCheckLinkEntry]
      by_cases hd : dmem wf (pyStr a) = true
      · rw [if_neg (by rw [hd]; intro h'; exact h' rfl)]
        simp [hd]
      · rw [if_pos (by intro h'; exact hd h')]
        constructor
        · intro _
          cases hdm : dmem wf (pyStr a)
          · rfl
          · exact absurd hdm hd
        · intro _ h'
          cases h'
    · rw [harr a b (fun a' => dmem wf (pyStr a') = false)]
      simp only [checkLinkEntry]
      by_cases hd : dmem wf (pyStr a) = true
      · rw [if_neg (by rw [hd]; intro h'; exact h' rfl)]
        simp [hd]
      · rw [if_pos (by intro h'; exact hd h')]
        constructor
        · intro _
          cases hdm : dmem wf (pyStr a)
          · rfl
          · exact absurd hdm hd
        · intro _ h'
          cases h'
  cases v with
  | arr xs =>
    rcases xs with _ | ⟨a, _ | ⟨b, _ | ⟨c, t⟩⟩⟩
    · refine ⟨by simp [removeKeepEntry], by simp [selfCheckLinkEntry],
        by simp [checkLinkEntry], by simp [selfCheckLinkEntry, checkLinkEntry],
        fun k => rfl⟩
    · refine ⟨by simp [removeKeepEntry], by simp [selfCheckLinkEntry],
        by simp [checkLinkEntry], by simp [selfCheckLinkEntry, checkLinkEntry],
        fun k => rfl⟩
    · obtain ⟨m1, m2, m3⟩ := main a b
      exact ⟨m1, m2, m3, m2.trans m3.symm, fun k => rfl⟩
    · refine ⟨by simp [removeKeepEntry], by simp [selfCheckLinkEntry],
        by simp [checkLinkEntry], by simp [selfCheckLinkEntry, checkLinkEntry],
        fun k => rfl⟩
  | null =>
    exact ⟨by simp [removeKeepEntry], by simp [selfCheckLinkEntry],
      by simp [checkLinkEntry], by simp [selfCheckLinkEntry, checkLinkEntry],
      fun k => rfl⟩
  | bool b =>
    exact ⟨by simp [removeKeepEntry], by simp [selfCheckLinkEntry],
      by simp [checkLinkEntry], by simp [selfCheckLinkEntry, checkLinkEntry],
      fun k => rfl⟩
  | int n =>
    exact ⟨by simp [removeKeepEntry], by simp [selfCheckLinkEntry],
      by simp [checkLinkEntry], by simp [selfCheckLinkEntry, checkLinkEntry],
      fun k => rfl⟩
  | str s =>
    exact ⟨by simp [removeKeepEntry], by simp [selfCheckLinkEntry],
      by simp [checkLinkEntry], by simp [selfCheckLinkEntry, checkLinkEntry],
      fun k => rfl⟩
  | obj kvs =>
    exact ⟨by simp [removeKeepEntry], by simp [selfCheckLinkEntry],
      by simp [checkLinkEntry], by simp [selfCheckLinkEntry, checkLinkEntry],
      fun k => rfl⟩

/-- Claim C8 (amended): for a link whose target class type, source node,
output tag at the slot, and target input type all resolve, check 5 emits an
issue exactly when the source's output tag is non-empty, differs from the
target input's tag, and neither side is the wildcard "*"; the emitted issue
always carries severity "warning".  (The claim as stated omits "non-empty":
`if not output_type` also skips an empty-string tag — see the
counterexample.) -/
theorem C8_type_compat (reg : NodeRegistry) (wf : Workflow) (node_id : String)
    (class_type : JValue) (iname : String) (srcJ slotJ : JValue)
    (snode : JValue) (skvs : List (String × JValue)) (out exp : String) (req : Bool)
    (hsrc : dget wf (pyStr srcJ) = some snode)
    (hfalsy : pyFalsy snode = false)
    (hobj : snode = .obj skvs)
    (hout : regGetOutputType reg ((dget skvs "class_type").getD (.str "")) slotJ =
      some (some (.str out)))
    (hexp : regGetInputType reg class_type iname = some (exp, req)) :
    checkTypeEntry reg wf node_id class_type (iname, .arr [srcJ, slotJ]) =
      some (if ¬ out = "" ∧ ¬ (exp = "*" ∨ out = "*") ∧ ¬ out = exp
        then [{ check := "type_mismatch", node_id := node_id
                message := "Node " ++ pyReprStr node_id ++ " input " ++
                  pyReprStr iname ++ " expects " ++ pyReprStr exp ++
                  " but receives " ++ pyRepr (JValue.str out) ++ " from node " ++
                  pyReprStr (pyStr srcJ) ++ " slot " ++ pyStr slotJ
                severity := "warning", suggestion := "" }]
        else []) := by
  subst hobj
  unfold checkTypeEntry
  simp only [hsrc]
  rw [if_neg (by rw [hfalsy]; exact Bool.false_ne_true)]
  simp only [hout, hexp]
  by_cases h0 : out = ""
  · subst h0
    simp [pyFalsy]
  · have hfo : pyFalsy (.str out) = false := by
      simp [pyFalsy, h0]
    rw [if_neg (by rw [hfo]; exact Bool.false_ne_true)]
    by_cases h1 : exp = "*" ∨ pyEqStr (JValue.str out) "*" = true
    · rw [if_pos h1]
      have h1' : exp = "*" ∨ out = "*" := by
        rcases h1 with h1 | h1
        · exact Or.inl h1
        · simp [pyEqStr] at h1
          exact Or.inr h1
      simp [h0, h1']
    · rw [if_neg h1]
      have h1' : ¬ (exp = "*" ∨ out = "*") := by
        intro hc
        apply h1
        rcases hc with hc | hc
        · exact Or.inl hc
        · exact Or.inr (by simp [pyEqStr, hc])
      by_cases h2 : out = exp
      · rw [if_neg (by simp [pyEqStr, h2])]
        simp [h2, h0, h1']
      · rw [if_pos (by simp [pyEqStr, h2])]
        simp [h0, h1', h2]

/-- Claim C8 (counterexample): source class "A" declares output tags `[""]`
and target class "B" requires input `x : "IMAGE"`.  Everything the claim
requires resolves, the tags differ and neither is "*", yet check 5 emits
nothing for the link: the empty output tag is falsy and `if not output_type`
skips it. -/
theorem C8_counterexample_empty_output_tag :
    checkTypeEntry
      { nodes := [("A", { class_type := "A", output_types := [.str ""] }),
          ("B", { class_type := "B",
                  inputs_required := [("x", { name := "x", type := "IMAGE" })] })]
        last_fetch := 0, fetched := true }
      [("1", .obj [("class_type", .str "A"), ("inputs", .obj [])]),
       ("2", .obj [("class_type", .str "B"),
         ("inputs", .obj [("x", .arr [.str "1", .int 0])])])]
      "2" (.str "B") ("x", .arr [.str "1", .int 0]) = some [] ∧
    regGetOutputType
      { nodes := [("A", { class_type := "A", output_types := [.str ""] }),
          ("B", { class_type := "B",
                  inputs_required := [("x", { name := "x", type := "IMAGE" })] })]
        last_fetch := 0, fetched := true } (.str "A") (.int 0) =
      some (some (.str "")) ∧
    regGetInputType
      { nodes := [("A", { class_type := "A", output_types := [.str ""] }),
          ("B", { class_type := "B",
                  inputs_required := [("x", { name := "x", type := "IMAGE" })] })]
        last_fetch := 0, fetched := true } (.str "B") "x" = some ("IMAGE", true) ∧
    ¬ ("" = "IMAGE") ∧ ¬ ("" = "*") ∧ ¬ ("IMAGE" = "*") := by
  refine ⟨by decide, by decide, by decide, by decide, by decide, by decide⟩

/-- Claim C8 witness: a concrete mismatching link ("IMG2" into "IMAGE")
produces exactly one issue, of severity "warning"; and a wildcard output
("*" into "IMAGE") produces none. -/
theorem C8_type_compat_witness :
    checkTypeEntry
        { nodes := [("A", { class_type := "A", output_types := [.str "IMG2"] }),
            ("B", { class_type := "B",
                    inputs_required := [("x", { name := "x", type := "IMAGE" })] })]
          last_fetch := 0, fetched := true }
        [("1", .obj [("class_type", .str "A"), ("inputs", .obj [])]),
         ("2", .obj [("class_type", .str "B"),
           ("inputs", .obj [("x", .arr [.str "1", .int 0])])])]
        "2" (.str "B") ("x", .arr [.str "1", .int 0]) =
      some [{ check := "type_mismatch", node_id := "2"
              message := "Node " ++ pyReprStr "2" ++ " input " ++ pyReprStr "x" ++
                " expects " ++ pyReprStr "IMAGE" ++ " but receives " ++
                pyRepr (JValue.str "IMG2") ++ " from node " ++ pyReprStr "1" ++
                " slot " ++ pyStr (JValue.int 0)
              severity := "warning", suggestion := "" }] ∧
    checkTypeEntry
        { nodes := [("A", { class_type := "A", output_types := [.str "*"] }),
            ("B", { class_type := "B",
                    inputs_required := [("x", { name := "x", type := "IMAGE" })] })]
          last_fetch := 0, fetched := true }
        [("1", .obj [("class_type", .str "A"), ("inputs", .obj [])]),
         ("2", .obj [("class_type", .str "B"),
           ("inputs", .obj [("x", .arr [.str "1", .int 0])])])]
        "2" (.str "B") ("x", .arr [.str "1", .int 0]) = some [] := by
  constructor
  · rw [C8_type_compat _ _ "2" (.str "B") "x" (.str "1") (.int 0)
      (.obj [("class_type", .str "A"), ("inputs", .obj [])])
      [("class_type", .str "A"), ("inputs", .obj [])] "IMG2" "IMAGE" true
      (by decide) (by decide) rfl (by decide) (by decide)]
    rw [if_pos (by refine ⟨by decide, by decide, by decide⟩)]
    rfl
  · rw [C8_type_compat _ _ "2" (.str "B") "x" (.str "1") (.int 0)
      (.obj [("class_type", .str "A"), ("inputs", .obj [])])
      [("class_type", .str "A"), ("inputs", .obj [])] "*" "IMAGE" true
      (by decide) (by decide) rfl (by decide) (by decide)]
    rw [if_neg (by rintro ⟨h1, h2, h3⟩; exact h2 (Or.inr rfl))]

theorem foldlM_option_total {α β : Type} (f : β → α → Option β) :
    ∀ (l : List α), (∀ b a, a ∈ l → (f b a).isSome = true) →
      ∀ b, ((l.foldlM f b : Option β)).isSome = true := by
  intro l
  induction l with
  | nil => intro _ b; rfl
  | cons x t ih =>
    intro h b
    rw [List.foldlM_cons]
    cases hfx : f b x with
    | none =>
      have := h b x (List.mem_cons_self _ _)
      rw [hfx] at this
      cases this
    | some b' =>
      simp only [hfx, Option.bind_eq_bind, Option.some_bind]
      exact ih (fun b a ha => h b a (List.mem_cons_of_mem _ ha)) b'

theorem wfvNodeB_dest {k : String} {v : JValue} (h : wfvNodeB (k, v) = true) :
    ∃ kvs, v = .obj kvs ∧
      (∀ ct, dget kvs "class_type" = some ct → ∃ s, ct = .str s) ∧
      (∀ iv, dget kvs "inputs" = some iv →
        ∃ ikvs, iv = .obj ikvs ∧ ∀ p ∈ ikvs, wfInputEntryB p = true) := by
  cases v with
  | obj kvs =>
    refine ⟨kvs, rfl, ?_, ?_⟩
    · intro ct hct
      unfold wfvNodeB at h
      rw [Bool.and_eq_true] at h
      rw [hct] at h
      cases ct with
      | str s => exact ⟨s, rfl⟩
      | null => cases h.1
      | bool b => cases h.1
      | int n => cases h.1
      | arr xs => cases h.1
      | obj o => cases h.1
    · intro iv hiv
      unfold wfvNodeB at h
      rw [Bool.and_eq_true] at h
      rw [hiv] at h
      cases iv with
      | obj ikvs =>
        refine ⟨ikvs, rfl, ?_⟩
        exact List.all_eq_true.mp h.2
      | null => cases h.2
      | bool b => cases h.2
      | int n => cases h.2
      | str s => cases h.2
      | arr xs => cases h.2
  | null => cases h
  | bool b => cases h
  | int n => cases h
  | str s => cases h
  | arr xs => cases h

theorem wfv_dget_obj {wf : Workflow} (hwf : wfvWorkflowB wf = true) {k : String}
    {v : JValue} (h : dget wf k = some v) : ∃ kvs, v = .obj kvs := by
  have hmem := dget_mem h
  have := (List.all_eq_true.mp hwf) (k, v) hmem
  obtain ⟨kvs, he, -, -⟩ := wfvNodeB_dest this
  exact ⟨kvs, he⟩

theorem check1_total (reg : NodeRegistry) (sug : String → List String)
    (n s : String) :
    (WorkflowValidator._check_node_exists reg sug n (.str s)).isSome = true := by
  unfold WorkflowValidator._check_node_exists
  split
  · rfl
  · dsimp only
    split
    · rfl
    · split <;> rfl

theorem check2_total (reg : NodeRegistry) (n : String) (ct : JValue)
    (ikvs : List (String × JValue)) :
    (WorkflowValidator._check_required_inputs reg n ct (.obj ikvs)).isSome = true := by
  unfold WorkflowValidator._check_required_inputs
  cases hr : regGetNode reg ct with
  | none => rfl
  | some ndef =>
    apply foldlM_option_total
    intro b a _
    show (match pyInStr a.1 (.obj ikvs) with
      | none => none
      | some present => if present then some b else some (b ++ [_])).isSome = true
    dsimp only [pyInStr]
    split <;> rfl

theorem regGetOutputType_total (reg : NodeRegistry) (ct slot : JValue)
    (hslot : (pyAsInt slot).isSome = true) :
    (regGetOutputType reg ct slot).isSome = true := by
  unfold regGetOutputType
  cases hr : regGetNode reg ct with
  | none => rfl
  | some node =>
    dsimp only
    cases hs : pyAsInt slot with
    | none => rw [hs] at hslot; cases hslot
    | some m =>
      simp only [hs]
      split <;> rfl

theorem checkSlotEntry_total (reg : NodeRegistry) (wf : Workflow) (n : String)
    (p : String × JValue) (hwf : wfvWorkflowB wf = true)
    (hp : wfInputEntryB p = true) :
    (checkSlotEntry reg wf n p).isSome = true := by
  rcases p with ⟨iname, v⟩
  unfold checkSlotEntry
  cases v with
  | arr xs =>
    rcases xs with _ | ⟨a, _ | ⟨b, _ | ⟨c, t⟩⟩⟩
    · rfl
    · rfl
    · cases hs : dget wf (pyStr a) with
      | none => simp only [hs]; rfl
      | some snode =>
        simp only [hs]
        split
        · rfl
        · obtain ⟨skvs, he⟩ := wfv_dget_obj hwf hs
          subst he
          dsimp only
          cases hr : regGetNode reg ((dget skvs "class_type").getD (.str "")) with
          | none =>
            simp only [hr]
            rfl
          | some sdef =>
            simp only [hr]
            cases hsl : pyAsInt b with
            | none =>
              have : (pyAsInt b).isSome = true := by
                simpa [wfInputEntryB] using hp
              rw [hsl] at this
              cases this
            | some slot =>
              simp only [hsl]
              split
              · rfl
              · rfl
    · rfl
  | null => rfl
  | bool b => rfl
  | int m => rfl
  | str s => rfl
  | obj kvs => rfl

theorem checkTypeEntry_total (reg : NodeRegistry) (wf : Workflow) (n : String)
    (ct : JValue) (p : String × JValue) (hwf : wfvWorkflowB wf = true)
    (hp : wfInputEntryB p = true) :
    (checkTypeEntry reg wf n ct p).isSome = true := by
  rcases p with ⟨iname, v⟩
  unfold checkTypeEntry
  cases v with
  | arr xs =>
    rcases xs with _ | ⟨a, _ | ⟨b, _ | ⟨c, t⟩⟩⟩
    · rfl
    · rfl
    · cases hs : dget wf (pyStr a) with
      | none => simp only [hs]; rfl
      | some snode =>
        simp only [hs]
        split
        · rfl
        · obtain ⟨skvs, he⟩ := wfv_dget_obj hwf hs
          subst he
          dsimp only
          cases hot : regGetOutputType reg ((dget skvs "class_type").getD (.str "")) b with
          | none =>
            have := regGetOutputType_total reg ((dget skvs "class_type").getD (.str "")) b
              (by simpa [wfInputEntryB] using hp)
            rw [hot] at this
            cases this
          | some ot? =>
            simp only [hot]
            cases ot? with
            | none => rfl
            | some ot =>
              dsimp only
              split
              · rfl
              · cases hit : regGetInputType reg ct iname with
                | none =>
                  simp only [hit]
                  rfl
                | some ti =>
                  simp only [hit]
                  rcases ti with ⟨exp, req⟩
                  split
                  · rfl
                  · split <;> rfl
    · rfl
  | null => rfl
  | bool b => rfl
  | int m => rfl
  | str s => rfl
  | obj kvs => rfl

theorem dictMerge_defs {r o : List (String × InputDefinition)}
    (hr : ∀ q ∈ r, wfInputDefB q.2 = true) (ho : ∀ q ∈ o, wfInputDefB q.2 = true) :
    ∀ q ∈ dictMerge r o, wfInputDefB q.2 = true := by
  intro q hq
  unfold dictMerge at hq
  rcases List.mem_append.mp hq with hq | hq
  · obtain ⟨p, hp, he⟩ := List.mem_map.mp hq
    subst he
    cases hd : dget o p.1 with
    | none => simp only [hd, Option.getD_none]; exact hr p hp
    | some d => simp only [hd, Option.getD_some]; exact ho _ (dget_mem hd)
  · exact ho q (List.mem_filter.mp hq).1

theorem checkRangeBound_total_lt (issue : JValue → ValidationIssue) (value : Int)
    (bound : Option JValue) (h : wfBoundB bound = true) :
    (checkRangeBound pyLtNum issue value bound).isSome = true := by
  cases bound with
  | none => rfl
  | some mv =>
    cases mv with
    | int m => unfold checkRangeBound; dsimp only [pyLtNum]; split <;> rfl
    | bool b => unfold checkRangeBound; dsimp only [pyLtNum]; split <;> split <;> rfl
    | null => cases h
    | str s => cases h
    | arr xs => cases h
    | obj kvs => cases h

theorem checkRangeBound_total_gt (issue : JValue → ValidationIssue) (value : Int)
    (bound : Option JValue) (h : wfBoundB bound = true) :
    (checkRangeBound pyGtNum issue value bound).isSome = true := by
  cases bound with
  | none => rfl
  | some mv =>
    cases mv with
    | int m => unfold checkRangeBound; dsimp only [pyGtNum]; split <;> rfl
    | bool b => unfold checkRangeBound; dsimp only [pyGtNum]; split <;> split <;> rfl
    | null => cases h
    | str s => cases h
    | arr xs => cases h
    | obj kvs => cases h

theorem checkRangeEntry_body_total (n : String) (ct : JValue)
    (all_inputs : List (String × InputDefinition)) (iname : String) (v : JValue)
    (hdefs : ∀ q ∈ all_inputs, wfInputDefB q.2 = true)
    (value : Int) (idef : InputDefinition)
    (hd : dget all_inputs iname = some idef) :
    (match checkRangeBound pyLtNum
        (fun mv => { check := "value_out_of_range", node_id := n
                     message := "Node " ++ pyReprStr n ++ " (" ++
                       pyStr ct ++ ") " ++ iname ++ "=" ++ pyStr v ++
                       ", minimum is " ++ pyStr mv
                     severity := "warning" })
        value idef.min_val with
      | none => none
      | some mi =>
        match checkRangeBound pyGtNum
            (fun mv => { check := "value_out_of_range", node_id := n
                         message := "Node " ++ pyReprStr n ++ " (" ++
                           pyStr ct ++ ") " ++ iname ++ "=" ++ pyStr v ++
                           ", maximum is " ++ pyStr mv
                         severity := "warning" })
            value idef.max_val with
        | none => none
        | some ma => some (mi ++ ma) : Option (List ValidationIssue)).isSome = true := by
  have hwb := hdefs _ (dget_mem hd)
  rw [wfInputDefB, Bool.and_eq_true] at hwb
  cases hmi : checkRangeBound pyLtNum _ value idef.min_val with
  | none =>
    have := checkRangeBound_total_lt
      (fun mv => { check := "value_out_of_range", node_id := n
                   message := "Node " ++ pyReprStr n ++ " (" ++
                     pyStr ct ++ ") " ++ iname ++ "=" ++ pyStr v ++
                     ", minimum is " ++ pyStr mv
                   severity := "warning" }) value idef.min_val hwb.1
    rw [hmi] at this
    cases this
  | some mi =>
    cases hma : checkRangeBound pyGtNum _ value idef.max_val with
    | none =>
      have := checkRangeBound_total_gt
        (fun mv => { check := "value_out_of_range", node_id := n
                     message := "Node " ++ pyReprStr n ++ " (" ++
                       pyStr ct ++ ") " ++ iname ++ "=" ++ pyStr v ++
                       ", maximum is " ++ pyStr mv
                     severity := "warning" }) value idef.max_val hwb.2
      rw [hma] at this
      cases this
    | some ma => rfl

theorem checkRangeEntry_total (n : String) (ct : JValue)
    (all_inputs : List (String × InputDefinition)) (p : String × JValue)
    (hdefs : ∀ q ∈ all_inputs, wfInputDefB q.2 = true) :
    (checkRangeEntry n ct all_inputs p).isSome = true := by
  rcases p with ⟨iname, v⟩
  unfold checkRangeEntry
  cases v with
  | arr xs => rfl
  | null =>
    dsimp only
    cases hd : dget all_inputs iname with
    | none => rfl
    | some idef =>
      simp only [hd]
      split
      · rfl
      · rfl
  | str s =>
    dsimp only
    cases hd : dget all_inputs iname with
    | none => rfl
    | some idef =>
      simp only [hd]
      split
      · rfl
      · rfl
  | obj kvs =>
    dsimp only
    cases hd : dget all_inputs iname with
    | none => rfl
    | some idef =>
      simp only [hd]
      split
      · rfl
      · rfl
  | int n0 =>
    dsimp only
    cases hd : dget all_inputs iname with
    | none => rfl
    | some idef =>
      simp only [hd]
      split
      · exact checkRangeEntry_body_total n ct all_inputs iname (.int n0) hdefs n0 idef hd
      · rfl
  | bool b0 =>
    dsimp only
    cases hd : dget all_inputs iname with
    | none => rfl
    | some idef =>
      simp only [hd]
      split
      · exact checkRangeEntry_body_total n ct all_inputs iname (.bool b0) hdefs
          (if b0 then 1 else 0) idef hd
      · rfl

theorem regGetNode_mem {reg : NodeRegistry} {ct : JValue} {nd : NodeDefinition}
    (h : regGetNode reg ct = some nd) : ∃ s, ct = .str s ∧ (s, nd) ∈ reg.nodes := by
  cases ct with
  | str s => exact ⟨s, rfl, dget_mem h⟩
  | null => cases h
  | bool b => cases h
  | int n => cases h
  | arr xs => cases h
  | obj kvs => cases h

theorem regNode_defs {reg : NodeRegistry} (hreg : wfRegistryB reg = true)
    {ct : JValue} {nd : NodeDefinition} (h : regGetNode reg ct = some nd) :
    ∀ q ∈ dictMerge nd.inputs_required nd.inputs_optional, wfInputDefB q.2 = true := by
  obtain ⟨s, -, hmem⟩ := regGetNode_mem h
  have := (List.all_eq_true.mp hreg) (s, nd) hmem
  rw [wfNodeDefB, Bool.and_eq_true] at this
  exact dictMerge_defs (List.all_eq_true.mp this.1) (List.all_eq_true.mp this.2)

theorem check4_total (reg : NodeRegistry) (wf : Workflow) (n : String)
    (ikvs : List (String × JValue)) (hwf : wfvWorkflowB wf = true)
    (hents : ∀ p ∈ ikvs, wfInputEntryB p = true) :
    (WorkflowValidator._check_output_slot_range reg n (.obj ikvs) wf).isSome = true := by
  unfold WorkflowValidator._check_output_slot_range
  dsimp only
  obtain ⟨l', hl'⟩ := mapM_total_of_forall
    (fun p hp => checkSlotEntry_total reg wf n p hwf (hents p hp))
  rw [hl']
  rfl

theorem check5_total (reg : NodeRegistry) (wf : Workflow) (n : String)
    (ct : JValue) (ikvs : List (String × JValue)) (hwf : wfvWorkflowB wf = true)
    (hents : ∀ p ∈ ikvs, wfInputEntryB p = true) :
    (WorkflowValidator._check_type_compatibility reg n ct (.obj ikvs) wf).isSome = true := by
  unfold WorkflowValidator._check_type_compatibility
  cases hr : regGetNode reg ct with
  | none => rfl
  | some nd =>
    dsimp only
    obtain ⟨l', hl'⟩ := mapM_total_of_forall
      (fun p hp => checkTypeEntry_total reg wf n ct p hwf (hents p hp))
    rw [hl']
    rfl

theorem check6_total (reg : NodeRegistry) (n : String) (ct : JValue)
    (ikvs : List (String × JValue)) (hreg : wfRegistryB reg = true) :
    (WorkflowValidator._check_value_ranges reg n ct (.obj ikvs)).isSome = true := by
  unfold WorkflowValidator._check_value_ranges
  cases hr : regGetNode reg ct with
  | none => rfl
  | some nd =>
    dsimp only
    obtain ⟨l', hl'⟩ := mapM_total_of_forall
      (fun p _ => checkRangeEntry_total n ct
        (dictMerge nd.inputs_required nd.inputs_optional) p (regNode_defs hreg hr))
    rw [hl']
    rfl

theorem check7_total (reg : NodeRegistry) (n : String) (ct : JValue)
    (ikvs : List (String × JValue)) :
    (WorkflowValidator._check_combo_values reg n ct (.obj ikvs)).isSome = true := by
  unfold WorkflowValidator._check_combo_values
  cases hr : regGetNode reg ct with
  | none => rfl
  | some nd => rfl

theorem nodeChecks_total (reg : NodeRegistry) (sug : String → List String)
    (wf : Workflow) (hwf : wfvWorkflowB wf = true) (hreg : wfRegistryB reg = true)
    (p : String × JValue) (hp : p ∈ wf) :
    (validateNodeChecks reg sug wf p.1 p.2).isSome = true := by
  obtain ⟨kvs, hobj, hct, hin⟩ := wfvNodeB_dest ((List.all_eq_true.mp hwf) p hp)
  rcases p with ⟨n, nd⟩
  dsimp only at hobj ⊢
  subst hobj
  unfold validateNodeChecks
  dsimp only
  have hcts : ∃ s, (dget kvs "class_type").getD (.str "") = JValue.str s := by
    cases hc : dget kvs "class_type" with
    | none => exact ⟨"", rfl⟩
    | some ct =>
      obtain ⟨s, hs⟩ := hct ct hc
      exact ⟨s, by rw [Option.getD_some, hs]⟩
  have hins : ∃ ikvs, (dget kvs "inputs").getD (.obj []) = JValue.obj ikvs ∧
      ∀ q ∈ ikvs, wfInputEntryB q = true := by
    cases hi : dget kvs "inputs" with
    | none => exact ⟨[], rfl, by intro q hq; cases hq⟩
    | some iv =>
      obtain ⟨ikvs, he, hq⟩ := hin iv hi
      exact ⟨ikvs, by rw [Option.getD_some, he], hq⟩
  obtain ⟨s, hcts⟩ := hcts
  obtain ⟨ikvs, hins, hents⟩ := hins
  rw [hcts, hins]
  cases h1 : WorkflowValidator._check_node_exists reg sug n (.str s) with
  | none =>
    have := check1_total reg sug n s
    rw [h1] at this
    cases this
  | some c1 =>
    cases h2 : WorkflowValidator._check_required_inputs reg n (.str s) (.obj ikvs) with
    | none =>
      have := check2_total reg n (.str s) ikvs
      rw [h2] at this
      cases this
    | some c2 =>
      cases h3 : WorkflowValidator._check_link_validity n (.obj ikvs) wf with
      | none => cases h3
      | some c3 =>
        cases h4 : WorkflowValidator._check_output_slot_range reg n (.obj ikvs) wf with
        | none =>
          have := check4_total reg wf n ikvs hwf hents
          rw [h4] at this
          cases this
        | some c4 =>
          cases h5 : WorkflowValidator._check_type_compatibility reg n (.str s) (.obj ikvs) wf with
          | none =>
            have := check5_total reg wf n (.str s) ikvs hwf hents
            rw [h5] at this
            cases this
          | some c5 =>
            cases h6 : WorkflowValidator._check_value_ranges reg n (.str s) (.obj ikvs) with
            | none =>
              have := check6_total reg n (.str s) ikvs hreg
              rw [h6] at this
              cases this
            | some c6 =>
              cases h7 : WorkflowValidator._check_combo_values reg n (.str s) (.obj ikvs) with
              | none =>
                have := check7_total reg n (.str s) ikvs
                rw [h7] at this
                cases this
              | some c7 =>
                simp only [h1, h2, h3, h4, h5, h6, h7]
                rfl

theorem validate_total (reg : NodeRegistry) (sug : String → List String)
    (wf : Workflow) (hwf : wfvWorkflowB wf = true) (hreg : wfRegistryB reg = true) :
    ∃ r, WorkflowValidator.validate reg sug wf = some r := by
  unfold WorkflowValidator.validate
  split
  · exact ⟨_, rfl⟩
  · dsimp only
    by_cases hl : reg.is_loaded = true
    · obtain ⟨blocks, hb⟩ := mapM_total_of_forall
        (fun p hp => nodeChecks_total reg sug wf hwf hreg p hp)
      rw [if_pos hl, hb]
      simp only [Option.map_some']
      exact ⟨_, rfl⟩
    · rw [if_neg hl]
      exact ⟨_, rfl⟩

theorem validate_shape (reg : NodeRegistry) (sug : String → List String)
    (wf : Workflow) (hne : ¬ wf.isEmpty = true) (hl : reg.is_loaded = true)
    (blocks : List (List ValidationIssue))
    (hb : wf.mapM (fun p => validateNodeChecks reg sug wf p.1 p.2) = some blocks) :
    WorkflowValidator.validate reg sug wf = some
      { valid := ((WorkflowValidator._check_structure wf ++
          blocks.flatten).filter (fun i => i.severity = "error")).isEmpty
        issues := WorkflowValidator._check_structure wf ++ blocks.flatten
        node_count := wf.length
        validated_against_registry := reg.is_loaded } := by
  unfold WorkflowValidator.validate
  rw [if_neg hne]
  dsimp only
  rw [if_pos hl, hb]
  simp only [Option.map_some']

/-- Claim C5 (counterexample): with a loaded catalog, a workflow whose node
has a non-mapping `"inputs"` value (`5`) makes `validate` raise (modelled
`none`): check 3 iterates `inputs.items()` on an int.  The claim says no
input workflow causes `validate` to raise. -/
theorem C5_counterexample_non_dict_inputs :
    WorkflowValidator.validate
      { nodes := [("B", { class_type := "B" })], last_fetch := 0, fetched := true }
      (fun _ => [])
      [("1", .obj [("class_type", .str "A"), ("inputs", .int 5)])] = none ∧
    NodeRegistry.is_loaded
      { nodes := [("B", { class_type := "B" })], last_fetch := 0, fetched := true }
      = true := by
  refine ⟨by decide, by decide⟩

/-- Claim C5 (amended): `validate` is total — it returns a Report and never
raises — for every workflow conforming to the wire format (nodes are
mappings, `class_type` a string when present, `inputs` a mapping when
present, link slots integers) against every catalog whose numeric bounds are
numbers; validity is exactly the absence of error-severity issues, all
failures being reported as Issue values.  (Outside those shapes `validate`
can raise — see the counterexample.) -/
theorem C5_validate_total (reg : NodeRegistry) (sug : String → List String)
    (wf : Workflow) (hwf : wfvWorkflowB wf = true) (hreg : wfRegistryB reg = true) :
    ∃ r, WorkflowValidator.validate reg sug wf = some r ∧
      (r.valid = true ↔ r.errors = []) := by
  unfold WorkflowValidator.validate
  split
  · refine ⟨_, rfl, ?_⟩
    simp [ValidationResult.errors]
  · dsimp only
    by_cases hl : reg.is_loaded = true
    · obtain ⟨blocks, hb⟩ := mapM_total_of_forall
        (fun p hp => nodeChecks_total reg sug wf hwf hreg p hp)
      rw [if_pos hl, hb]
      simp only [Option.map_some']
      refine ⟨_, rfl, ?_⟩
      unfold ValidationResult.errors
      exact List.isEmpty_iff
    · rw [if_neg hl]
      refine ⟨_, rfl, ?_⟩
      unfold ValidationResult.errors
      exact List.isEmpty_iff

/-- Claim C5 witness: the concrete LoadImage→Blur workflow against a concrete
loaded catalog validates to a Report (no raise). -/
theorem C5_validate_total_witness :
    ∃ r, WorkflowValidator.validate
      { nodes := [("LoadImage", { class_type := "LoadImage",
                                  output_types := [.str "IMAGE"] }),
                  ("Blur", { class_type := "Blur", output_types := [.str "IMAGE"],
                             inputs_required :=
                               [("image", { name := "image", type := "IMAGE" })] })]
        last_fetch := 0, fetched := true }
      (fun _ => [])
      [("1", .obj [("class_type", .str "LoadImage"), ("inputs", .obj [])]),
       ("2", .obj [("class_type", .str "Blur"),
         ("inputs", .obj [("image", .arr [.str "1", .int 0])])])] = some r ∧
      (r.valid = true ↔ r.errors = []) :=
  C5_validate_total _ _ _ (by decide) (by decide)

theorem nodupKeys_unique {α : Type} {wf : List (String × α)}
    (h : nodupKeysB wf = true) {k : String} {v v' : α}
    (h1 : (k, v) ∈ wf) (h2 : (k, v') ∈ wf) : v = v' := by
  induction wf with
  | nil => cases h1
  | cons p t ih =>
    rcases p with ⟨k0, v0⟩
    unfold nodupKeysB at h
    rw [Bool.and_eq_true] at h
    have hany : ∀ w : α, (k, w) ∈ t → ¬ k = k0 := by
      intro w hw e
      have hta : t.any (fun p => p.1 = k0) = true := by
        refine List.any_eq_true.mpr ⟨(k, w), hw, ?_⟩
        simp [e]
      rw [hta] at h
      exact absurd h.1 (by decide)
    rcases List.mem_cons.mp h1 with h1' | h1' <;>
      rcases List.mem_cons.mp h2 with h2' | h2'
    · have e1 := congrArg Prod.snd h1'
      have e2 := congrArg Prod.snd h2'
      simp only at e1 e2
      rw [e1, e2]
    · exact absurd (congrArg Prod.fst h1') (hany v' h2')
    · exact absurd (congrArg Prod.fst h2') (hany v h1')
    · exact ih h.2 h1' h2'

theorem structure_tags {wf : Workflow} {i : ValidationIssue}
    (h : i ∈ WorkflowValidator._check_structure wf) :
    i.check = "invalid_structure" ∨ i.check = "missing_class_type" ∨
      i.check = "missing_inputs" := by
  unfold WorkflowValidator._check_structure at h
  obtain ⟨p, -, hp⟩ := List.mem_flatMap.mp h
  rcases p with ⟨n, nd⟩
  unfold checkStructureNode at hp
  cases nd with
  | obj kvs =>
    dsimp only at hp
    rcases List.mem_append.mp hp with hp | hp <;> split at hp
    · cases hp
    · rw [List.mem_singleton] at hp
      subst hp
      exact Or.inr (Or.inl rfl)
    · cases hp
    · rw [List.mem_singleton] at hp
      subst hp
      exact Or.inr (Or.inr rfl)
  | null => rw [List.mem_singleton] at hp; subst hp; exact Or.inl rfl
  | bool b => rw [List.mem_singleton] at hp; subst hp; exact Or.inl rfl
  | int m => rw [List.mem_singleton] at hp; subst hp; exact Or.inl rfl
  | str s => rw [List.mem_singleton] at hp; subst hp; exact Or.inl rfl
  | arr xs => rw [List.mem_singleton] at hp; subst hp; exact Or.inl rfl

theorem checkLinkEntry_tag {wf : Workflow} {n : String} {p : String × JValue}
    {i : ValidationIssue} (h : i ∈ checkLinkEntry wf n p) :
    i.node_id = n ∧ i.check = "link_invalid" := by
  rcases p with ⟨iname, v⟩
  unfold checkLinkEntry at h
  cases v with
  | arr xs =>
    rcases xs with _ | ⟨a, _ | ⟨b, _ | ⟨c, t⟩⟩⟩
    · cases h
    · cases h
    · dsimp only at h
      split at h
      · rw [List.mem_singleton] at h
        subst h
        exact ⟨rfl, rfl⟩
      · cases h
    · cases h
  | null => cases h
  | bool b => cases h
  | int m => cases h
  | str s => cases h
  | obj kvs => cases h

theorem check1_tags {reg : NodeRegistry} {sug : String → List String}
    {n : String} {ct : JValue} {is : List ValidationIssue}
    (h : WorkflowValidator._check_node_exists reg sug n ct = some is)
    {i : ValidationIssue} (hi : i ∈ is) :
    i.node_id = n ∧ i.check = "node_not_found" := by
  unfold WorkflowValidator._check_node_exists at h
  split at h
  · injection h with h
    subst h
    cases hi
  · split at h
    · split at h <;> (injection h with h; subst h)
      · cases hi
      · rw [List.mem_singleton] at hi
        subst hi
        exact ⟨rfl, rfl⟩
    · split at h
      · injection h with h
        subst h
        rw [List.mem_singleton] at hi
        subst hi
        exact ⟨rfl, rfl⟩
      · cases h

theorem check2_tags_aux {n : String} {ct inputs : JValue} :
    ∀ (l : List (String × InputDefinition)) (acc out : List ValidationIssue),
      (l.foldlM (fun acc p =>
        match pyInStr p.1 inputs with
        | none => none
        | some present =>
          if present then some acc
          else some (acc ++
            [{ check := "required_input_missing", node_id := n
               message := "Node " ++ pyReprStr n ++ " (" ++ pyStr ct ++
                 ") missing required input " ++ pyReprStr p.1 }])) acc) = some out →
      ∀ i ∈ out, i ∈ acc ∨ (i.node_id = n ∧ i.check = "required_input_missing") := by
  intro l
  induction l with
  | nil =>
    intro acc out h i hi
    injection h with h
    subst h
    exact Or.inl hi
  | cons q t ih =>
    intro acc out h i hi
    rw [List.foldlM_cons] at h
    cases hq : pyInStr q.1 inputs with
    | none =>
      rw [hq] at h
      simp at h
    | some present =>
      rw [hq] at h
      dsimp only at h
      cases present with
      | true =>
        rw [if_pos rfl] at h
        simp only [Option.bind_eq_bind, Option.some_bind] at h
        exact ih acc out h i hi
      | false =>
        rw [if_neg (by decide)] at h
        simp only [Option.bind_eq_bind, Option.some_bind] at h
        rcases ih _ out h i hi with hin | hin
        · rcases List.mem_append.mp hin with hin | hin
          · exact Or.inl hin
          · rw [List.mem_singleton] at hin
            subst hin
            exact Or.inr ⟨rfl, rfl⟩
        · exact Or.inr hin

theorem check2_tags {reg : NodeRegistry} {n : String} {ct inputs : JValue}
    {is : List ValidationIssue}
    (h : WorkflowValidator._check_required_inputs reg n ct inputs = some is)
    {i : ValidationIssue} (hi : i ∈ is) :
    i.node_id = n ∧ i.check = "required_input_missing" := by
  unfold WorkflowValidator._check_required_inputs at h
  cases hr : regGetNode reg ct with
  | none =>
    rw [hr] at h
    injection h with h
    subst h
    cases hi
  | some ndef =>
    rw [hr] at h
    dsimp only at h
    rcases check2_tags_aux ndef.inputs_required [] is h i hi with hin | hin
    · cases hin
    · exact hin

theorem checkSlotEntry_tag {reg : NodeRegistry} {wf : Workflow} {n : String}
    {p : String × JValue} {is : List ValidationIssue}
    (h : checkSlotEntry reg wf n p = some is) {i : ValidationIssue} (hi : i ∈ is) :
    i.node_id = n ∧ i.check = "output_slot_out_of_range" := by
  rcases p with ⟨iname, v⟩
  unfold checkSlotEntry at h
  cases v with
  | arr xs =>
    rcases xs with _ | ⟨a, _ | ⟨b, _ | ⟨c, t⟩⟩⟩
    · injection h with h; subst h; cases hi
    · injection h with h; subst h; cases hi
    · dsimp only at h
      cases hs : dget wf (pyStr a) with
      | none =>
        rw [hs] at h
        injection h with h; subst h; cases hi
      | some snode =>
        rw [hs] at h
        dsimp only at h
        cases hf : pyFalsy snode with
        | true =>
          rw [hf, if_pos rfl] at h
          injection h with h; subst h; cases hi
        | false =>
          rw [hf, if_neg (by decide)] at h
          cases snode with
          | obj skvs =>
            try dsimp only at h
            cases hr : regGetNode reg ((dget skvs "class_type").getD (.str "")) with
            | none =>
              rw [hr] at h
              try dsimp only at h
              injection h with h; subst h; cases hi
            | some sdef =>
              rw [hr] at h
              try dsimp only at h
              cases hsl : pyAsInt b with
              | none =>
                rw [hsl] at h
                try dsimp only at h
                injection h with h; subst h; cases hi
              | some slot =>
                rw [hsl] at h
                try dsimp only at h
                split at h <;> (injection h with h; subst h)
                · rw [List.mem_singleton] at hi
                  subst hi
                  exact ⟨rfl, rfl⟩
                · cases hi
          | null => cases h
          | bool b0 => cases h
          | int m0 => cases h
          | str s0 => cases h
          | arr xs0 => cases h
    · injection h with h; subst h; cases hi
  | null => injection h with h; subst h; cases hi
  | bool b => injection h with h; subst h; cases hi
  | int m => injection h with h; subst h; cases hi
  | str s => injection h with h; subst h; cases hi
  | obj kvs => injection h with h; subst h; cases hi

theorem checkTypeEntry_tag {reg : NodeRegistry} {wf : Workflow} {n : String}
    {ct : JValue} {p : String × JValue} {is : List ValidationIssue}
    (h : checkTypeEntry reg wf n ct p = some is) {i : ValidationIssue} (hi : i ∈ is) :
    i.node_id = n ∧ i.check = "type_mismatch" ∧ i.severity = "warning" := by
  rcases p with ⟨iname, v⟩
  unfold checkTypeEntry at h
  cases v with
  | arr xs =>
    rcases xs with _ | ⟨a, _ | ⟨b, _ | ⟨c, t⟩⟩⟩
    · injection h with h; subst h; cases hi
    · injection h with h; subst h; cases hi
    · dsimp only at h
      cases hs : dget wf (pyStr a) with
      | none =>
        rw [hs] at h
        injection h with h; subst h; cases hi
      | some snode =>
        rw [hs] at h
        dsimp only at h
        cases hf : pyFalsy snode with
        | true =>
          rw [hf, if_pos rfl] at h
          injection h with h; subst h; cases hi
        | false =>
          rw [hf, if_neg (by decide)] at h
          cases snode with
          | obj skvs =>
            try dsimp only at h
            cases hot : regGetOutputType reg
                ((dget skvs "class_type").getD (.str "")) b with
            | none =>
              rw [hot] at h
              cases h
            | some ot? =>
              rw [hot] at h
              try dsimp only at h
              cases ot? with
              | none =>
                try dsimp only at h
                injection h with h; subst h; cases hi
              | some ot =>
                try dsimp only at h
                cases hfo : pyFalsy ot with
                | true =>
                  rw [hfo, if_pos rfl] at h
                  injection h with h; subst h; cases hi
                | false =>
                  rw [hfo, if_neg (by decide)] at h
                  cases hit : regGetInputType reg ct iname with
                  | none =>
                    rw [hit] at h
                    try dsimp only at h
                    injection h with h; subst h; cases hi
                  | some ti =>
                    rw [hit] at h
                    rcases ti with ⟨exp, req⟩
                    try dsimp only at h
                    split at h
                    · injection h with h; subst h; cases hi
                    · split at h <;> (injection h with h; subst h)
                      · rw [List.mem_singleton] at hi
                        subst hi
                        exact ⟨rfl, rfl, rfl⟩
                      · cases hi
          | null => cases h
          | bool b0 => cases h
          | int m0 => cases h
          | str s0 => cases h
          | arr xs0 => cases h
    · injection h with h; subst h; cases hi
  | null => injection h with h; subst h; cases hi
  | bool b => injection h with h; subst h; cases hi
  | int m => injection h with h; subst h; cases hi
  | str s => injection h with h; subst h; cases hi
  | obj kvs => injection h with h; subst h; cases hi

theorem checkRangeBound_tag {cmp : Int → JValue → Option Bool}
    {issue : JValue → ValidationIssue} {value : Int} {bound : Option JValue}
    {is : List ValidationIssue}
    (h : checkRangeBound cmp issue value bound = some is)
    {i : ValidationIssue} (hi : i ∈ is) : ∃ mv, i = issue mv := by
  unfold checkRangeBound at h
  cases bound with
  | none =>
    injection h with h; subst h; cases hi
  | some mv =>
    dsimp only at h
    cases hc : cmp value mv with
    | none => rw [hc] at h; cases h
    | some viol =>
      rw [hc] at h
      dsimp only at h
      split at h <;> (injection h with h; subst h)
      · rw [List.mem_singleton] at hi
        exact ⟨mv, hi⟩
      · cases hi

theorem checkRangeEntry_tag {n : String} {ct : JValue}
    {all_inputs : List (String × InputDefinition)} {p : String × JValue}
    {is : List ValidationIssue}
    (h : checkRangeEntry n ct all_inputs p = some is)
    {i : ValidationIssue} (hi : i ∈ is) :
    i.node_id = n ∧ i.check = "value_out_of_range" ∧ i.severity = "warning" := by
  rcases p with ⟨iname, v⟩
  unfold checkRangeEntry at h
  have hbody : ∀ (w : JValue),
      (match dget all_inputs iname with
        | none => some []
        | some input_def =>
          if input_def.type = "INT" ∨ input_def.type = "FLOAT" then
            match pyAsInt w with
            | none => some []
            | some value =>
              match checkRangeBound pyLtNum
                  (fun mv => { check := "value_out_of_range", node_id := n
                               message := "Node " ++ pyReprStr n ++ " (" ++
                                 pyStr ct ++ ") " ++ iname ++ "=" ++ pyStr w ++
                                 ", minimum is " ++ pyStr mv
                               severity := "warning" })
                  value input_def.min_val with
              | none => none
              | some mi =>
                match checkRangeBound pyGtNum
                    (fun mv => { check := "value_out_of_range", node_id := n
                                 message := "Node " ++ pyReprStr n ++ " (" ++
                                   pyStr ct ++ ") " ++ iname ++ "=" ++ pyStr w ++
                                   ", maximum is " ++ pyStr mv
                                 severity := "warning" })
                    value input_def.max_val with
                | none => none
                | some ma => some (mi ++ ma)
          else some [] : Option (List ValidationIssue)) = some is →
      i.node_id = n ∧ i.check = "value_out_of_range" ∧ i.severity = "warning" := by
    intro w hw
    cases hd : dget all_inputs iname with
    | none =>
      rw [hd] at hw
      injection hw with hw; subst hw; cases hi
    | some idef =>
      rw [hd] at hw
      dsimp only at hw
      split at hw
      · cases hai : pyAsInt w with
        | none =>
          rw [hai] at hw
          injection hw with hw; subst hw; cases hi
        | some value =>
          rw [hai] at hw
          dsimp only at hw
          cases hmi : checkRangeBound pyLtNum
              (fun mv => { check := "value_out_of_range", node_id := n
                           message := "Node " ++ pyReprStr n ++ " (" ++
                             pyStr ct ++ ") " ++ iname ++ "=" ++ pyStr w ++
                             ", minimum is " ++ pyStr mv
                           severity := "warning" })
              value idef.min_val with
          | none => rw [hmi] at hw; cases hw
          | some mi =>
            rw [hmi] at hw
            dsimp only at hw
            cases hma : checkRangeBound pyGtNum
                (fun mv => { check := "value_out_of_range", node_id := n
                             message := "Node " ++ pyReprStr n ++ " (" ++
                               pyStr ct ++ ") " ++ iname ++ "=" ++ pyStr w ++
                               ", maximum is " ++ pyStr mv
                             severity := "warning" })
                value idef.max_val with
            | none => rw [hma] at hw; cases hw
            | some ma =>
              rw [hma] at hw
              injection hw with hw
              subst hw
              rcases List.mem_append.mp hi with hin | hin
              · obtain ⟨mv, he⟩ := checkRangeBound_tag hmi hin
                subst he
                exact ⟨rfl, rfl, rfl⟩
              · obtain ⟨mv, he⟩ := checkRangeBound_tag hma hin
                subst he
                exact ⟨rfl, rfl, rfl⟩
      · injection hw with hw; subst hw; cases hi
  cases v with
  | arr xs => injection h with h; subst h; cases hi
  | null => exact hbody .null h
  | bool b => exact hbody (.bool b) h
  | int m => exact hbody (.int m) h
  | str s => exact hbody (.str s) h
  | obj kvs => exact hbody (.obj kvs) h

theorem checkComboEntry_tag {n : String} {ct : JValue}
    {all_inputs : List (String × InputDefinition)} {p : String × JValue}
    {i : ValidationIssue} (hi : i ∈ checkComboEntry n ct all_inputs p) :
    i.node_id = n ∧ i.check = "invalid_combo_value" ∧ i.severity = "warning" := by
  rcases p with ⟨iname, v⟩
  unfold checkComboEntry at hi
  have hbody : ∀ (w : JValue),
      i ∈ (match dget all_inputs iname with
        | none => ([] : List ValidationIssue)
        | some input_def =>
          match input_def.options, w with
          | some opts, .str s =>
            if input_def.type = "COMBO" ∧ ¬ opts.isEmpty = true ∧
                ¬ opts.any (fun o => pyEqStr o s) = true then
              [{ check := "invalid_combo_value", node_id := n
                 message := "Node " ++ pyReprStr n ++ " (" ++ pyStr ct ++
                   ") " ++ iname ++ "=" ++ pyReprStr s ++ " not in allowed values"
                 severity := "warning" }]
            else []
          | _, _ => []) →
      i.node_id = n ∧ i.check = "invalid_combo_value" ∧ i.severity = "warning" := by
    intro w hw
    cases hd : dget all_inputs iname with
    | none => rw [hd] at hw; cases hw
    | some idef =>
      rw [hd] at hw
      dsimp only at hw
      cases ho : idef.options with
      | none =>
        rw [ho] at hw
        cases w <;> cases hw
      | some opts =>
        rw [ho] at hw
        cases w with
        | str s =>
          dsimp only at hw
          split at hw
          · rw [List.mem_singleton] at hw
            subst hw
            exact ⟨rfl, rfl, rfl⟩
          · cases hw
        | null => cases hw
        | bool b => cases hw
        | int m => cases hw
        | arr xs => cases hw
        | obj kvs => cases hw
  cases v with
  | arr xs => cases hi
  | null => exact hbody .null hi
  | bool b => exact hbody (.bool b) hi
  | int m => exact hbody (.int m) hi
  | str s => exact hbody (.str s) hi
  | obj kvs => exact hbody (.obj kvs) hi

theorem check3_tags {n : String} {inputs : JValue} {wf : Workflow}
    {is : List ValidationIssue}
    (h : WorkflowValidator._check_link_validity n inputs wf = some is)
    {i : ValidationIssue} (hi : i ∈ is) :
    i.node_id = n ∧ i.check = "link_invalid" := by
  unfold WorkflowValidator._check_link_validity at h
  cases inputs with
  | obj ikvs =>
    injection h with h
    subst h
    obtain ⟨p, -, hp⟩ := List.mem_flatMap.mp hi
    exact checkLinkEntry_tag hp
  | null => cases h
  | bool b => cases h
  | int m => cases h
  | str s => cases h
  | arr xs => cases h

theorem check4_tags {reg : NodeRegistry} {n : String} {inputs : JValue}
    {wf : Workflow} {is : List ValidationIssue}
    (h : WorkflowValidator._check_output_slot_range reg n inputs wf = some is)
    {i : ValidationIssue} (hi : i ∈ is) :
    i.node_id = n ∧ i.check = "output_slot_out_of_range" := by
  unfold WorkflowValidator._check_output_slot_range at h
  cases inputs with
  | obj ikvs =>
    dsimp only at h
    cases hm : ikvs.mapM (checkSlotEntry reg wf n) with
    | none => rw [hm] at h; cases h
    | some l' =>
      rw [hm] at h
      simp only [Option.map_some'] at h
      injection h with h
      subst h
      obtain ⟨bs, hbs, hibs⟩ := List.mem_flatten.mp hi
      obtain ⟨p, -, hp⟩ := mapM_mem_rev hm hbs
      exact checkSlotEntry_tag hp hibs
  | null => cases h
  | bool b => cases h
  | int m => cases h
  | str s => cases h
  | arr xs => cases h

theorem check5_tags {reg : NodeRegistry} {n : String} {ct inputs : JValue}
    {wf : Workflow} {is : List ValidationIssue}
    (h : WorkflowValidator._check_type_compatibility reg n ct inputs wf = some is)
    {i : ValidationIssue} (hi : i ∈ is) :
    i.node_id = n ∧ i.check = "type_mismatch" ∧ i.severity = "warning" := by
  unfold WorkflowValidator._check_type_compatibility at h
  cases hr : regGetNode reg ct with
  | none =>
    rw [hr] at h
    injection h with h
    subst h
    cases hi
  | some nd =>
    rw [hr] at h
    cases inputs with
    | obj ikvs =>
      dsimp only at h
      cases hm : ikvs.mapM (checkTypeEntry reg wf n ct) with
      | none => rw [hm] at h; cases h
      | some l' =>
        rw [hm] at h
        simp only [Option.map_some'] at h
        injection h with h
        subst h
        obtain ⟨bs, hbs, hibs⟩ := List.mem_flatten.mp hi
        obtain ⟨p, -, hp⟩ := mapM_mem_rev hm hbs
        exact checkTypeEntry_tag hp hibs
    | null => cases h
    | bool b => cases h
    | int m => cases h
    | str s => cases h
    | arr xs => cases h

theorem check6_tags {reg : NodeRegistry} {n : String} {ct inputs : JValue}
    {is : List ValidationIssue}
    (h : WorkflowValidator._check_value_ranges reg n ct inputs = some is)
    {i : ValidationIssue} (hi : i ∈ is) :
    i.node_id = n ∧ i.check = "value_out_of_range" ∧ i.severity = "warning" := by
  unfold WorkflowValidator._check_value_ranges at h
  cases hr : regGetNode reg ct with
  | none =>
    rw [hr] at h
    injection h with h
    subst h
    cases hi
  | some nd =>
    rw [hr] at h
    cases inputs with
    | obj ikvs =>
      dsimp only at h
      cases hm : ikvs.mapM (checkRangeEntry n ct
          (dictMerge nd.inputs_required nd.inputs_optional)) with
      | none => rw [hm] at h; cases h
      | some l' =>
        rw [hm] at h
        simp only [Option.map_some'] at h
        injection h with h
        subst h
        obtain ⟨bs, hbs, hibs⟩ := List.mem_flatten.mp hi
        obtain ⟨p, -, hp⟩ := mapM_mem_rev hm hbs
        exact checkRangeEntry_tag hp hibs
    | null => cases h
    | bool b => cases h
    | int m => cases h
    | str s => cases h
    | arr xs => cases h

theorem check7_tags {reg : NodeRegistry} {n : String} {ct inputs : JValue}
    {is : List ValidationIssue}
    (h : WorkflowValidator._check_combo_values reg n ct inputs = some is)
    {i : ValidationIssue} (hi : i ∈ is) :
    i.node_id = n ∧ i.check = "invalid_combo_value" ∧ i.severity = "warning" := by
  unfold WorkflowValidator._check_combo_values at h
  cases hr : regGetNode reg ct with
  | none =>
    rw [hr] at h
    injection h with h
    subst h
    cases hi
  | some nd =>
    rw [hr] at h
    cases inputs with
    | obj ikvs =>
      injection h with h
      subst h
      obtain ⟨p, -, hp⟩ := List.mem_flatMap.mp hi
      exact checkComboEntry_tag hp
    | null => cases h
    | bool b => cases h
    | int m => cases h
    | str s => cases h
    | arr xs => cases h

theorem nodeChecks_unknown_class {reg : NodeRegistry} {sug : String → List String}
    {wf : Workflow} {n : String} {kvs : List (String × JValue)} {s : String}
    {ikvs : List (String × JValue)} {bs : List ValidationIssue}
    (hct : dget kvs "class_type" = some (.str s)) (hs : ¬ s = "")
    (habs : dget reg.nodes s = none)
    (hin : dget kvs "inputs" = some (.obj ikvs))
    (hb : validateNodeChecks reg sug wf n (.obj kvs) = some bs) :
    (∃ i ∈ bs, i.check = "node_not_found" ∧ i.node_id = n) ∧
    (∀ i ∈ bs, i.node_id = n) ∧
    (∀ i ∈ bs, i.check = "node_not_found" ∨ i.check = "link_invalid" ∨
      i.check = "output_slot_out_of_range") ∧
    (∀ iname a b2, (iname, JValue.arr [a, b2]) ∈ ikvs →
      dmem wf (pyStr a) = false →
      ∃ i ∈ bs, i.check = "link_invalid" ∧ i.node_id = n ∧
        i.message = "Node " ++ pyReprStr n ++ " input " ++ pyReprStr iname ++
          " links to non-existent node " ++ pyReprStr (pyStr a)) := by
  have hregnone : regGetNode reg (.str s) = none := habs
  have hfalse : pyFalsy (.str s) = false := by
    simp [pyFalsy, hs]
  have hnex : reg.node_exists s = false := by
    rw [NodeRegistry.node_exists, dmem_eq_isSome, habs]
    rfl
  have hc1 : WorkflowValidator._check_node_exists reg sug n (.str s) =
      some [{ check := "node_not_found", node_id := n
              message := "Node " ++ pyReprStr n ++ " uses unknown type " ++ pyReprStr s
              suggestion :=
                match sug s with
                | first :: _ => "Did you mean " ++ pyReprStr first ++ "?"
                | [] => "" }] := by
    unfold WorkflowValidator._check_node_exists
    rw [if_neg (by rw [hfalse]; exact Bool.false_ne_true)]
    dsimp only
    rw [if_neg (by rw [hnex]; exact Bool.false_ne_true)]
  have hc2 : WorkflowValidator._check_required_inputs reg n (.str s) (.obj ikvs) =
      some [] := by
    unfold WorkflowValidator._check_required_inputs
    rw [hregnone]
  have hc3 : WorkflowValidator._check_link_validity n (.obj ikvs) wf =
      some (ikvs.flatMap (checkLinkEntry wf n)) := rfl
  have hc5 : WorkflowValidator._check_type_compatibility reg n (.str s) (.obj ikvs) wf =
      some [] := by
    unfold WorkflowValidator._check_type_compatibility
    rw [hregnone]
  have hc6 : WorkflowValidator._check_value_ranges reg n (.str s) (.obj ikvs) =
      some [] := by
    unfold WorkflowValidator._check_value_ranges
    rw [hregnone]
  have hc7 : WorkflowValidator._check_combo_values reg n (.str s) (.obj ikvs) =
      some [] := by
    unfold WorkflowValidator._check_combo_values
    rw [hregnone]
  unfold validateNodeChecks at hb
  dsimp only at hb
  rw [show (dget kvs "class_type").getD (JValue.str "") = JValue.str s by
    rw [hct]; rfl] at hb
  rw [show (dget kvs "inputs").getD (JValue.obj []) = JValue.obj ikvs by
    rw [hin]; rfl] at hb
  rw [hc1] at hb
  dsimp only at hb
  rw [hc2] at hb
  dsimp only at hb
  rw [hc3] at hb
  dsimp only at hb
  cases hc4 : WorkflowValidator._check_output_slot_range reg n (.obj ikvs) wf with
  | none => rw [hc4] at hb; cases hb
  | some c4 =>
    rw [hc4] at hb
    dsimp only at hb
    rw [hc5] at hb
    dsimp only at hb
    rw [hc6] at hb
    dsimp only at hb
    rw [hc7] at hb
    dsimp only at hb
    injection hb with hb
    subst hb
    refine ⟨?_, ?_, ?_, ?_⟩
    · refine ⟨{ check := "node_not_found", node_id := n
                message := "Node " ++ pyReprStr n ++ " uses unknown type " ++ pyReprStr s
                severity := "error"
                suggestion := match sug s with
                  | first :: _ => "Did you mean " ++ pyReprStr first ++ "?"
                  | [] => "" }, ?_, rfl, rfl⟩
      refine List.mem_append.mpr (Or.inl (List.mem_append.mpr (Or.inl
        (List.mem_append.mpr (Or.inl (List.mem_append.mpr (Or.inl
          (List.mem_append.mpr (Or.inl (List.mem_append.mpr (Or.inl
            (List.mem_singleton.mpr rfl))))))))))))
    · intro i hi
      rcases List.mem_append.mp hi with hi | hi
      rcases List.mem_append.mp hi with hi | hi
      rcases List.mem_append.mp hi with hi | hi
      rcases List.mem_append.mp hi with hi | hi
      rcases List.mem_append.mp hi with hi | hi
      rcases List.mem_append.mp hi with hi | hi
      · rw [List.mem_singleton] at hi
        subst hi
        rfl
      · cases hi
      · obtain ⟨p, -, hp⟩ := List.mem_flatMap.mp hi
        exact (checkLinkEntry_tag hp).1
      · exact (check4_tags hc4 hi).1
      · cases hi
      · cases hi
      · cases hi
    · intro i hi
      rcases List.mem_append.mp hi with hi | hi
      rcases List.mem_append.mp hi with hi | hi
      rcases List.mem_append.mp hi with hi | hi
      rcases List.mem_append.mp hi with hi | hi
      rcases List.mem_append.mp hi with hi | hi
      rcases List.mem_append.mp hi with hi | hi
      · rw [List.mem_singleton] at hi
        subst hi
        exact Or.inl rfl
      · cases hi
      · obtain ⟨p, -, hp⟩ := List.mem_flatMap.mp hi
        exact Or.inr (Or.inl (checkLinkEntry_tag hp).2)
      · exact Or.inr (Or.inr (check4_tags hc4 hi).2)
      · cases hi
      · cases hi
      · cases hi
    · intro iname a b2 hmem hdm
      have hentry : ({ check := "link_invalid", node_id := n
                       message := "Node " ++ pyReprStr n ++ " input " ++
                         pyReprStr iname ++ " links to non-existent node " ++
                         pyReprStr (pyStr a)
                       severity := "error", suggestion := "" } : ValidationIssue) ∈
          checkLinkEntry wf n (iname, JValue.arr [a, b2]) := by
        unfold checkLinkEntry
        dsimp only
        rw [if_pos (by rw [hdm]; exact Bool.false_ne_true)]
        exact List.mem_singleton.mpr rfl
      refine ⟨{ check := "link_invalid", node_id := n
                message := "Node " ++ pyReprStr n ++ " input " ++
                  pyReprStr iname ++ " links to non-existent node " ++
                  pyReprStr (pyStr a)
                severity := "error", suggestion := "" }, ?_, rfl, rfl, rfl⟩
      refine List.mem_append.mpr (Or.inl (List.mem_append.mpr (Or.inl
        (List.mem_append.mpr (Or.inl (List.mem_append.mpr (Or.inl
          (List.mem_append.mpr (Or.inr ?_)))))))))
      exact List.mem_flatMap.mpr ⟨(iname, JValue.arr [a, b2]), hmem, hentry⟩

theorem nodeChecks_tags {reg : NodeRegistry} {sug : String → List String}
    {wf : Workflow} {m : String} {nd : JValue} {bs : List ValidationIssue}
    (hb : validateNodeChecks reg sug wf m nd = some bs)
    {i : ValidationIssue} (hi : i ∈ bs) : i.node_id = m := by
  unfold validateNodeChecks at hb
  cases nd with
  | obj kvs =>
    dsimp only at hb
    cases h1 : WorkflowValidator._check_node_exists reg sug m
        ((dget kvs "class_type").getD (JValue.str "")) with
    | none => rw [h1] at hb; cases hb
    | some c1 =>
      rw [h1] at hb
      dsimp only at hb
      cases h2 : WorkflowValidator._check_required_inputs reg m
          ((dget kvs "class_type").getD (JValue.str ""))
          ((dget kvs "inputs").getD (JValue.obj [])) with
      | none => rw [h2] at hb; cases hb
      | some c2 =>
        rw [h2] at hb
        dsimp only at hb
        cases h3 : WorkflowValidator._check_link_validity m
            ((dget kvs "inputs").getD (JValue.obj [])) wf with
        | none => rw [h3] at hb; cases hb
        | some c3 =>
          rw [h3] at hb
          dsimp only at hb
          cases h4 : WorkflowValidator._check_output_slot_range reg m
              ((dget kvs "inputs").getD (JValue.obj [])) wf with
          | none => rw [h4] at hb; cases hb
          | some c4 =>
            rw [h4] at hb
            dsimp only at hb
            cases h5 : WorkflowValidator._check_type_compatibility reg m
                ((dget kvs "class_type").getD (JValue.str ""))
                ((dget kvs "inputs").getD (JValue.obj [])) wf with
            | none => rw [h5] at hb; cases hb
            | some c5 =>
              rw [h5] at hb
              dsimp only at hb
              cases h6 : WorkflowValidator._check_value_ranges reg m
                  ((dget kvs "class_type").getD (JValue.str ""))
                  ((dget kvs "inputs").getD (JValue.obj [])) with
              | none => rw [h6] at hb; cases hb
              | some c6 =>
                rw [h6] at hb
                dsimp only at hb
                cases h7 : WorkflowValidator._check_combo_values reg m
                    ((dget kvs "class_type").getD (JValue.str ""))
                    ((dget kvs "inputs").getD (JValue.obj [])) with
                | none => rw [h7] at hb; cases hb
                | some c7 =>
                  rw [h7] at hb
                  dsimp only at hb
                  injection hb with hb
                  subst hb
                  rcases List.mem_append.mp hi with hi | hi
                  rcases List.mem_append.mp hi with hi | hi
                  rcases List.mem_append.mp hi with hi | hi
                  rcases List.mem_append.mp hi with hi | hi
                  rcases List.mem_append.mp hi with hi | hi
                  rcases List.mem_append.mp hi with hi | hi
                  · exact (check1_tags h1 hi).1
                  · exact (check2_tags h2 hi).1
                  · exact (check3_tags h3 hi).1
                  · exact (check4_tags h4 hi).1
                  · exact (check5_tags h5 hi).1
                  · exact (check6_tags h6 hi).1
                  · exact (check7_tags h7 hi).1
  | null => injection hb with hb; subst hb; cases hi
  | bool b => injection hb with hb; subst hb; cases hi
  | int k => injection hb with hb; subst hb; cases hi
  | str t => injection hb with hb; subst hb; cases hi
  | arr xs => injection hb with hb; subst hb; cases hi

/-- Claim C10 (counterexample): a node whose `class_type` is the empty string
`""` — absent from the loaded catalog — gets NO `node_not_found` issue:
`""` is falsy and check 1 returns before consulting the catalog
(`if not class_type: return`).  The claim promises the type-exists error for
every node whose class type is absent from the catalog. -/
theorem C10_counterexample_empty_class_type :
    (WorkflowValidator.validate
      { nodes := [("B", { class_type := "B" })], last_fetch := 0, fetched := true }
      (fun _ => [])
      [("1", .obj [("class_type", .str ""), ("inputs", .obj [])])]).map
        (fun r => r.issues.filter (fun i => i.check = "node_not_found")) = some [] ∧
    NodeRegistry.node_exists
      { nodes := [("B", { class_type := "B" })], last_fetch := 0, fetched := true }
      "" = false ∧
    NodeRegistry.is_loaded
      { nodes := [("B", { class_type := "B" })], last_fetch := 0, fetched := true }
      = true := by
  refine ⟨by decide, by decide, by decide⟩

/-- Claim C10 (amended): against a loaded catalog, for every well-keyed
workflow node that is a mapping whose `class_type` is a NON-EMPTY string
absent from the catalog and whose `inputs` is a mapping: `validate` emits a
`node_not_found` issue tagged to that node; it never tags that node with a
`required_input_missing`, `value_out_of_range` or `invalid_combo_value`
issue, whatever its input map contains; and link-validity on its links still
runs — every 2-element-list input whose source id (via `str()`) is absent
from the workflow yields the exact `link_invalid` issue.  (For an
empty-string class type check 1 is skipped — see the counterexample.) -/
theorem C10_unknown_class_node {reg : NodeRegistry} {sug : String → List String}
    {wf : Workflow} {n : String} {kvs : List (String × JValue)} {s : String}
    {ikvs : List (String × JValue)} {r : ValidationResult}
    (hl : reg.is_loaded = true)
    (hnodup : nodupKeysB wf = true)
    (hmem : (n, JValue.obj kvs) ∈ wf)
    (hct : dget kvs "class_type" = some (.str s)) (hs : ¬ s = "")
    (habs : dget reg.nodes s = none)
    (hin : dget kvs "inputs" = some (.obj ikvs))
    (hr : WorkflowValidator.validate reg sug wf = some r) :
    (∃ i ∈ r.issues, i.check = "node_not_found" ∧ i.node_id = n) ∧
    (∀ i ∈ r.issues, i.node_id = n →
      ¬ i.check = "required_input_missing" ∧ ¬ i.check = "value_out_of_range" ∧
      ¬ i.check = "invalid_combo_value") ∧
    (∀ iname a b2, (iname, JValue.arr [a, b2]) ∈ ikvs →
      dmem wf (pyStr a) = false →
      ∃ i ∈ r.issues, i.check = "link_invalid" ∧ i.node_id = n ∧
        i.message = "Node " ++ pyReprStr n ++ " input " ++ pyReprStr iname ++
          " links to non-existent node " ++ pyReprStr (pyStr a)) := by
  have hne : ¬ wf.isEmpty = true := by
    cases wf with
    | nil => cases hmem
    | cons p t => simp [List.isEmpty]
  unfold WorkflowValidator.validate at hr
  rw [if_neg hne] at hr
  dsimp only at hr
  rw [if_pos hl] at hr
  cases hmm : wf.mapM (fun p => validateNodeChecks reg sug wf p.1 p.2) with
  | none =>
    rw [hmm] at hr
    simp only [Option.map_none'] at hr
    cases hr
  | some blocks =>
    rw [hmm] at hr
    simp only [Option.map_some'] at hr
    injection hr with hr
    subst hr
    obtain ⟨block, hbl, hfb⟩ := mapM_some_mem hmm hmem
    obtain ⟨h1, h2, h3, h4⟩ := nodeChecks_unknown_class hct hs habs hin hfb
    refine ⟨?_, ?_, ?_⟩
    · obtain ⟨i, hi, hic, hid⟩ := h1
      exact ⟨i, List.mem_append.mpr (Or.inr (List.mem_flatten.mpr ⟨block, hbl, hi⟩)),
        hic, hid⟩
    · intro i hi hid
      rcases List.mem_append.mp hi with hi | hi
      · rcases structure_tags hi with hc | hc | hc <;>
          exact ⟨by rw [hc]; decide, by rw [hc]; decide, by rw [hc]; decide⟩
      · obtain ⟨bl, hbl2, hib⟩ := List.mem_flatten.mp hi
        obtain ⟨p, hp, hfp⟩ := mapM_mem_rev hmm hbl2
        have htag : i.node_id = p.1 := nodeChecks_tags hfp hib
        rcases p with ⟨m, nd⟩
        dsimp only at htag hfp
        have hmn : m = n := by rw [← htag, hid]
        subst hmn
        have hnd : nd = JValue.obj kvs := nodupKeys_unique hnodup hp hmem
        subst hnd
        have hbleq : bl = block := by
          have := hfp.symm.trans hfb
          injection this
        subst hbleq
        rcases h3 i hib with hc | hc | hc <;>
          exact ⟨by rw [hc]; decide, by rw [hc]; decide, by rw [hc]; decide⟩
    · intro iname a b2 hml hdm
      obtain ⟨i, hi, hic, hid, hims⟩ := h4 iname a b2 hml hdm
      exact ⟨i, List.mem_append.mpr (Or.inr (List.mem_flatten.mpr ⟨block, hbl, hi⟩)),
        hic, hid, hims⟩

/-- Claim C10 witness: a concrete node of unknown non-empty type `"Missing"`
with one dangling link gets a `node_not_found` issue, no
required-input/range/combo issue, and the dangling link is still reported. -/
theorem C10_unknown_class_node_witness :
    ∃ r, WorkflowValidator.validate
      { nodes := [("B", { class_type := "B" })], last_fetch := 0, fetched := true }
      (fun _ => [])
      [("1", .obj [("class_type", .str "Missing"),
                   ("inputs", .obj [("x", .arr [.str "9", .int 0])])])] = some r ∧
      (∃ i ∈ r.issues, i.check = "node_not_found" ∧ i.node_id = "1") ∧
      (∃ i ∈ r.issues, i.check = "link_invalid" ∧ i.node_id = "1" ∧
        i.message = "Node " ++ pyReprStr "1" ++ " input " ++ pyReprStr "x" ++
          " links to non-existent node " ++ pyReprStr (pyStr (.str "9"))) := by
  have h := @C10_unknown_class_node
    { nodes := [("B", { class_type := "B" })], last_fetch := 0, fetched := true }
    (fun _ => [])
    [("1", .obj [("class_type", .str "Missing"),
                 ("inputs", .obj [("x", .arr [.str "9", .int 0])])])]
    "1"
    [("class_type", .str "Missing"),
     ("inputs", .obj [("x", .arr [.str "9", .int 0])])]
    "Missing" [("x", .arr [.str "9", .int 0])] _
    (by decide) (by decide) (List.mem_singleton.mpr rfl) (by decide) (by decide)
    (by decide) (by decide) rfl
  exact ⟨_, rfl, h.1, h.2.2 "x" (.str "9") (.int 0) (List.mem_singleton.mpr rfl)
    (by decide)⟩

theorem nodeChecks_has_link {reg : NodeRegistry} {sug : String → List String}
    {wf : Workflow} {n : String} {kvs ikvs : List (String × JValue)}
    {bs : List ValidationIssue}
    (hik : (dget kvs "inputs").getD (JValue.obj []) = JValue.obj ikvs)
    (hb : validateNodeChecks reg sug wf n (.obj kvs) = some bs)
    {i : ValidationIssue} (hi : i ∈ ikvs.flatMap (checkLinkEntry wf n)) :
    i ∈ bs := by
  unfold validateNodeChecks at hb
  dsimp only at hb
  rw [hik] at hb
  cases h1 : WorkflowValidator._check_node_exists reg sug n
      ((dget kvs "class_type").getD (JValue.str "")) with
  | none => rw [h1] at hb; cases hb
  | some c1 =>
    rw [h1] at hb
    dsimp only at hb
    cases h2 : WorkflowValidator._check_required_inputs reg n
        ((dget kvs "class_type").getD (JValue.str "")) (JValue.obj ikvs) with
    | none => rw [h2] at hb; cases hb
    | some c2 =>
      rw [h2] at hb
      dsimp only at hb
      rw [show WorkflowValidator._check_link_validity n (JValue.obj ikvs) wf =
        some (ikvs.flatMap (checkLinkEntry wf n)) from rfl] at hb
      dsimp only at hb
      cases h4 : WorkflowValidator._check_output_slot_range reg n (JValue.obj ikvs) wf with
      | none => rw [h4] at hb; cases hb
      | some c4 =>
        rw [h4] at hb
        dsimp only at hb
        cases h5 : WorkflowValidator._check_type_compatibility reg n
            ((dget kvs "class_type").getD (JValue.str "")) (JValue.obj ikvs) wf with
        | none => rw [h5] at hb; cases hb
        | some c5 =>
          rw [h5] at hb
          dsimp only at hb
          cases h6 : WorkflowValidator._check_value_ranges reg n
              ((dget kvs "class_type").getD (JValue.str "")) (JValue.obj ikvs) with
          | none => rw [h6] at hb; cases hb
          | some c6 =>
            rw [h6] at hb
            dsimp only at hb
            cases h7 : WorkflowValidator._check_combo_values reg n
                ((dget kvs "class_type").getD (JValue.str "")) (JValue.obj ikvs) with
            | none => rw [h7] at hb; cases hb
            | some c7 =>
              rw [h7] at hb
              dsimp only at hb
              injection hb with hb
              subst hb
              exact List.mem_append.mpr (Or.inl (List.mem_append.mpr (Or.inl
                (List.mem_append.mpr (Or.inl (List.mem_append.mpr (Or.inl
                  (List.mem_append.mpr (Or.inr hi)))))))))

/-- Claim C4: for every data-model graph (every node a mapping), each
structural defect flagged by `selfCheck` (`WorkflowManipulator.validate`) —
a missing class type, a missing inputs map, or a 2-element-list link whose
stringified source id is absent from the graph — corresponds to an issue
that the full `WorkflowValidator.validate` (loaded catalog) reports for the
same graph: the same node missing `class_type` (`missing_class_type`), the
same node missing `inputs` (`missing_inputs`), or the same dangling link
(`link_invalid`), so `selfCheck` never reports a defect full validation
would not also report and never contradicts it. -/
theorem C4_selfCheck_subset {reg : NodeRegistry} {sug : String → List String}
    {m : WorkflowManipulator} {b : Bool} {errs : List String}
    {r : ValidationResult}
    (hl : reg.is_loaded = true)
    (hobjs : ∀ p ∈ m.workflow, ∃ kvs, p.2 = JValue.obj kvs)
    (hsc : WorkflowManipulator.validate m = some (b, errs))
    (hv : WorkflowValidator.validate reg sug m.workflow = some r) :
    ∀ e ∈ errs, ∃ i ∈ r.issues, sameDefect e i := by
  unfold WorkflowManipulator.validate at hsc
  cases hmm1 : m.workflow.mapM (fun p => selfCheckNode m.workflow p.1 p.2) with
  | none => rw [hmm1] at hsc; cases hsc
  | some errLists =>
    rw [hmm1] at hsc
    dsimp only at hsc
    injection hsc with hsc
    have herrs : errLists.flatten = errs := congrArg Prod.snd hsc
    intro e he
    rw [← herrs] at he
    obtain ⟨el, hel, hee⟩ := List.mem_flatten.mp he
    obtain ⟨p, hp, hsel⟩ := mapM_mem_rev hmm1 hel
    obtain ⟨kvs, hpk⟩ := hobjs p hp
    rcases p with ⟨n, nd⟩
    dsimp only at hpk hsel
    subst hpk
    have hne : ¬ m.workflow.isEmpty = true := by
      intro hemp
      rw [List.isEmpty_iff.mp hemp] at hp
      cases hp
    unfold WorkflowValidator.validate at hv
    rw [if_neg hne] at hv
    dsimp only at hv
    rw [if_pos hl] at hv
    cases hmm2 : m.workflow.mapM
        (fun p => validateNodeChecks reg sug m.workflow p.1 p.2) with
    | none =>
      rw [hmm2] at hv
      simp only [Option.map_none'] at hv
      cases hv
    | some blocks =>
      rw [hmm2] at hv
      simp only [Option.map_some'] at hv
      injection hv with hv
      subst hv
      have hctIssue : dmem kvs "class_type" = false →
          e = "Node " ++ n ++ ": missing \x27class_type\x27" →
          ∃ i ∈ (WorkflowValidator._check_structure m.workflow ++
            blocks.flatten), sameDefect e i := by
        intro hctm hemsg
        refine ⟨{ check := "missing_class_type", node_id := n
                  message := "Node " ++ pyReprStr n ++ " missing \x27class_type\x27" },
          ?_, ?_⟩
        · refine List.mem_append.mpr (Or.inl (List.mem_flatMap.mpr
            ⟨(n, JValue.obj kvs), hp, ?_⟩))
          unfold checkStructureNode
          dsimp only
          rw [hctm, if_neg (by decide)]
          exact List.mem_append.mpr (Or.inl (List.mem_singleton.mpr rfl))
        · exact Or.inl ⟨n, hemsg, rfl, rfl⟩
      unfold selfCheckNode at hsel
      dsimp only [pyInStr] at hsel
      cases hinm : dmem kvs "inputs" with
      | false =>
        rw [hinm] at hsel
        rw [if_pos (by decide)] at hsel
        injection hsel with hsel
        subst hsel
        rcases List.mem_append.mp hee with hee | hee
        · cases hctm : dmem kvs "class_type" with
          | true => rw [hctm] at hee; rw [if_pos rfl] at hee; cases hee
          | false =>
            rw [hctm] at hee
            rw [if_neg (by decide)] at hee
            rw [List.mem_singleton] at hee
            exact hctIssue hctm hee
        · rw [List.mem_singleton] at hee
          refine ⟨{ check := "missing_inputs", node_id := n
                    message := "Node " ++ pyReprStr n ++ " missing \x27inputs\x27" },
            ?_, ?_⟩
          · refine List.mem_append.mpr (Or.inl (List.mem_flatMap.mpr
              ⟨(n, JValue.obj kvs), hp, ?_⟩))
            unfold checkStructureNode
            dsimp only
            rw [hinm, if_neg (show ¬ (false = true) by decide)]
            exact List.mem_append.mpr (Or.inr (List.mem_singleton.mpr rfl))
          · exact Or.inr (Or.inl ⟨n, hee, rfl, rfl⟩)
      | true =>
        rw [hinm] at hsel
        rw [if_neg (by decide)] at hsel
        cases hik : (dget kvs "inputs").getD (JValue.obj []) with
        | obj ikvs =>
          rw [hik] at hsel
          dsimp only at hsel
          injection hsel with hsel
          subst hsel
          rcases List.mem_append.mp hee with hee | hee
          · cases hctm : dmem kvs "class_type" with
            | true => rw [hctm] at hee; rw [if_pos rfl] at hee; cases hee
            | false =>
              rw [hctm] at hee
              rw [if_neg (by decide)] at hee
              rw [List.mem_singleton] at hee
              exact hctIssue hctm hee
          · obtain ⟨q, hq, heq⟩ := List.mem_flatMap.mp hee
            rcases q with ⟨iname, v⟩
            unfold selfCheckLinkEntry at heq
            dsimp only at heq
            cases v with
            | arr xs =>
              rcases xs with _ | ⟨a, _ | ⟨b2, _ | ⟨c, t⟩⟩⟩
              · cases heq
              · cases heq
              · dsimp only at heq
                cases hdm : dmem m.workflow (pyStr a) with
                | true =>
                  rw [hdm] at heq
                  simp at heq
                | false =>
                  rw [hdm] at heq
                  rw [if_pos (show ¬ (false = true) by decide)] at heq
                  rw [List.mem_singleton] at heq
                  obtain ⟨block, hbl, hfb⟩ := mapM_some_mem hmm2 hp
                  have hentry : ({ check := "link_invalid", node_id := n
                                   message := "Node " ++ pyReprStr n ++ " input " ++
                                     pyReprStr iname ++ " links to non-existent node " ++
                                     pyReprStr (pyStr a)
                                   severity := "error", suggestion := "" } :
                      ValidationIssue) ∈
                      checkLinkEntry m.workflow n (iname, JValue.arr [a, b2]) := by
                    unfold checkLinkEntry
                    dsimp only
                    rw [if_pos (by rw [hdm]; exact Bool.false_ne_true)]
                    exact List.mem_singleton.mpr rfl
                  refine ⟨{ check := "link_invalid", node_id := n
                            message := "Node " ++ pyReprStr n ++ " input " ++
                              pyReprStr iname ++ " links to non-existent node " ++
                              pyReprStr (pyStr a)
                            severity := "error", suggestion := "" }, ?_, ?_⟩
                  · refine List.mem_append.mpr (Or.inr (List.mem_flatten.mpr
                      ⟨block, hbl, ?_⟩))
                    exact nodeChecks_has_link hik hfb
                      (List.mem_flatMap.mpr ⟨(iname, JValue.arr [a, b2]), hq, hentry⟩)
                  · exact Or.inr (Or.inr ⟨n, iname, pyStr a, heq, rfl, rfl, rfl⟩)
              · cases heq
            | null => cases heq
            | bool bb => cases heq
            | int ii => cases heq
            | str ss => cases heq
            | obj oo => cases heq
        | null => rw [hik] at hsel; cases hsel
        | bool bb => rw [hik] at hsel; cases hsel
        | int ii => rw [hik] at hsel; cases hsel
        | str ss => rw [hik] at hsel; cases hsel
        | arr xs => rw [hik] at hsel; cases hsel

/-- Claim C4 witness: a concrete one-node graph with one dangling link —
`selfCheck` reports the dangling link and full validation (loaded catalog)
reports a corresponding issue for the same defect. -/
theorem C4_selfCheck_subset_witness :
    ∃ p r, WorkflowManipulator.validate
        { workflow := [("1", .obj [("class_type", .str "A"),
            ("inputs", .obj [("x", .arr [.str "9", .int 0])])])]
          _next_node_id := 2 } = some p ∧
      WorkflowValidator.validate
        { nodes := [("B", { class_type := "B" })], last_fetch := 0, fetched := true }
        (fun _ => [])
        [("1", .obj [("class_type", .str "A"),
          ("inputs", .obj [("x", .arr [.str "9", .int 0])])])] = some r ∧
      p.2 ≠ [] ∧
      ∀ e ∈ p.2, ∃ i ∈ r.issues, sameDefect e i := by
  have h := @C4_selfCheck_subset
    { nodes := [("B", { class_type := "B" })], last_fetch := 0, fetched := true }
    (fun _ => [])
    { workflow := [("1", .obj [("class_type", .str "A"),
        ("inputs", .obj [("x", .arr [.str "9", .int 0])])])]
      _next_node_id := 2 }
    _ _ _
    (by decide)
    (by intro p hp
        rw [List.mem_singleton] at hp
        subst hp
        exact ⟨_, rfl⟩)
    rfl rfl
  exact ⟨_, _, rfl, rfl, by decide, h⟩

theorem wfPairsB_iff {l : List (String × JValue)} :
    wfPairsB l = true ↔ ∀ p ∈ l, wfValueB p.2 = true := by
  induction l with
  | nil => simp [wfPairsB]
  | cons p t ih =>
    rcases p with ⟨k, v⟩
    rw [wfPairsB, Bool.and_eq_true, ih]
    constructor
    · rintro ⟨hv, ht⟩ q hq
      rcases List.mem_cons.mp hq with hq | hq
      · rw [hq]; exact hv
      · exact ht q hq
    · intro h
      exact ⟨h (k, v) (List.mem_cons_self _ _), fun q hq => h q (List.mem_cons_of_mem _ hq)⟩

theorem keys_any_eq {α β : Type} {l : List (String × α)} {l' : List (String × β)}
    (h : List.map Prod.fst l' = List.map Prod.fst l) (k : String) :
    (l'.any (fun p => p.1 = k)) = (l.any (fun p => p.1 = k)) := by
  induction l generalizing l' with
  | nil =>
    cases l' with
    | nil => rfl
    | cons q t' => cases h
  | cons p t ih =>
    cases l' with
    | nil => cases h
    | cons q t' =>
      injection h with h1 h2
      rw [List.any_cons, List.any_cons, ih h2]
      simp only [h1]

theorem nodup_of_keys_eq {α β : Type} {l : List (String × α)} {l' : List (String × β)}
    (h : List.map Prod.fst l' = List.map Prod.fst l)
    (hn : nodupKeysB l = true) : nodupKeysB l' = true := by
  induction l generalizing l' with
  | nil =>
    cases l' with
    | nil => rfl
    | cons q t' => cases h
  | cons p t ih =>
    cases l' with
    | nil => cases h
    | cons q t' =>
      rcases p with ⟨k, v⟩
      rcases q with ⟨k', v'⟩
      injection h with h1 h2
      dsimp only at h1
      subst h1
      rw [nodupKeysB, Bool.and_eq_true] at hn ⊢
      exact ⟨by rw [keys_any_eq h2]; exact hn.1, ih h2 hn.2⟩

theorem any_filter_false {α : Type} {l : List (String × α)} {q : String × α → Bool}
    {k : String} (h : l.any (fun p => p.1 = k) = false) :
    (l.filter q).any (fun p => p.1 = k) = false := by
  induction l with
  | nil => rfl
  | cons p t ih =>
    rw [List.any_cons, Bool.or_eq_false_iff] at h
    rw [List.filter_cons]
    split
    · rw [List.any_cons, Bool.or_eq_false_iff]
      exact ⟨h.1, ih h.2⟩
    · exact ih h.2

theorem nodup_filter {α : Type} {l : List (String × α)} {q : String × α → Bool}
    (hn : nodupKeysB l = true) : nodupKeysB (l.filter q) = true := by
  induction l with
  | nil => rfl
  | cons p t ih =>
    rcases p with ⟨k, v⟩
    rw [nodupKeysB, Bool.and_eq_true, Bool.not_eq_true'] at hn
    rw [List.filter_cons]
    split
    · rw [nodupKeysB, Bool.and_eq_true, Bool.not_eq_true']
      exact ⟨any_filter_false hn.1, ih hn.2⟩
    · exact ih hn.2

theorem wfPairs_filter {l : List (String × JValue)} {q : String × JValue → Bool}
    (h : wfPairsB l = true) : wfPairsB (l.filter q) = true := by
  rw [wfPairsB_iff]
  intro p hp
  exact wfPairsB_iff.mp h p (List.mem_of_mem_filter hp)

theorem dictSet_keys_update {α : Type} (l : List (String × α)) (k : String) (v : α) :
    List.map Prod.fst (l.map (fun p => if p.1 = k then (k, v) else p)) =
      List.map Prod.fst l := by
  induction l with
  | nil => rfl
  | cons p t ih =>
    rcases p with ⟨k0, v0⟩
    dsimp only [List.map_cons]
    rw [ih]
    by_cases hk : k0 = k
    · rw [if_pos hk]
      dsimp only
      rw [hk]
    · rw [if_neg hk]

theorem nodup_append_one {α : Type} {l : List (String × α)} {k : String} {v : α}
    (hn : nodupKeysB l = true) (ha : l.any (fun p => p.1 = k) = false) :
    nodupKeysB (l ++ [(k, v)]) = true := by
  induction l with
  | nil => rfl
  | cons p t ih =>
    rcases p with ⟨k0, v0⟩
    rw [List.any_cons, Bool.or_eq_false_iff] at ha
    rw [nodupKeysB, Bool.and_eq_true, Bool.not_eq_true'] at hn
    rw [List.cons_append, nodupKeysB, Bool.and_eq_true, Bool.not_eq_true']
    refine ⟨?_, ih hn.2 ha.2⟩
    rw [List.any_append, Bool.or_eq_false_iff]
    refine ⟨hn.1, ?_⟩
    rw [List.any_cons, List.any_nil, Bool.or_eq_false_iff]
    refine ⟨?_, rfl⟩
    dsimp only
    rw [decide_eq_false_iff_not]
    intro he
    have := ha.1
    rw [decide_eq_false_iff_not] at this
    exact this he.symm

theorem nodup_dictSet {α : Type} {l : List (String × α)} {k : String} {v : α}
    (hn : nodupKeysB l = true) : nodupKeysB (dictSet l k v) = true := by
  unfold dictSet
  split
  · exact nodup_of_keys_eq (dictSet_keys_update l k v) hn
  · rename_i ha
    rw [Bool.not_eq_true] at ha
    exact nodup_append_one hn ha

theorem wfPairs_dictSet {l : List (String × JValue)} {k : String} {v : JValue}
    (h : wfPairsB l = true) (hv : wfValueB v = true) :
    wfPairsB (dictSet l k v) = true := by
  rw [wfPairsB_iff]
  intro p hp
  unfold dictSet at hp
  split at hp
  · obtain ⟨q, hq, hqe⟩ := List.mem_map.mp hp
    by_cases hk : q.1 = k
    · rw [if_pos hk] at hqe
      rw [← hqe]
      exact hv
    · rw [if_neg hk] at hqe
      rw [← hqe]
      exact wfPairsB_iff.mp h q hq
  · rcases List.mem_append.mp hp with hp | hp
    · exact wfPairsB_iff.mp h p hp
    · rw [List.mem_singleton] at hp
      rw [hp]
      exact hv

theorem wfValue_dictObj {kvs : List (String × JValue)} {k : String} {v : JValue}
    (hn : nodupKeysB kvs = true) (hp : wfPairsB kvs = true)
    (hv : wfValueB v = true) :
    wfValueB (.obj (dictSet kvs k v)) = true := by
  rw [wfValueB, Bool.and_eq_true]
  exact ⟨nodup_dictSet hn, wfPairs_dictSet hp hv⟩

theorem wfValue_obj_dest {kvs : List (String × JValue)}
    (h : wfValueB (.obj kvs) = true) :
    nodupKeysB kvs = true ∧ wfPairsB kvs = true := by
  rw [wfValueB, Bool.and_eq_true] at h
  exact h

theorem mapM_keep_keys {f : String × JValue → Option (String × JValue)}
    (hf : ∀ p q, f p = some q → q.1 = p.1) :
    ∀ {l l' : List (String × JValue)}, l.mapM f = some l' →
      List.map Prod.fst l' = List.map Prod.fst l := by
  intro l
  induction l with
  | nil =>
    intro l' h
    have h0 : ([] : List (String × JValue)).mapM f = some [] := rfl
    rw [h0] at h
    injection h with h
    rw [← h]
  | cons x t ih =>
    intro l' h
    rw [List.mapM_cons] at h
    cases hx : f x with
    | none => rw [hx] at h; cases h
    | some b =>
      rw [hx] at h
      cases ht : t.mapM f with
      | none =>
        rw [ht] at h
        cases h
      | some bs =>
        rw [ht] at h
        simp only [Option.pure_def, Option.bind_some] at h
        injection h with h
        rw [← h, List.map_cons, List.map_cons, ih ht, hf x b hx]

theorem removeNodeCleanup_pres {nid : String} {nd nd' : JValue}
    (h : wfValueB nd = true) (hc : removeNodeCleanup nid nd = some nd') :
    wfValueB nd' = true := by
  unfold removeNodeCleanup at hc
  cases nd with
  | obj kvs =>
    dsimp only at hc
    obtain ⟨hn, hp⟩ := wfValue_obj_dest h
    cases hik : dget kvs "inputs" with
    | none =>
      rw [hik] at hc
      injection hc with hc
      rw [← hc]
      exact h
    | some iv =>
      rw [hik] at hc
      cases iv with
      | obj ikvs =>
        injection hc with hc
        rw [← hc]
        refine wfValue_dictObj hn hp ?_
        have hivm : wfValueB (.obj ikvs) = true :=
          wfPairsB_iff.mp hp _ (dget_mem hik)
        obtain ⟨hn2, hp2⟩ := wfValue_obj_dest hivm
        rw [wfValueB, Bool.and_eq_true]
        exact ⟨nodup_filter hn2, wfPairs_filter hp2⟩
      | null => cases hc
      | bool b => cases hc
      | int n => cases hc
      | str s => cases hc
      | arr xs => cases hc
  | null => dsimp only at hc; cases hc
  | bool b => dsimp only at hc; cases hc
  | int n => dsimp only at hc; cases hc
  | str s => dsimp only at hc; cases hc
  | arr xs => dsimp only at hc; cases hc

theorem addNode_value_wf {ct tt : String} {ins : List (String × JValue)}
    (hnd : nodupKeysB ins = true) (hwp : wfPairsB ins = true) :
    wfValueB (.obj [("class_type", .str ct), ("inputs", .obj ins),
      ("_meta", .obj [("title", .str tt)])]) = true := by
  rw [wfValueB, Bool.and_eq_true]
  refine ⟨rfl, ?_⟩
  rw [wfPairsB, Bool.and_eq_true]
  refine ⟨rfl, ?_⟩
  rw [wfPairsB, Bool.and_eq_true]
  refine ⟨?_, rfl⟩
  rw [wfValueB, Bool.and_eq_true]
  exact ⟨hnd, hwp⟩

theorem reachable_wf {m : WorkflowManipulator} (h : Reachable m) :
    wfValueB (.obj m.workflow) = true := by
  induction h with
  | new => rfl
  | add m ct ins title hr hnd hwp ih =>
    obtain ⟨hn, hp⟩ := wfValue_obj_dest ih
    unfold WorkflowManipulator.add_node
    dsimp only
    exact wfValue_dictObj hn hp (addNode_value_wf hnd hwp)
  | remove m m' nid b hr hrm ih =>
    unfold WorkflowManipulator.remove_node at hrm
    split at hrm
    · injection hrm with hrm
      have hm : m = m' := congrArg Prod.snd hrm
      rw [← hm]
      exact ih
    · dsimp only at hrm
      cases hmm : (dictDel m.workflow nid).mapM
          (fun p => (removeNodeCleanup nid p.2).map (p.1, ·)) with
      | none => rw [hmm] at hrm; cases hrm
      | some wf2 =>
        rw [hmm] at hrm
        injection hrm with hrm
        have hm := congrArg Prod.snd hrm
        dsimp only at hm
        rw [← hm]
        dsimp only
        obtain ⟨hn, hp⟩ := wfValue_obj_dest ih
        have hkeys : List.map Prod.fst wf2 =
            List.map Prod.fst (dictDel m.workflow nid) := by
          refine mapM_keep_keys ?_ hmm
          intro p q hpq
          cases hcl : removeNodeCleanup nid p.2 with
          | none => rw [hcl] at hpq; cases hpq
          | some x =>
            rw [hcl] at hpq
            injection hpq with hpq
            rw [← hpq]
        rw [wfValueB, Bool.and_eq_true]
        constructor
        · exact nodup_of_keys_eq hkeys (nodup_filter hn)
        · rw [wfPairsB_iff]
          intro q hq
          obtain ⟨p, hpmem, hpq⟩ := mapM_mem_rev hmm hq
          cases hcl : removeNodeCleanup nid p.2 with
          | none => rw [hcl] at hpq; cases hpq
          | some x =>
            rw [hcl] at hpq
            injection hpq with hpq
            rw [← hpq]
            refine removeNodeCleanup_pres ?_ hcl
            exact wfPairsB_iff.mp hp p (List.mem_of_mem_filter hpmem)
  | connect m m' src slot tgt name b hr hcn ih =>
    unfold WorkflowManipulator.connect_nodes at hcn
    split at hcn
    · injection hcn with hcn
      have hm : m = m' := congrArg Prod.snd hcn
      rw [← hm]
      exact ih
    · cases hgt : dget m.workflow tgt with
      | none => rw [hgt] at hcn; cases hcn
      | some nd =>
        rw [hgt] at hcn
        cases nd with
        | obj kvs =>
          dsimp only at hcn
          cases hgi : dget kvs "inputs" with
          | none => rw [hgi] at hcn; cases hcn
          | some iv =>
            rw [hgi] at hcn
            cases iv with
            | obj ikvs =>
              dsimp only at hcn
              injection hcn with hcn
              have hm := congrArg Prod.snd hcn
              dsimp only at hm
              rw [← hm]
              dsimp only
              obtain ⟨hn, hp⟩ := wfValue_obj_dest ih
              refine wfValue_dictObj hn hp ?_
              obtain ⟨hn2, hp2⟩ := wfValue_obj_dest
                (wfPairsB_iff.mp hp _ (dget_mem hgt))
              refine wfValue_dictObj hn2 hp2 ?_
              obtain ⟨hn3, hp3⟩ := wfValue_obj_dest
                (wfPairsB_iff.mp hp2 _ (dget_mem hgi))
              exact wfValue_dictObj hn3 hp3 rfl
            | null => cases hcn
            | bool bb => cases hcn
            | int nn => cases hcn
            | str ss => cases hcn
            | arr xs => cases hcn
        | null => cases hcn
        | bool bb => cases hcn
        | int nn => cases hcn
        | str ss => cases hcn
        | arr xs => cases hcn
  | modify m m' nid iname v b hr hv hmd ih =>
    unfold WorkflowManipulator.modify_input at hmd
    split at hmd
    · injection hmd with hmd
      have hm : m = m' := congrArg Prod.snd hmd
      rw [← hm]
      exact ih
    · cases hgt : dget m.workflow nid with
      | none => rw [hgt] at hmd; cases hmd
      | some nd =>
        rw [hgt] at hmd
        cases nd with
        | obj kvs =>
          dsimp only at hmd
          cases hgi : dget kvs "inputs" with
          | none => rw [hgi] at hmd; cases hmd
          | some iv =>
            rw [hgi] at hmd
            cases iv with
            | obj ikvs =>
              dsimp only at hmd
              injection hmd with hmd
              have hm := congrArg Prod.snd hmd
              dsimp only at hm
              rw [← hm]
              dsimp only
              obtain ⟨hn, hp⟩ := wfValue_obj_dest ih
              refine wfValue_dictObj hn hp ?_
              obtain ⟨hn2, hp2⟩ := wfValue_obj_dest
                (wfPairsB_iff.mp hp _ (dget_mem hgt))
              refine wfValue_dictObj hn2 hp2 ?_
              obtain ⟨hn3, hp3⟩ := wfValue_obj_dest
                (wfPairsB_iff.mp hp2 _ (dget_mem hgi))
              exact wfValue_dictObj hn3 hp3 hv
            | null => cases hmd
            | bool bb => cases hmd
            | int nn => cases hmd
            | str ss => cases hmd
            | arr xs => cases hmd
        | null => cases hmd
        | bool bb => cases hmd
        | int nn => cases hmd
        | str ss => cases hmd
        | arr xs => cases hmd

theorem skipWs_not_ws {c : Char} {t : List Char} (h : isJsonWs c = false) :
    skipWs (c :: t) = c :: t := by
  unfold skipWs
  rw [if_neg (by rw [h]; exact Bool.false_ne_true)]

theorem skipWs_ws {c : Char} {t : List Char} (h : isJsonWs c = true) :
    skipWs (c :: t) = skipWs t := by
  show (if isJsonWs c = true then skipWs t else c :: t) = skipWs t
  rw [if_pos h]

theorem skipWs_replicate_space : ∀ (n : Nat) (u : List Char),
    skipWs (List.replicate n ' ' ++ u) = skipWs u := by
  intro n
  induction n with
  | zero => intro u; rfl
  | succ n ih =>
    intro u
    rw [List.replicate_succ, List.cons_append, skipWs_ws (by decide)]
    exact ih u

theorem skipWs_indent (k : Nat) (u : List Char) :
    skipWs (jindent k ++ u) = skipWs u :=
  skipWs_replicate_space (2 * k) u

theorem skipWs_nl_indent (k : Nat) (u : List Char) :
    skipWs ('\n' :: (jindent k ++ u)) = skipWs u := by
  rw [skipWs_ws (by decide)]
  exact skipWs_indent k u

theorem jparse_skip {s1 s2 : List Char} (h : skipWs s1 = skipWs s2) :
    ∀ f, jparse f s1 = jparse f s2 := by
  intro f
  cases f with
  | zero => rfl
  | succ f =>
    show (match skipWs s1 with
      | 'n' :: 'u' :: 'l' :: 'l' :: t => some (.null, t)
      | 't' :: 'r' :: 'u' :: 'e' :: t => some (.bool true, t)
      | 'f' :: 'a' :: 'l' :: 's' :: 'e' :: t => some (.bool false, t)
      | '"' :: t => (parseStrBody (t.length + 1) t).map (fun r => (.str (String.mk r.1), r.2))
      | '[' :: t =>
        match skipWs t with
        | ']' :: t2 => some (.arr [], t2)
        | t2 => (jparseElems f t2).map (fun r => (.arr r.1, r.2))
      | '\x7b' :: t =>
        match skipWs t with
        | '\x7d' :: t2 => some (.obj [], t2)
        | t2 =>
          (jparseMembers f t2).map (fun r =>
            (.obj (r.1.foldl (fun acc p => dictSet acc p.1 p.2) []), r.2))
      | t => (parseIntTok t).map (fun r => (.int r.1, r.2))) = jparse (f + 1) s2
    rw [h]
    rfl

theorem digRunGo_digs : ∀ (ds : List Char) (acc : Nat) (rest : List Char),
    (∀ c ∈ ds, isDig c = true) →
    (∀ c t', rest = c :: t' → isDig c = false) →
    digRunGo acc (ds ++ rest) =
      (ds.foldl (fun a c => 10 * a + (c.toNat - 48)) acc, rest) := by
  intro ds
  induction ds with
  | nil =>
    intro acc rest _ hrest
    cases rest with
    | nil => rfl
    | cons c t' =>
      unfold digRunGo
      dsimp only [List.nil_append]
      rw [if_neg (by rw [hrest c t' rfl]; exact Bool.false_ne_true)]
      rfl
  | cons d ds ih =>
    intro acc rest hds hrest
    rw [List.cons_append]
    unfold digRunGo
    rw [if_pos (hds d (List.mem_cons_self _ _))]
    exact ih _ rest (fun c hc => hds c (List.mem_cons_of_mem _ hc)) hrest

theorem natDigs_head_ne_48 (n : Nat) (hn : 0 < n) :
    ∀ d ds, natDigs n = d :: ds → d.toNat ≠ 48 := by
  induction n using Nat.strong_induction_on with
  | _ n ih =>
    intro d ds hds
    rw [natDigs_rec] at hds
    split at hds
    · next h =>
      injection hds with h1 _
      rw [← h1, toNat_ofNat_small (by omega)]
      omega
    · next h =>
      obtain ⟨d0, ds0, hd0⟩ := List.exists_cons_of_ne_nil (natDigs_ne_nil (n / 10))
      rw [hd0, List.cons_append] at hds
      injection hds with h1 _
      rw [← h1]
      exact ih (n / 10) (Nat.div_lt_self (by omega) (by omega))
        (by omega) d0 ds0 hd0

theorem parseNatTok_natDigs (n : Nat) (rest : List Char)
    (hrest : ∀ c t', rest = c :: t' → isDig c = false) :
    parseNatTok (natDigs n ++ rest) = some (n, rest) := by
  cases Nat.eq_zero_or_pos n with
  | inl h0 =>
    subst h0
    show parseNatTok ('0' :: rest) = some (0, rest)
    unfold parseNatTok
    dsimp only
    rw [if_pos rfl]
    cases rest with
    | nil => rfl
    | cons c t' =>
      dsimp only
      rw [if_neg (by rw [hrest c t' rfl]; exact Bool.false_ne_true)]
  | inr hpos =>
    obtain ⟨d, ds, hds⟩ := List.exists_cons_of_ne_nil (natDigs_ne_nil n)
    have hd : isDig d = true := natDigs_all_isDig n d (by rw [hds]; exact List.mem_cons_self _ _)
    have hd48 : d.toNat ≠ 48 := natDigs_head_ne_48 n hpos d ds hds
    rw [hds, List.cons_append]
    unfold parseNatTok
    dsimp only
    rw [if_neg (by
      intro he
      rw [he] at hd48
      exact hd48 rfl)]
    rw [if_pos hd]
    rw [digRunGo_digs ds (d.toNat - 48) rest
      (fun c hc => natDigs_all_isDig n c (by rw [hds]; exact List.mem_cons_of_mem _ hc))
      hrest]
    have hval : ds.foldl (fun a c => 10 * a + (c.toNat - 48)) (d.toNat - 48) = n := by
      have := digsVal_natDigs n
      rw [hds] at this
      unfold digsVal at this
      rw [List.foldl_cons] at this
      simpa using this
    rw [hval]

theorem natDigs_head_ne_dash (n : Nat) :
    ∀ d ds, natDigs n = d :: ds → ¬ d = '-' := by
  intro d ds hds he
  have hd : isDig d = true :=
    natDigs_all_isDig n d (by rw [hds]; exact List.mem_cons_self _ _)
  rw [he] at hd
  exact absurd hd (by decide)

theorem parseIntTok_jsonInt (n : Int) (rest : List Char)
    (hrest : ∀ c t', rest = c :: t' →
      isDig c = false ∧ ¬ c = '.' ∧ ¬ c = 'e' ∧ ¬ c = 'E') :
    parseIntTok (jsonInt n ++ rest) = some (n, rest) := by
  have hcore : ∀ m : Nat,
      (match parseNatTok (natDigs m ++ rest) with
       | some (k, r) =>
         match r with
         | c :: _ => if c = '.' ∨ c = 'e' ∨ c = 'E' then none else some (k, r)
         | [] => some (k, [])
       | none => none) = some (m, rest) := by
    intro m
    rw [parseNatTok_natDigs m rest (fun c t' he => (hrest c t' he).1)]
    cases hr : rest with
    | nil => rfl
    | cons c t' =>
      dsimp only
      rw [if_neg (by
        obtain ⟨-, h1, h2, h3⟩ := hrest c t' hr
        rintro (he | he | he)
        · exact h1 he
        · exact h2 he
        · exact h3 he)]
  unfold parseIntTok
  by_cases hneg : n < 0
  · rw [jsonInt, if_pos hneg, List.cons_append]
    split
    · next t heq =>
      injection heq with _ h2
      dsimp only
      rw [← h2, hcore n.natAbs]
      dsimp only [Option.map_some']
      have hh : -(n.natAbs : Int) = n := by omega
      rw [hh]
    · next hne => exact absurd rfl (hne (natDigs n.natAbs ++ rest))
  · rw [jsonInt, if_neg hneg]
    obtain ⟨d, ds, hds⟩ := List.exists_cons_of_ne_nil (natDigs_ne_nil n.natAbs)
    rw [hds, List.cons_append]
    have hdd : ¬ d = '-' := natDigs_head_ne_dash n.natAbs d ds hds
    split
    · next t heq =>
      injection heq with h1 _
      exact absurd h1 hdd
    · next hne =>
      dsimp only
      rw [← List.cons_append, ← hds]
      rw [hcore n.natAbs]
      dsimp only [Option.map_some']
      have hh : (n.natAbs : Int) = n := by omega
      rw [hh]

theorem hexVal_hexDig {d : Nat} (h : d < 16) : hexVal (hexDig d) = some d := by
  by_cases h10 : d < 10
  · have hc : (hexDig d).toNat = 48 + d := by
      unfold hexDig
      rw [if_pos h10]
      exact toNat_ofNat_small (by omega)
    unfold hexVal
    rw [hc, if_pos (by omega)]
    congr 1
    omega
  · have hc : (hexDig d).toNat = 87 + d := by
      unfold hexDig
      rw [if_neg h10]
      exact toNat_ofNat_small (by omega)
    unfold hexVal
    rw [hc, if_neg (by omega), if_pos (by omega)]
    congr 1
    omega

theorem parseStrBody_q (f : Nat) (R : List Char) :
    parseStrBody (f + 1) ('\\' :: '"' :: R) =
      (parseStrBody f R).map (fun r : List Char × List Char =>
        ('"' :: r.1, r.2)) := rfl

theorem parseStrBody_bs (f : Nat) (R : List Char) :
    parseStrBody (f + 1) ('\\' :: '\\' :: R) =
      (parseStrBody f R).map (fun r : List Char × List Char =>
        ('\\' :: r.1, r.2)) := rfl

theorem parseStrBody_nl (f : Nat) (R : List Char) :
    parseStrBody (f + 1) ('\\' :: 'n' :: R) =
      (parseStrBody f R).map (fun r : List Char × List Char =>
        ('\n' :: r.1, r.2)) := rfl

theorem parseStrBody_tb (f : Nat) (R : List Char) :
    parseStrBody (f + 1) ('\\' :: 't' :: R) =
      (parseStrBody f R).map (fun r : List Char × List Char =>
        ('\t' :: r.1, r.2)) := rfl

theorem parseStrBody_cr (f : Nat) (R : List Char) :
    parseStrBody (f + 1) ('\\' :: 'r' :: R) =
      (parseStrBody f R).map (fun r : List Char × List Char =>
        ('\r' :: r.1, r.2)) := rfl

theorem parseStrBody_b8 (f : Nat) (R : List Char) :
    parseStrBody (f + 1) ('\\' :: 'b' :: R) =
      (parseStrBody f R).map (fun r : List Char × List Char =>
        (Char.ofNat 8 :: r.1, r.2)) := rfl

theorem parseStrBody_f12 (f : Nat) (R : List Char) :
    parseStrBody (f + 1) ('\\' :: 'f' :: R) =
      (parseStrBody f R).map (fun r : List Char × List Char =>
        (Char.ofNat 12 :: r.1, r.2)) := rfl

theorem parseStrBody_any (f : Nat) (R : List Char) (c : Char) (h1 : ¬ c = '"')
    (h2 : ¬ c = '\\') (h3 : ¬ c.toNat < 32) :
    parseStrBody (f + 1) (c :: R) =
      (parseStrBody f R).map (fun r : List Char × List Char => (c :: r.1, r.2)) := by
  conv_lhs => rw [parseStrBody.eq_def]
  dsimp only
  rw [if_neg h1, if_neg h2, if_neg h3]

theorem parseStrBody_u (f : Nat) (m : Nat) (R : List Char) (hm : m < 65536)
    (hlo : ¬ (55296 ≤ m ∧ m < 56320)) (hhi : ¬ (56320 ≤ m ∧ m < 57344)) :
    parseStrBody (f + 1) ('\\' :: 'u' :: (hex4 m ++ R)) =
      (parseStrBody f R).map (fun r : List Char × List Char =>
        (Char.ofNat m :: r.1, r.2)) := by
  have e1 : hexVal (hexDig (m / 4096 % 16)) = some (m / 4096 % 16) :=
    hexVal_hexDig (by omega)
  have e2 : hexVal (hexDig (m / 256 % 16)) = some (m / 256 % 16) :=
    hexVal_hexDig (by omega)
  have e3 : hexVal (hexDig (m / 16 % 16)) = some (m / 16 % 16) :=
    hexVal_hexDig (by omega)
  have e4 : hexVal (hexDig (m % 16)) = some (m % 16) :=
    hexVal_hexDig (by omega)
  have hrec : 4096 * (m / 4096 % 16) + 256 * (m / 256 % 16) + 16 * (m / 16 % 16) +
      m % 16 = m := by omega
  conv_lhs => rw [parseStrBody.eq_def]
  simp only [hex4, List.cons_append, List.nil_append]
  simp only [e1, e2, e3, e4, reduceIte, Char.reduceEq]
  rw [hrec]
  rw [if_neg hlo, if_neg hhi]

theorem parseStrBody_u_pair (f : Nat) (hi lo : Nat) (R : List Char)
    (hh1 : 55296 ≤ hi) (hh2 : hi < 56320) (hl1 : 56320 ≤ lo) (hl2 : lo < 57344) :
    parseStrBody (f + 1) ('\\' :: 'u' :: (hex4 hi ++
      ('\\' :: 'u' :: (hex4 lo ++ R)))) =
      (parseStrBody f R).map (fun r : List Char × List Char =>
        (Char.ofNat (65536 + (hi - 55296) * 1024 + (lo - 56320)) :: r.1, r.2)) := by
  have e1 : hexVal (hexDig (hi / 4096 % 16)) = some (hi / 4096 % 16) :=
    hexVal_hexDig (by omega)
  have e2 : hexVal (hexDig (hi / 256 % 16)) = some (hi / 256 % 16) :=
    hexVal_hexDig (by omega)
  have e3 : hexVal (hexDig (hi / 16 % 16)) = some (hi / 16 % 16) :=
    hexVal_hexDig (by omega)
  have e4 : hexVal (hexDig (hi % 16)) = some (hi % 16) :=
    hexVal_hexDig (by omega)
  have e5 : hexVal (hexDig (lo / 4096 % 16)) = some (lo / 4096 % 16) :=
    hexVal_hexDig (by omega)
  have e6 : hexVal (hexDig (lo / 256 % 16)) = some (lo / 256 % 16) :=
    hexVal_hexDig (by omega)
  have e7 : hexVal (hexDig (lo / 16 % 16)) = some (lo / 16 % 16) :=
    hexVal_hexDig (by omega)
  have e8 : hexVal (hexDig (lo % 16)) = some (lo % 16) :=
    hexVal_hexDig (by omega)
  have hrec1 : 4096 * (hi / 4096 % 16) + 256 * (hi / 256 % 16) +
      16 * (hi / 16 % 16) + hi % 16 = hi := by omega
  have hrec2 : 4096 * (lo / 4096 % 16) + 256 * (lo / 256 % 16) +
      16 * (lo / 16 % 16) + lo % 16 = lo := by omega
  conv_lhs => rw [parseStrBody.eq_def]
  simp only [hex4, List.cons_append, List.nil_append]
  simp only [e1, e2, e3, e4, e5, e6, e7, e8, reduceIte, Char.reduceEq]
  rw [hrec1, hrec2]
  rw [if_pos (by omega : 55296 ≤ hi ∧ hi < 56320)]
  rw [if_pos (by omega : 56320 ≤ lo ∧ lo < 57344)]

theorem parseStrBody_esc : ∀ (cs : List Char) (fuel : Nat) (rest : List Char),
    cs.length < fuel →
    parseStrBody fuel ((cs.map jsonEscChar).flatten ++ '"' :: rest) =
      some (cs, rest) := by
  intro cs
  induction cs with
  | nil =>
    intro fuel rest h
    cases fuel with
    | zero => omega
    | succ f => rfl
  | cons c cs ih =>
    intro fuel rest h
    cases fuel with
    | zero => rw [List.length_cons] at h; omega
    | succ f =>
      have hf : cs.length < f := by
        rw [List.length_cons] at h
        omega
      rw [List.map_cons, List.flatten_cons, List.append_assoc]
      have ihr := ih f rest hf
      by_cases h1 : c = '"'
      · subst h1
        rw [show jsonEscChar '"' = ['\\', '"'] from rfl]
        rw [List.cons_append, List.cons_append, List.nil_append]
        rw [parseStrBody_q, ihr]
        rfl
      by_cases h2 : c = '\\'
      · subst h2
        rw [show jsonEscChar '\\' = ['\\', '\\'] from rfl]
        rw [List.cons_append, List.cons_append, List.nil_append]
        rw [parseStrBody_bs, ihr]
        rfl
      by_cases h3 : c = '\n'
      · subst h3
        rw [show jsonEscChar '\n' = ['\\', 'n'] from rfl]
        rw [List.cons_append, List.cons_append, List.nil_append]
        rw [parseStrBody_nl, ihr]
        rfl
      by_cases h4 : c = '\t'
      · subst h4
        rw [show jsonEscChar '\t' = ['\\', 't'] from rfl]
        rw [List.cons_append, List.cons_append, List.nil_append]
        rw [parseStrBody_tb, ihr]
        rfl
      by_cases h5 : c = '\r'
      · subst h5
        rw [show jsonEscChar '\r' = ['\\', 'r'] from rfl]
        rw [List.cons_append, List.cons_append, List.nil_append]
        rw [parseStrBody_cr, ihr]
        rfl
      by_cases h6 : c.toNat = 8
      · have hesc : jsonEscChar c = ['\\', 'b'] := by
          unfold jsonEscChar
          rw [if_neg h1, if_neg h2, if_neg h3, if_neg h4, if_neg h5, if_pos h6]
        rw [hesc, List.cons_append, List.cons_append, List.nil_append]
        rw [parseStrBody_b8, ihr]
        simp only [Option.map_some']
        rw [← h6, Char.ofNat_toNat]
      by_cases h7 : c.toNat = 12
      · have hesc : jsonEscChar c = ['\\', 'f'] := by
          unfold jsonEscChar
          rw [if_neg h1, if_neg h2, if_neg h3, if_neg h4, if_neg h5, if_neg h6,
            if_pos h7]
        rw [hesc, List.cons_append, List.cons_append, List.nil_append]
        rw [parseStrBody_f12, ihr]
        simp only [Option.map_some']
        rw [← h7, Char.ofNat_toNat]
      by_cases h8 : c.toNat < 32
      · have hesc : jsonEscChar c = '\\' :: 'u' :: hex4 c.toNat := by
          unfold jsonEscChar
          rw [if_neg h1, if_neg h2, if_neg h3, if_neg h4, if_neg h5, if_neg h6,
            if_neg h7, if_pos h8]
        rw [hesc, List.cons_append, List.cons_append]
        rw [parseStrBody_u f c.toNat _ (by omega) (by omega) (by omega), ihr]
        simp only [Option.map_some']
        rw [Char.ofNat_toNat]
      by_cases h9 : c.toNat ≤ 126
      · have hesc : jsonEscChar c = [c] := by
          unfold jsonEscChar
          rw [if_neg h1, if_neg h2, if_neg h3, if_neg h4, if_neg h5, if_neg h6,
            if_neg h7, if_neg h8, if_pos h9]
        rw [hesc, List.cons_append, List.nil_append]
        rw [parseStrBody_any f _ c h1 h2 h8, ihr]
        rfl
      have hvt : c.toNat < 55296 ∨ (57343 < c.toNat ∧ c.toNat < 1114112) := c.valid
      by_cases h10 : c.toNat ≤ 65535
      · have hesc : jsonEscChar c = '\\' :: 'u' :: hex4 c.toNat := by
          unfold jsonEscChar
          rw [if_neg h1, if_neg h2, if_neg h3, if_neg h4, if_neg h5, if_neg h6,
            if_neg h7, if_neg h8, if_neg h9, if_pos h10]
        have hsur : c.toNat < 55296 ∨ 57343 < c.toNat := by
          rcases hvt with hv | hv
          · exact Or.inl hv
          · exact Or.inr hv.1
        rw [hesc, List.cons_append, List.cons_append]
        rw [parseStrBody_u f c.toNat _ (by omega) (by omega) (by omega), ihr]
        simp only [Option.map_some']
        rw [Char.ofNat_toNat]
      · have hup : c.toNat < 1114112 := by
          rcases hvt with hv | hv
          · omega
          · exact hv.2
        have hesc : jsonEscChar c =
            ('\\' :: 'u' :: hex4 (55296 + (c.toNat - 65536) / 1024)) ++
              ('\\' :: 'u' :: hex4 (56320 + (c.toNat - 65536) % 1024)) := by
          unfold jsonEscChar
          rw [if_neg h1, if_neg h2, if_neg h3, if_neg h4, if_neg h5, if_neg h6,
            if_neg h7, if_neg h8, if_neg h9, if_neg h10]
        rw [hesc]
        simp only [List.cons_append, List.append_assoc]
        rw [parseStrBody_u_pair f _ _ _ (by omega) (by omega) (by omega) (by omega),
          ihr]
        simp only [Option.map_some']
        have hcc : 65536 + (55296 + (c.toNat - 65536) / 1024 - 55296) * 1024 +
            (56320 + (c.toNat - 65536) % 1024 - 56320) = c.toNat := by omega
        rw [hcc, Char.ofNat_toNat]

set_option maxHeartbeats 1000000 in
theorem jsonEscChar_len (c : Char) : 1 ≤ (jsonEscChar c).length := by
  unfold jsonEscChar
  split_ifs <;>
    simp only [hex4, List.length_cons, List.length_append, List.length_singleton,
      List.length_nil] <;>
    omega

theorem esc_flatten_len : ∀ cs : List Char,
    cs.length ≤ ((cs.map jsonEscChar).flatten).length := by
  intro cs
  induction cs with
  | nil => simp
  | cons c cs ih =>
    rw [List.map_cons, List.flatten_cons, List.length_append, List.length_cons]
    have := jsonEscChar_len c
    omega

theorem isDig_not_jsonWs {c : Char} (h : isDig c = true) : isJsonWs c = false := by
  unfold isDig at h
  rw [decide_eq_true_eq] at h
  unfold isJsonWs
  rw [decide_eq_false_iff_not]
  rintro (e | e | e | e) <;> (rw [e] at h; revert h; decide)

theorem jsonInt_head (n : Int) : ∃ c t, jsonInt n = c :: t ∧
    isJsonWs c = false ∧ ¬ c = ']' := by
  unfold jsonInt
  split
  · refine ⟨'-', natDigs n.natAbs, rfl, by decide, by decide⟩
  · obtain ⟨d, ds, hds⟩ := List.exists_cons_of_ne_nil (natDigs_ne_nil n.natAbs)
    have hd : isDig d = true :=
      natDigs_all_isDig _ d (by rw [hds]; exact List.mem_cons_self _ _)
    refine ⟨d, ds, hds, isDig_not_jsonWs hd, ?_⟩
    intro he
    rw [he] at hd
    exact absurd hd (by decide)

theorem jdump_head (v : JValue) (d : Nat) : ∃ c t, jdump v d = c :: t ∧
    isJsonWs c = false ∧ ¬ c = ']' := by
  cases v with
  | null => exact ⟨'n', _, rfl, by decide, by decide⟩
  | bool b =>
    cases b with
    | true => exact ⟨'t', _, rfl, by decide, by decide⟩
    | false => exact ⟨'f', _, rfl, by decide, by decide⟩
  | int n =>
    obtain ⟨c, t, hct, hws, hbr⟩ := jsonInt_head n
    exact ⟨c, t, by rw [jdump, hct], hws, hbr⟩
  | str s => exact ⟨'"', _, rfl, by decide, by decide⟩
  | arr xs =>
    cases xs with
    | nil => exact ⟨'[', _, rfl, by decide, by decide⟩
    | cons x t => exact ⟨'[', _, rfl, by decide, by decide⟩
  | obj kvs =>
    cases kvs with
    | nil => exact ⟨'\x7b', _, rfl, by decide, by decide⟩
    | cons p t =>
      rcases p with ⟨k, v2⟩
      exact ⟨'\x7b', _, rfl, by decide, by decide⟩

theorem nodup_head_key_absent {α : Type} :
    ∀ {acc rest : List (String × α)} {k : String} {v : α},
    nodupKeysB (acc ++ (k, v) :: rest) = true →
    acc.any (fun q => q.1 = k) = false := by
  intro acc
  induction acc with
  | nil => intro rest k v _; rfl
  | cons p acc ih =>
    intro rest k v h
    rcases p with ⟨k0, v0⟩
    rw [List.cons_append, nodupKeysB, Bool.and_eq_true, Bool.not_eq_true'] at h
    rw [List.any_cons, Bool.or_eq_false_iff]
    constructor
    · rw [decide_eq_false_iff_not]
      intro he
      have : (acc ++ (k, v) :: rest).any (fun p => p.1 = k0) = true := by
        refine List.any_eq_true.mpr ⟨(k, v), ?_, ?_⟩
        · exact List.mem_append.mpr (Or.inr (List.mem_cons_self _ _))
        · rw [decide_eq_true_eq]
          exact he.symm
      rw [this] at h
      cases h.1
    · exact ih h.2

theorem foldl_dictSet_nodup {α : Type} :
    ∀ (kvs acc : List (String × α)), nodupKeysB (acc ++ kvs) = true →
    kvs.foldl (fun a p => dictSet a p.1 p.2) acc = acc ++ kvs := by
  intro kvs
  induction kvs with
  | nil => intro acc _; simp
  | cons p kvs ih =>
    intro acc h
    rcases p with ⟨k, v⟩
    rw [List.foldl_cons]
    have habs : acc.any (fun q => q.1 = k) = false := nodup_head_key_absent h
    have hset : dictSet acc k v = acc ++ [(k, v)] := by
      unfold dictSet
      rw [if_neg (by rw [habs]; exact Bool.false_ne_true)]
    rw [hset]
    have hre : (acc ++ [(k, v)]) ++ kvs = acc ++ (k, v) :: kvs := by
      rw [List.append_assoc]
      rfl
    rw [ih (acc ++ [(k, v)]) (by rw [hre]; exact h), hre]

theorem jfuel_pos : ∀ v : JValue, 1 ≤ jfuel v := by
  intro v
  cases v with
  | null => exact Nat.le_refl 1
  | bool b => exact Nat.le_refl 1
  | int n => exact Nat.le_refl 1
  | str s => exact Nat.le_refl 1
  | arr xs =>
    cases xs with
    | nil => exact Nat.le_refl 1
    | cons x t => rw [jfuel]; omega
  | obj kvs =>
    cases kvs with
    | nil => exact Nat.le_refl 1
    | cons p t => rcases p with ⟨k, v2⟩; rw [jfuel]; omega

theorem jfuel_le_dump : ∀ n : Nat,
    (∀ v d, jfuel v ≤ n → jfuel v ≤ (jdump v d).length) ∧
    (∀ xs d, jfuelElems xs ≤ n → jfuelElems xs ≤ (jdumpArrRest xs d).length) ∧
    (∀ ms d, jfuelMembers ms ≤ n → jfuelMembers ms ≤ (jdumpObjRest ms d).length) := by
  intro n
  induction n with
  | zero =>
    refine ⟨?_, ?_, ?_⟩
    · intro v d h
      have := jfuel_pos v
      omega
    · intro xs d h
      cases xs with
      | nil => exact Nat.le_refl 0
      | cons x t =>
        rw [show jfuelElems (x :: t) = 1 + jfuel x + jfuelElems t from rfl] at h
        omega
    · intro ms d h
      cases ms with
      | nil => exact Nat.le_refl 0
      | cons p t =>
        rcases p with ⟨k, v⟩
        rw [show jfuelMembers ((k, v) :: t) = 1 + jfuel v + jfuelMembers t from rfl] at h
        omega
  | succ n ih =>
    obtain ⟨ihV, ihE, ihM⟩ := ih
    refine ⟨?_, ?_, ?_⟩
    · intro v d h
      cases v with
      | null => simp [jfuel, jdump]
      | bool b => cases b <;> simp [jfuel, jdump]
      | int m =>
        obtain ⟨c, t, hct, -, -⟩ := jsonInt_head m
        rw [show jdump (JValue.int m) d = jsonInt m from rfl, hct]
        show 1 ≤ (c :: t).length
        simp
      | str s =>
        rw [show jdump (JValue.str s) d = jsonQuote s from rfl]
        show 1 ≤ (jsonQuote s).length
        unfold jsonQuote
        simp
      | arr xs =>
        cases xs with
        | nil => simp [jfuel, jdump]
        | cons x t =>
          rw [jfuel]
          rw [show jdump (JValue.arr (x :: t)) d =
            '[' :: '\n' :: (jindent (d + 1) ++ jdump x (d + 1) ++
              jdumpArrRest t (d + 1) ++ '\n' :: (jindent d ++ [']'])) from rfl]
          rw [jfuel] at h
          rw [show jfuelElems (x :: t) = 1 + jfuel x + jfuelElems t from rfl] at h ⊢
          have h1 : jfuel x ≤ n := by
            have := jfuel_pos x
            omega
          have h2 : jfuelElems t ≤ n := by
            have := jfuel_pos x
            omega
          have e1 := ihV x (d + 1) h1
          have e2 := ihE t (d + 1) h2
          simp only [List.length_cons, List.length_append]
          omega
      | obj kvs =>
        cases kvs with
        | nil => simp [jfuel, jdump]
        | cons p t =>
          rcases p with ⟨k, v2⟩
          rw [jfuel]
          rw [show jdump (JValue.obj ((k, v2) :: t)) d =
            '\x7b' :: '\n' :: (jindent (d + 1) ++ jsonQuote k ++ ':' :: ' ' ::
              jdump v2 (d + 1) ++ jdumpObjRest t (d + 1) ++
              '\n' :: (jindent d ++ ['\x7d'])) from rfl]
          rw [jfuel] at h
          rw [show jfuelMembers ((k, v2) :: t) = 1 + jfuel v2 + jfuelMembers t from rfl] at h ⊢
          have h1 : jfuel v2 ≤ n := by
            have := jfuel_pos v2
            omega
          have h2 : jfuelMembers t ≤ n := by
            have := jfuel_pos v2
            omega
          have e1 := ihV v2 (d + 1) h1
          have e2 := ihM t (d + 1) h2
          simp only [List.length_cons, List.length_append]
          omega
    · intro xs d h
      cases xs with
      | nil => exact Nat.zero_le _
      | cons x t =>
        rw [show jfuelElems (x :: t) = 1 + jfuel x + jfuelElems t from rfl] at h ⊢
        rw [show jdumpArrRest (x :: t) d =
          ',' :: '\n' :: (jindent d ++ jdump x d ++ jdumpArrRest t d) from rfl]
        have h1 : jfuel x ≤ n := by
          have := jfuel_pos x
          omega
        have h2 : jfuelElems t ≤ n := by
          have := jfuel_pos x
          omega
        have e1 := ihV x d h1
        have e2 := ihE t d h2
        simp only [List.length_cons, List.length_append]
        omega
    · intro ms d h
      cases ms with
      | nil => exact Nat.zero_le _
      | cons p t =>
        rcases p with ⟨k, v2⟩
        rw [show jfuelMembers ((k, v2) :: t) = 1 + jfuel v2 + jfuelMembers t from rfl] at h ⊢
        rw [show jdumpObjRest ((k, v2) :: t) d =
          ',' :: '\n' :: (jindent d ++ jsonQuote k ++ ':' :: ' ' :: jdump v2 d ++
            jdumpObjRest t d) from rfl]
        have h1 : jfuel v2 ≤ n := by
          have := jfuel_pos v2
          omega
        have h2 : jfuelMembers t ≤ n := by
          have := jfuel_pos v2
          omega
        have e1 := ihV v2 d h1
        have e2 := ihM t d h2
        simp only [List.length_cons, List.length_append]
        omega

theorem jparse_dump_all : ∀ f : Nat,
    (∀ v d rest, jfuel v ≤ f → wfValueB v = true →
      (∀ c t', rest = c :: t' →
        isDig c = false ∧ ¬ c = '.' ∧ ¬ c = 'e' ∧ ¬ c = 'E') →
      jparse f (jdump v d ++ rest) = some (v, rest)) ∧
    (∀ x t d rest pre, jfuelElems (x :: t) ≤ f → wfListB (x :: t) = true →
      (∀ u : List Char, skipWs (pre ++ u) = skipWs u) →
      jparseElems f (pre ++ (jdump x (d + 1) ++ (jdumpArrRest t (d + 1) ++
        ('\n' :: (jindent d ++ (']' :: rest)))))) = some (x :: t, rest)) ∧
    (∀ k v2 t d rest pre, jfuelMembers ((k, v2) :: t) ≤ f →
      wfPairsB ((k, v2) :: t) = true →
      (∀ u : List Char, skipWs (pre ++ u) = skipWs u) →
      jparseMembers f (pre ++ (jsonQuote k ++ (':' :: ' ' ::
        (jdump v2 (d + 1) ++ (jdumpObjRest t (d + 1) ++
          ('\n' :: (jindent d ++ ('\x7d' :: rest)))))))) =
        some ((k, v2) :: t, rest)) := by
  intro f
  induction f with
  | zero =>
    refine ⟨?_, ?_, ?_⟩
    · intro v d rest hfu _ _
      have := jfuel_pos v
      omega
    · intro x t d rest pre hfu _ _
      rw [show jfuelElems (x :: t) = 1 + jfuel x + jfuelElems t from rfl] at hfu
      omega
    · intro k v2 t d rest pre hfu _ _
      rw [show jfuelMembers ((k, v2) :: t) = 1 + jfuel v2 + jfuelMembers t
        from rfl] at hfu
      omega
  | succ f ih =>
    obtain ⟨ihV, ihE, ihM⟩ := ih
    refine ⟨?_, ?_, ?_⟩
    · intro v d rest hfu hwf hrest
      cases v with
      | null => rfl
      | bool b => cases b <;> rfl
      | int m =>
        have hint : parseIntTok (jsonInt m ++ rest) = some (m, rest) :=
          parseIntTok_jsonInt m rest hrest
        by_cases hneg : m < 0
        · rw [show jdump (JValue.int m) d = jsonInt m from rfl]
          rw [show jsonInt m = '-' :: natDigs m.natAbs from by
            unfold jsonInt; rw [if_pos hneg]]
          rw [List.cons_append]
          show (parseIntTok ('-' :: (natDigs m.natAbs ++ rest))).map
            (fun r : Int × List Char => (JValue.int r.1, r.2)) =
            some (JValue.int m, rest)
          rw [show '-' :: (natDigs m.natAbs ++ rest) = jsonInt m ++ rest from by
            unfold jsonInt; rw [if_pos hneg]; rfl]
          rw [hint]
          rfl
        · rw [show jdump (JValue.int m) d = jsonInt m from rfl]
          have hji : jsonInt m = natDigs m.natAbs := by
            unfold jsonInt
            rw [if_neg hneg]
          obtain ⟨d0, ds, hds⟩ := List.exists_cons_of_ne_nil (natDigs_ne_nil m.natAbs)
          have hd0 : isDig d0 = true :=
            natDigs_all_isDig _ d0 (by rw [hds]; exact List.mem_cons_self _ _)
          rw [hji, hds, List.cons_append]
          conv_lhs => rw [jparse.eq_def]
          dsimp only
          rw [skipWs_not_ws (isDig_not_jsonWs hd0)]
          have hd0n : d0.toNat < 58 ∧ 47 < d0.toNat := by
            unfold isDig at hd0
            rw [decide_eq_true_eq] at hd0
            omega
          split
          · next heq =>
            injection heq with h1 _
            rw [h1] at hd0
            exact absurd hd0 (by decide)
          · next heq =>
            injection heq with h1 _
            rw [h1] at hd0
            exact absurd hd0 (by decide)
          · next heq =>
            injection heq with h1 _
            rw [h1] at hd0
            exact absurd hd0 (by decide)
          · next heq =>
            injection heq with h1 _
            rw [h1] at hd0
            exact absurd hd0 (by decide)
          · next heq =>
            injection heq with h1 _
            rw [h1] at hd0
            exact absurd hd0 (by decide)
          · next heq =>
            injection heq with h1 _
            rw [h1] at hd0
            exact absurd hd0 (by decide)
          · rw [show d0 :: (ds ++ rest) = jsonInt m ++ rest from by
              rw [hji, hds]; rfl]
            rw [hint]
            rfl
      | str s =>
        rw [show jdump (JValue.str s) d = jsonQuote s from rfl]
        rw [show jsonQuote s ++ rest =
          '"' :: (((s.data.map jsonEscChar).flatten ++ ['"']) ++ rest) from by
            unfold jsonQuote; simp only [List.cons_append]]
        show (parseStrBody ((((s.data.map jsonEscChar).flatten ++ ['"']) ++
            rest).length + 1) (((s.data.map jsonEscChar).flatten ++ ['"']) ++
            rest)).map (fun r : List Char × List Char =>
              (JValue.str (String.mk r.1), r.2)) = some (JValue.str s, rest)
        rw [show ((s.data.map jsonEscChar).flatten ++ ['"']) ++ rest =
          (s.data.map jsonEscChar).flatten ++ '"' :: rest from by
            rw [List.append_assoc]; rfl]
        rw [parseStrBody_esc s.data _ rest (by
          have h1 := esc_flatten_len s.data
          rw [List.length_append, List.length_cons]
          omega)]
        dsimp only [Option.map_some']
      | arr xs =>
        cases xs with
        | nil => rfl
        | cons x t =>
          rw [show jdump (JValue.arr (x :: t)) d ++ rest =
            '[' :: '\n' :: ((jindent (d + 1) ++ jdump x (d + 1) ++
              jdumpArrRest t (d + 1) ++ '\n' :: (jindent d ++ [']'])) ++ rest)
            from rfl]
          obtain ⟨c0, t0, hx, hws0, hbr0⟩ := jdump_head x (d + 1)
          have hT : skipWs ('\n' :: ((jindent (d + 1) ++ jdump x (d + 1) ++
              jdumpArrRest t (d + 1) ++ '\n' :: (jindent d ++ [']'])) ++ rest)) =
              jdump x (d + 1) ++ (jdumpArrRest t (d + 1) ++
                ('\n' :: (jindent d ++ (']' :: rest)))) := by
            rw [show (jindent (d + 1) ++ jdump x (d + 1) ++
              jdumpArrRest t (d + 1) ++ '\n' :: (jindent d ++ [']'])) ++ rest =
              jindent (d + 1) ++ (jdump x (d + 1) ++ (jdumpArrRest t (d + 1) ++
                ('\n' :: (jindent d ++ (']' :: rest))))) from by
              simp only [List.append_assoc, List.cons_append, List.singleton_append, List.nil_append]]
            rw [skipWs_nl_indent]
            rw [hx, List.cons_append]
            exact skipWs_not_ws hws0
          show (match skipWs ('\n' :: ((jindent (d + 1) ++ jdump x (d + 1) ++
              jdumpArrRest t (d + 1) ++ '\n' :: (jindent d ++ [']'])) ++ rest)) with
            | ']' :: t2 => some (JValue.arr [], t2)
            | t2 => (jparseElems f t2).map
                (fun r => (JValue.arr r.1, r.2))) = some (JValue.arr (x :: t), rest)
          rw [hT, hx, List.cons_append]
          split
          · next heq =>
            injection heq with h1 _
            exact absurd h1 hbr0
          · rw [← List.cons_append, ← hx]
            have hE := ihE x t d rest []
              (by rw [jfuel] at hfu; omega)
              (by rw [wfValueB] at hwf; exact hwf)
              (fun u => rfl)
            rw [List.nil_append] at hE
            rw [hE]
            rfl
      | obj kvs =>
        cases kvs with
        | nil => rfl
        | cons p t =>
          rcases p with ⟨k, v2⟩
          rw [show jdump (JValue.obj ((k, v2) :: t)) d ++ rest =
            '\x7b' :: '\n' :: ((jindent (d + 1) ++ jsonQuote k ++ ':' :: ' ' ::
              jdump v2 (d + 1) ++ jdumpObjRest t (d + 1) ++
              '\n' :: (jindent d ++ ['\x7d'])) ++ rest) from rfl]
          have hq : jsonQuote k = '"' :: ((k.data.map jsonEscChar).flatten ++ ['"']) :=
            rfl
          have hT : skipWs ('\n' :: ((jindent (d + 1) ++ jsonQuote k ++ ':' :: ' ' ::
              jdump v2 (d + 1) ++ jdumpObjRest t (d + 1) ++
              '\n' :: (jindent d ++ ['\x7d'])) ++ rest)) =
              jsonQuote k ++ (':' :: ' ' :: (jdump v2 (d + 1) ++
                (jdumpObjRest t (d + 1) ++
                  ('\n' :: (jindent d ++ ('\x7d' :: rest)))))) := by
            rw [show (jindent (d + 1) ++ jsonQuote k ++ ':' :: ' ' ::
              jdump v2 (d + 1) ++ jdumpObjRest t (d + 1) ++
              '\n' :: (jindent d ++ ['\x7d'])) ++ rest =
              jindent (d + 1) ++ (jsonQuote k ++ (':' :: ' ' :: (jdump v2 (d + 1) ++
                (jdumpObjRest t (d + 1) ++
                  ('\n' :: (jindent d ++ ('\x7d' :: rest))))))) from by
              simp only [List.append_assoc, List.cons_append, List.singleton_append, List.nil_append]]
            rw [skipWs_nl_indent]
            rw [hq, List.cons_append]
            exact skipWs_not_ws (by decide)
          show (match skipWs ('\n' :: ((jindent (d + 1) ++ jsonQuote k ++ ':' :: ' ' ::
              jdump v2 (d + 1) ++ jdumpObjRest t (d + 1) ++
              '\n' :: (jindent d ++ ['\x7d'])) ++ rest)) with
            | '\x7d' :: t2 => some (JValue.obj [], t2)
            | t2 => (jparseMembers f t2).map
                (fun r => (JValue.obj (r.1.foldl
                  (fun acc p => dictSet acc p.1 p.2) []), r.2))) =
            some (JValue.obj ((k, v2) :: t), rest)
          rw [hT, hq, List.cons_append]
          split
          · next heq =>
            injection heq with h1 _
            exact absurd h1 (by decide)
          · rw [← List.cons_append, ← hq]
            obtain ⟨hnd, hwp⟩ := wfValue_obj_dest hwf
            have hM := ihM k v2 t d rest []
              (by rw [jfuel] at hfu; omega)
              hwp
              (fun u => rfl)
            rw [List.nil_append] at hM
            rw [hM]
            dsimp only [Option.map_some']
            rw [foldl_dictSet_nodup ((k, v2) :: t) [] (by rw [List.nil_append]; exact hnd)]
            rfl
    · intro x t d rest pre hfu hwl hpre
      conv_lhs => rw [jparseElems.eq_def]
      dsimp only
      have hr3 : ∀ c t', jdumpArrRest t (d + 1) ++
          ('\n' :: (jindent d ++ (']' :: rest))) = c :: t' →
          isDig c = false ∧ ¬ c = '.' ∧ ¬ c = 'e' ∧ ¬ c = 'E' := by
        cases t with
        | nil =>
          intro c t' he
          injection he with h1 _
          rw [← h1]
          exact ⟨by decide, by decide, by decide, by decide⟩
        | cons y t2 =>
          intro c t' he
          rw [show jdumpArrRest (y :: t2) (d + 1) = ',' :: '\n' ::
            (jindent (d + 1) ++ jdump y (d + 1) ++ jdumpArrRest t2 (d + 1))
            from rfl, List.cons_append] at he
          injection he with h1 _
          rw [← h1]
          exact ⟨by decide, by decide, by decide, by decide⟩
      rw [show jfuelElems (x :: t) = 1 + jfuel x + jfuelElems t from rfl] at hfu
      rw [show wfListB (x :: t) = (wfValueB x && wfListB t) from rfl,
        Bool.and_eq_true] at hwl
      have hx : jparse f (pre ++ (jdump x (d + 1) ++ (jdumpArrRest t (d + 1) ++
          ('\n' :: (jindent d ++ (']' :: rest)))))) =
          some (x, jdumpArrRest t (d + 1) ++
            ('\n' :: (jindent d ++ (']' :: rest)))) := by
        rw [jparse_skip (hpre _) f]
        exact ihV x (d + 1) _ (by omega) hwl.1 hr3
      rw [hx]
      dsimp only
      cases t with
      | nil =>
        rw [show jdumpArrRest [] (d + 1) = ([] : List Char) from rfl,
          List.nil_append]
        rw [skipWs_nl_indent, skipWs_not_ws (by decide)]
        rfl
      | cons y t2 =>
        rw [show jdumpArrRest (y :: t2) (d + 1) = ',' :: '\n' ::
          (jindent (d + 1) ++ jdump y (d + 1) ++ jdumpArrRest t2 (d + 1))
          from rfl, List.cons_append]
        rw [skipWs_not_ws (by decide)]
        have hE2 := ihE y t2 d rest ('\n' :: jindent (d + 1))
          (by rw [show jfuelElems (y :: t2) = 1 + jfuel y + jfuelElems t2
            from rfl] at hfu ⊢; omega)
          hwl.2
          (by intro u; rw [List.cons_append]; exact skipWs_nl_indent _ _)
        rw [show ('\n' :: jindent (d + 1)) ++ (jdump y (d + 1) ++
          (jdumpArrRest t2 (d + 1) ++ ('\n' :: (jindent d ++ (']' :: rest))))) =
          '\n' :: (jindent (d + 1) ++ jdump y (d + 1) ++ jdumpArrRest t2 (d + 1) ++
            ('\n' :: (jindent d ++ (']' :: rest)))) from by
          simp only [List.cons_append, List.append_assoc]] at hE2
        show (match jparseElems f ('\n' :: (jindent (d + 1) ++ jdump y (d + 1) ++
            jdumpArrRest t2 (d + 1) ++ '\n' :: (jindent d ++ ']' :: rest))) with
          | some (vs, r3) => some (x :: vs, r3)
          | none => none) = some (x :: y :: t2, rest)
        rw [hE2]
    · intro k v2 t d rest pre hfu hwp hpre
      conv_lhs => rw [jparseMembers.eq_def]
      dsimp only
      have hskip : skipWs (pre ++ (jsonQuote k ++ (':' :: ' ' ::
          (jdump v2 (d + 1) ++ (jdumpObjRest t (d + 1) ++
            ('\n' :: (jindent d ++ ('\x7d' :: rest)))))))) =
          '"' :: (((k.data.map jsonEscChar).flatten ++ ['"']) ++ (':' :: ' ' ::
            (jdump v2 (d + 1) ++ (jdumpObjRest t (d + 1) ++
              ('\n' :: (jindent d ++ ('\x7d' :: rest))))))) := by
        rw [hpre]
        rw [show jsonQuote k = '"' :: ((k.data.map jsonEscChar).flatten ++ ['"'])
          from rfl, List.cons_append]
        exact skipWs_not_ws (by decide)
      rw [show wfPairsB ((k, v2) :: t) = (wfValueB v2 && wfPairsB t) from rfl,
        Bool.and_eq_true] at hwp
      rw [show jfuelMembers ((k, v2) :: t) = 1 + jfuel v2 + jfuelMembers t
        from rfl] at hfu
      have hr3 : ∀ c t', jdumpObjRest t (d + 1) ++
          ('\n' :: (jindent d ++ ('\x7d' :: rest))) = c :: t' →
          isDig c = false ∧ ¬ c = '.' ∧ ¬ c = 'e' ∧ ¬ c = 'E' := by
        cases t with
        | nil =>
          intro c t' he
          injection he with h1 _
          rw [← h1]
          exact ⟨by decide, by decide, by decide, by decide⟩
        | cons p2 t2 =>
          rcases p2 with ⟨k2, v3⟩
          intro c t' he
          rw [show jdumpObjRest ((k2, v3) :: t2) (d + 1) = ',' :: '\n' ::
            (jindent (d + 1) ++ jsonQuote k2 ++ ':' :: ' ' :: jdump v3 (d + 1) ++
              jdumpObjRest t2 (d + 1)) from rfl, List.cons_append] at he
          injection he with h1 _
          rw [← h1]
          exact ⟨by decide, by decide, by decide, by decide⟩
      have hv : jparse f (' ' :: (jdump v2 (d + 1) ++ (jdumpObjRest t (d + 1) ++
          ('\n' :: (jindent d ++ ('\x7d' :: rest)))))) =
          some (v2, jdumpObjRest t (d + 1) ++
            ('\n' :: (jindent d ++ ('\x7d' :: rest)))) := by
        rw [jparse_skip (skipWs_ws (by decide)) f]
        exact ihV v2 (d + 1) _ (by omega) hwp.1 hr3
      rw [hskip]
      simp only [Char.reduceEq]
      rw [show (List.map jsonEscChar k.data).flatten ++ ['"'] ++
        (':' :: ' ' :: (jdump v2 (d + 1) ++ (jdumpObjRest t (d + 1) ++
          ('\n' :: (jindent d ++ ('\x7d' :: rest)))))) =
        (List.map jsonEscChar k.data).flatten ++ '"' :: (':' :: ' ' ::
          (jdump v2 (d + 1) ++ (jdumpObjRest t (d + 1) ++
            ('\n' :: (jindent d ++ ('\x7d' :: rest)))))) from by
        rw [List.append_assoc]; rfl]
      rw [parseStrBody_esc k.data _ _ (by
        have h1 := esc_flatten_len k.data
        rw [List.length_append, List.length_cons]
        omega)]
      dsimp only
      rw [skipWs_not_ws (by decide)]
      simp only [Char.reduceEq]
      rw [hv]
      dsimp only
      cases t with
      | nil =>
        rw [show jdumpObjRest [] (d + 1) = ([] : List Char) from rfl,
          List.nil_append]
        rw [skipWs_nl_indent, skipWs_not_ws (by decide)]
        simp only [Char.reduceEq]
      | cons p2 t2 =>
        rcases p2 with ⟨k2, v3⟩
        rw [show jdumpObjRest ((k2, v3) :: t2) (d + 1) = ',' :: '\n' ::
          (jindent (d + 1) ++ jsonQuote k2 ++ ':' :: ' ' :: jdump v3 (d + 1) ++
            jdumpObjRest t2 (d + 1)) from rfl, List.cons_append]
        rw [skipWs_not_ws (by decide)]
        simp only [Char.reduceEq]
        have hM2 := ihM k2 v3 t2 d rest ('\n' :: jindent (d + 1))
          (by rw [show jfuelMembers ((k2, v3) :: t2) = 1 + jfuel v3 +
            jfuelMembers t2 from rfl] at hfu ⊢; omega)
          hwp.2
          (by intro u; rw [List.cons_append]; exact skipWs_nl_indent _ _)
        rw [show ('\n' :: (jindent (d + 1) ++ jsonQuote k2 ++ ':' :: ' ' ::
          jdump v3 (d + 1) ++ jdumpObjRest t2 (d + 1))) ++
          ('\n' :: (jindent d ++ ('\x7d' :: rest))) =
          ('\n' :: jindent (d + 1)) ++ (jsonQuote k2 ++ (':' :: ' ' ::
            (jdump v3 (d + 1) ++ (jdumpObjRest t2 (d + 1) ++
              ('\n' :: (jindent d ++ ('\x7d' :: rest))))))) from by
          simp only [List.cons_append, List.append_assoc]]
        rw [hM2]

/-- Claim C7: for every manipulator state built solely through the
GraphMutator operations from the empty graph (so its graph is made of
Python dicts — unique keys at every level), `from_json (to_json g)` parses
back successfully and yields the same graph (`json.dumps` with `indent=2`
round-trips through `json.loads` for every such value, including escaped
strings, negative integers, nested arrays and objects).  The id counter is
recomputed from the keys — the graph itself is equal. -/
theorem C7_roundtrip {m : WorkflowManipulator} (h : Reachable m) :
    ∃ m2, m.from_json m.to_json = some m2 ∧ m2.workflow = m.workflow := by
  have hwf := reachable_wf h
  have hfu : jfuel (JValue.obj m.workflow) ≤ (jdump (JValue.obj m.workflow) 0).length :=
    (jfuel_le_dump (jfuel (JValue.obj m.workflow))).1 (JValue.obj m.workflow) 0
      (Nat.le_refl _)
  have hp : jparse ((jdump (JValue.obj m.workflow) 0).length + 1)
      (jdump (JValue.obj m.workflow) 0 ++ []) = some (JValue.obj m.workflow, []) :=
    (jparse_dump_all ((jdump (JValue.obj m.workflow) 0).length + 1)).1
      (JValue.obj m.workflow) 0 [] (by omega) hwf (by intro c t' hc; cases hc)
  rw [List.append_nil] at hp
  have hl : json_loads m.to_json = some (JValue.obj m.workflow) := by
    unfold json_loads WorkflowManipulator.to_json
    rw [show (String.mk (jdump (JValue.obj m.workflow) 0)).data =
      jdump (JValue.obj m.workflow) 0 from rfl]
    rw [hp]
    rfl
  refine ⟨{ workflow := m.workflow
            _next_node_id := WorkflowManipulator._calculate_next_id m.workflow },
    ?_, rfl⟩
  unfold WorkflowManipulator.from_json
  rw [hl]

/-- Claim C7 witness: a concrete two-step build (empty graph, then one
`addNode` with an integer input) round-trips through the dumped JSON text. -/
theorem C7_roundtrip_witness :
    ∃ m2, WorkflowManipulator.from_json
        (WorkflowManipulator.add_node WorkflowManipulator.new "KSampler"
          [("seed", .int 42)] none).2
        (WorkflowManipulator.to_json
          (WorkflowManipulator.add_node WorkflowManipulator.new "KSampler"
            [("seed", .int 42)] none).2) = some m2 ∧
      m2.workflow = (WorkflowManipulator.add_node WorkflowManipulator.new "KSampler"
        [("seed", .int 42)] none).2.workflow :=
  C7_roundtrip (Reachable.add WorkflowManipulator.new "KSampler"
    [("seed", .int 42)] none Reachable.new (by decide) (by decide))
